import Mathlib

/-!
# Generator weight groups: resolution, orphan merge and attribute lookup

A shallow embedding of `GeneratorInterface/Core/src/WeightHelper.cc` (class `gen::WeightHelper`)
and of the parts of the data formats it works on.

Conventions of the embedding

* C++ `int` is `Int`, `size_t` is `Nat`.  Overflow of a signed `int` is undefined behaviour in
  C++.  The sum `index + 1` in the loop bounds of the two resolvers overflows when the loop head
  is reached with `index = INT_MAX`, which happens for the hint `INT_MAX`: the embedding ends
  there with the error `signedOverflow` and says nothing about what the program does next.  The
  sum `lastId + 1` of `getLhapdfId` and the difference `lhaid - offset` of `updatePdfInfo` are
  values that are only stored; they are reduced to 32 bits (`wrapInt32`), so that the stored
  value is the exact one whenever that fits an `int`.
* A registry is taken to hold fewer than `INT_MAX = 2147483647` groups.  On the longer lists that
  the type `List G` also contains, the loop bound is compared in the integers and no overflow is
  reported.
* A thrown exception is the `error` side of `Except HelperError`.
* `std::string` is `String`; text that is scanned character by character is viewed as its list of
  characters.
* Numeric payloads (event weights) are only carried around, never computed with; they are values
  of an arbitrary type `V`.
* `std::stoi` is embedded (`stoi`); `std::stof` and the two LHAPDF lookups are parameters, since
  floating-point conversion and the PDF-set database lie outside the sources.
* The class `gen::WeightGroupInfo` and its subclasses are declared in headers that are not part of
  the sources at hand.  The resolver is therefore parameterised by the three member functions it
  calls (`WeightGroupOps`); the data members and the remaining member functions are modelled from
  the specification, each such definition saying so.
-/

namespace gen

/-! ## Machine integers and errors -/

/-- Two's-complement reduction of an integer to the range of a 32-bit `int`. -/
def wrapInt32 (x : Int) : Int := (x + 2147483648) % 4294967296 - 2147483648

/-- Exceptions raised by the helper.  `rangeError` is the `std::range_error`
"Unmatched Generator weight! ID was .. index was .. Not found in any of .. weightGroups.";
`badIndex` stands for an out-of-bounds element access (undefined behaviour in C++);
`outOfRange` is `std::out_of_range`, thrown by `std::unordered_map::at` and by the numeric
conversions `std::stoi`/`std::stof` when the value does not fit; `invalidArgument` is
`std::invalid_argument`, thrown by the numeric conversions when the text has no numeric prefix;
`badCast` is the `std::bad_cast` of a failed `dynamic_cast` to a reference; `signedOverflow`
stands for the overflow of a signed `int` addition (undefined behaviour in C++). -/
inductive HelperError where
  | rangeError (wgtId : String) (weightIndex : Int) (nGroups : Nat)
  | badIndex (index : Int)
  | outOfRange (key : String)
  | invalidArgument (what : String)
  | badCast
  | signedOverflow
  deriving DecidableEq, Repr

deriving instance DecidableEq for Except

/-! ## The group interface used by the resolver -/

/-- The member functions of `gen::WeightGroupInfo` that the resolver calls.  Their bodies live in
`WeightGroupInfo.h`/`.cc`, outside the sources at hand, so they are parameters: any three total
functions.  The resolver calls them on the registry entry by reference (first loop) and on a
by-value copy of it (second loop, `addWeightToProduct`); both are the same base-class member
functions here. -/
structure WeightGroupOps (G : Type) where
  /-- Method `indexInRange(int index)`. -/
  indexInRange : G → Int → Bool
  /-- Method `containsWeight(std::string wgtId, int weightEntry)`. -/
  containsWeight : G → String → Int → Bool
  /-- Method `weightVectorEntry(std::string wgtId, int weightEntry)`. -/
  weightVectorEntry : G → String → Int → Int

/-- One per-event weight record, `gen::WeightsInfo`: an identifier and a value. -/
structure WeightsInfo (V : Type) where
  id : String
  wgt : V
  deriving DecidableEq

/-- Modelled from the spec: `GenWeightProduct` (declared in `GenWeightProduct.h`, not among the
sources) is, per event, an ordered sequence of `(value, groupIndex, slotIndex)` triples; it also
records the seed weight it was constructed with and the number of weight sets. -/
structure GenWeightProduct (V : Type) where
  centralWeight : V
  numWeightSets : Nat
  weights : List (V × Int × Int)
  deriving DecidableEq

variable {G V : Type}

/-- Constructor `GenWeightProduct(w0)`. -/
def GenWeightProduct.new (w0 : V) : GenWeightProduct V :=
  { centralWeight := w0, numWeightSets := 0, weights := [] }

/-- Method `setNumWeightSets`. -/
def GenWeightProduct.setNumWeightSets (p : GenWeightProduct V) (n : Nat) : GenWeightProduct V :=
  { p with numWeightSets := n }

/-- Modelled from the spec: `GenWeightProduct::addWeight(value, groupIndex, slotIndex)` appends the
triple to the sequence. -/
def GenWeightProduct.addWeight (p : GenWeightProduct V) (weight : V) (groupIndex entry : Int) :
    GenWeightProduct V :=
  { p with weights := p.weights ++ [(weight, groupIndex, entry)] }

/-! ## `WeightHelper::findContainingWeightGroup` -/

/-- The first loop of `findContainingWeightGroup`,
`for (int index = previousGroupIndex; index < std::min(index + 1, size); index++)`,
started at `index`.  Every pass through the loop head consumes one unit of `fuel`; the bound is
re-evaluated with the current `index` on every pass, as in the source.  The head computes
`index + 1` in `int`: with `index = INT_MAX` that sum overflows and the loop ends with
`signedOverflow`. -/
def probeLoop (ops : WeightGroupOps G) (weightGroups_ : List G) (wgtId : String)
    (weightIndex : Int) : Nat → Nat → Except HelperError (Option Int)
  | 0, _ => .ok none
  | fuel + 1, index =>
    if weightGroups_.length < 2147483647 ∧ 2147483647 ≤ index then .error .signedOverflow
    else if (index : Int) < min ((index : Int) + 1) (weightGroups_.length : Int) then
      match weightGroups_[index]? with
      | some weightGroup =>
        if ops.indexInRange weightGroup weightIndex
            && ops.containsWeight weightGroup wgtId weightIndex then
          .ok (some (index : Int))
        else probeLoop ops weightGroups_ wgtId weightIndex fuel (index + 1)
      | none => .ok none
    else .ok none

/-- The second loop of `findContainingWeightGroup`: `for (auto weightGroup : weightGroups_)` with
the running `counter`. -/
def fallbackSearch (ops : WeightGroupOps G) (wgtId : String) (weightIndex : Int) :
    List G → Int → Option Int
  | [], _ => none
  | weightGroup :: rest, counter =>
    if ops.containsWeight weightGroup wgtId weightIndex then some counter
    else fallbackSearch ops wgtId weightIndex rest (counter + 1)

/-- `int WeightHelper::findContainingWeightGroup(std::string wgtId, int weightIndex,
int previousGroupIndex)`.  The probe loop passes its head at most once per registry entry and
once more to leave, so `1 + weightGroups_.length` units of fuel never run out
(`probeLoop_fuel`). -/
def findContainingWeightGroup (ops : WeightGroupOps G) (weightGroups_ : List G) (wgtId : String)
    (weightIndex : Int) (previousGroupIndex : Int) : Except HelperError Int :=
  let previousGroupIndex := if previousGroupIndex ≥ 0 then previousGroupIndex else 0
  match probeLoop ops weightGroups_ wgtId weightIndex (1 + weightGroups_.length)
      previousGroupIndex.toNat with
  | .error e => .error e
  | .ok (some index) => .ok index
  | .ok none =>
    match fallbackSearch ops wgtId weightIndex weightGroups_ 0 with
    | some counter => .ok counter
    | none => .error (.rangeError wgtId weightIndex weightGroups_.length)

/-! ## `WeightHelper::addWeightToProduct` and the two `weightProduct` overloads -/

/-- `int WeightHelper::addWeightToProduct(product, weight, name, weightNum, groupIndex)`; the
product is passed by reference in the source and is returned together with the group index
here. -/
def addWeightToProduct (ops : WeightGroupOps G) (weightGroups_ : List G)
    (product : GenWeightProduct V) (weight : V) (name : String) (weightNum : Int)
    (groupIndex : Int) : Except HelperError (GenWeightProduct V × Int) :=
  match findContainingWeightGroup ops weightGroups_ name weightNum groupIndex with
  | .error e => .error e
  | .ok groupIndex =>
    match weightGroups_[groupIndex.toNat]? with
    | none => .error (.badIndex groupIndex)
    | some group =>
      let entry := ops.weightVectorEntry group name weightNum
      .ok (product.addWeight weight groupIndex entry, groupIndex)

/-- The loop of `weightProduct(std::vector<gen::WeightsInfo>, float)`:
`weightGroupIndex = addWeightToProduct(weightProduct, weight.wgt, weight.id, i++, weightGroupIndex)`
for each weight in order. -/
def weightProductInfoLoop (ops : WeightGroupOps G) (weightGroups_ : List G) :
    List (WeightsInfo V) → GenWeightProduct V → Int → Int → Except HelperError (GenWeightProduct V)
  | [], product, _, _ => .ok product
  | weight :: rest, product, i, weightGroupIndex =>
    match addWeightToProduct ops weightGroups_ product weight.wgt weight.id i weightGroupIndex with
    | .error e => .error e
    | .ok (product, weightGroupIndex) =>
      weightProductInfoLoop ops weightGroups_ rest product (i + 1) weightGroupIndex

/-- `WeightHelper::weightProduct(std::vector<gen::WeightsInfo> weights, float w0)`. -/
def weightProductInfo (ops : WeightGroupOps G) (weightGroups_ : List G)
    (weights : List (WeightsInfo V)) (w0 : V) : Except HelperError (GenWeightProduct V) :=
  let weightProduct := (GenWeightProduct.new w0).setNumWeightSets weightGroups_.length
  weightProductInfoLoop ops weightGroups_ weights weightProduct 0 0

/-- The loop of `weightProduct(std::vector<double>, float)`:
`addWeightToProduct(weightProduct, weights.at(i), "", i, weightGroupIndex)` for `i` from 0; the
returned group index is discarded, so `weightGroupIndex` keeps its initial value. -/
def weightProductDoubleLoop (ops : WeightGroupOps G) (weightGroups_ : List G) :
    List V → GenWeightProduct V → Int → Int → Except HelperError (GenWeightProduct V)
  | [], product, _, _ => .ok product
  | weight :: rest, product, i, weightGroupIndex =>
    match addWeightToProduct ops weightGroups_ product weight "" i weightGroupIndex with
    | .error e => .error e
    | .ok (product, _) =>
      weightProductDoubleLoop ops weightGroups_ rest product (i + 1) weightGroupIndex

/-- `WeightHelper::weightProduct(std::vector<double> weights, float w0)`. -/
def weightProductDouble (ops : WeightGroupOps G) (weightGroups_ : List G)
    (weights : List V) (w0 : V) : Except HelperError (GenWeightProduct V) :=
  let weightProduct := (GenWeightProduct.new w0).setNumWeightSets weightGroups_.length
  if weightGroups_.length > 1 then
    weightProductDoubleLoop ops weightGroups_ weights weightProduct 0 0
  else .ok weightProduct

/-! ## The group data model -/

/-- Enumeration `gen::WeightType`, restricted to the variants the helper distinguishes. -/
inductive WeightType where
  | kPdfWeights
  | kScaleWeights
  | kMEParamWeights
  | kUnknownWeights
  deriving DecidableEq, Repr

/-- Uncertainty type of a Pdf group (`gen::kHessianUnc`, `gen::kMonteCarloUnc`,
`gen::kUnknownUnc`). -/
inductive PdfUncertaintyType where
  | kHessianUnc
  | kMonteCarloUnc
  | kUnknownUnc
  deriving DecidableEq, Repr

/-- Modelled from the spec: a member record of a group, `WeightRecord {globalIndex, id, label}`
(the element type of `idsContained()`, declared in `WeightGroupInfo.h`, not among the sources). -/
structure WeightRecord where
  globalIndex : Int
  id : String
  label : String
  deriving DecidableEq, Repr

/-- Modelled from the spec: the data members common to all group variants (base class
`gen::WeightGroupInfo`, declared outside the sources): name, description, well-formedness flag,
the ordered member list and the lowest/highest global index seen (`none` while the group has no
member). -/
structure WeightGroupInfoBase where
  name : String
  description : String
  isWellFormed : Bool
  idsContained : List WeightRecord
  indexRange : Option (Int × Int)
  deriving DecidableEq, Repr

/-- A value of the C++ type `float`: a finite value `mantissa * 2 ^ exponent`, an infinity or a
NaN.  Values are produced by `std::stof` and stored; no arithmetic is done on them. -/
inductive FloatValue where
  | finite (mantissa exponent : Int)
  | infinity (negative : Bool)
  | nan
  deriving DecidableEq, Repr

/-- Modelled from the spec: the value of the scale map of a Scale group,
`(muR, muF, dynNum?, dynLabel?)`. -/
structure ScaleTuple where
  muR : FloatValue
  muF : FloatValue
  dynNum : Option Int
  dynLabel : Option String
  deriving DecidableEq, Repr

/-- Modelled from the spec: the Scale variant (`gen::ScaleWeightGroupInfo`, declared outside the
sources) adds `containsCentral`, `lhaid` (`-1` unset, `-2` unresolved) and the scale map
`muRMuFByIndex`, keyed by member index; the entry found first under a key is the current one. -/
structure ScaleWeightGroupInfo extends WeightGroupInfoBase where
  containsCentral : Bool
  lhaid : Int
  muRMuFByIndex : List (Nat × ScaleTuple) := []
  deriving DecidableEq, Repr

/-- Modelled from the spec: the Pdf variant (`gen::PdfWeightGroupInfo`, declared outside the
sources) adds the id sequence, the parent set id (`-1` unset) and the uncertainty type.  The
three data members `hasAlphasVars_`, `alphasUpIndex_` and `alphasDownIndex_` are those that
`PdfWeightGroupInfo::copy` assigns; a group built without them has no alpha_s variations. -/
structure PdfWeightGroupInfo extends WeightGroupInfoBase where
  lhaIds : List Int
  parentLhapdfId : Int
  uncertaintyType : PdfUncertaintyType
  hasAlphasVars : Bool := false
  alphasUpIndex : Int := -1
  alphasDownIndex : Int := -1
  deriving DecidableEq, Repr

/-- An element of the registry `edm::OwnVector<gen::WeightGroupInfo>`: a group of one of the four
variants. -/
inductive WeightGroupInfo where
  | scale (g : ScaleWeightGroupInfo)
  | pdf (g : PdfWeightGroupInfo)
  | meParam (g : WeightGroupInfoBase)
  | unknown (g : WeightGroupInfoBase)
  deriving DecidableEq, Repr

/-- Method `weightType()`. -/
def WeightGroupInfo.weightType : WeightGroupInfo → WeightType
  | .scale _ => .kScaleWeights
  | .pdf _ => .kPdfWeights
  | .meParam _ => .kMEParamWeights
  | .unknown _ => .kUnknownWeights

/-- The base-class part of a group. -/
def WeightGroupInfo.base : WeightGroupInfo → WeightGroupInfoBase
  | .scale g => g.toWeightGroupInfoBase
  | .pdf g => g.toWeightGroupInfoBase
  | .meParam g => g
  | .unknown g => g

/-- Method `nIdsContained()`: the number of member records. -/
def WeightGroupInfoBase.nIdsContained (g : WeightGroupInfoBase) : Nat := g.idsContained.length

/-- Modelled from the spec: `indexInRange(index)`, whether the lowest/highest global index seen
by the group encloses `index`. -/
def WeightGroupInfo.indexInRange (g : WeightGroupInfo) (index : Int) : Bool :=
  match g.base.indexRange with
  | some (lo, hi) => decide (lo ≤ index) && decide (index ≤ hi)
  | none => false

/-- Modelled from the spec: `containsWeight(id, index)`, the membership predicate "id and/or
index present among its members". -/
def WeightGroupInfo.containsWeight (g : WeightGroupInfo) (wgtId : String) (weightEntry : Int) :
    Bool :=
  g.base.idsContained.any (fun m => m.id == wgtId || m.globalIndex == weightEntry)

/-- Modelled from the spec: `weightVectorEntry(id, index)`, the ordinal position within the
membership list of the first member recorded under that id or index (`-1` if there is none). -/
def WeightGroupInfo.weightVectorEntry (g : WeightGroupInfo) (wgtId : String) (weightEntry : Int) :
    Int :=
  let n := g.base.idsContained.findIdx (fun m => m.id == wgtId || m.globalIndex == weightEntry)
  if n < g.base.idsContained.length then (n : Int) else -1

/-- The spec-modelled member functions, packaged for the resolver. -/
def specOps : WeightGroupOps WeightGroupInfo :=
  { indexInRange := WeightGroupInfo.indexInRange
    containsWeight := WeightGroupInfo.containsWeight
    weightVectorEntry := WeightGroupInfo.weightVectorEntry }

/-- Widening of an index range by one more global index. -/
def widenRange (r : Option (Int × Int)) (index : Int) : Option (Int × Int) :=
  match r with
  | none => some (index, index)
  | some (lo, hi) => some (min lo index, max hi index)

/-- Modelled from the spec: `ScaleWeightGroupInfo::addContainedId(globalIndex, id, label, muR,
muF)` as the merge pass uses it (with `muR = muF = 1`, the nominal scales): the index, id and
label are copied into a new member record at the end of the member list, the index range is
widened to the new index, and the group is marked as containing its central weight. -/
def ScaleWeightGroupInfo.addContainedId (g : ScaleWeightGroupInfo) (globalIndex : Int)
    (id label : String) (_muR _muF : Int) : ScaleWeightGroupInfo :=
  { g with
    idsContained := g.idsContained ++ [{ globalIndex := globalIndex, id := id, label := label }]
    indexRange := widenRange g.indexRange globalIndex
    containsCentral := true }

/-! ## `WeightHelper::cleanupOrphanCentralWeight` -/

/-- The inner loop `for (auto subIt = weightGroups_.begin(); subIt < it; subIt++)`: `subs` are the
groups from `subIt` up to (excluding) `it`, `pos` is `subIt - weightGroups_.begin()`.  A group
whose `weightType()` is not `kPdfWeights` is skipped; for the others the `dynamic_cast` to the Pdf
variant succeeds.  `idsContained().at(0)` is the head of the member list, which is present when
`nIdsContained() == 1`. -/
def cleanupInner : List WeightGroupInfo → Nat → ScaleWeightGroupInfo → List Nat →
    ScaleWeightGroupInfo × List Nat
  | [], _, baseWeight, removeList => (baseWeight, removeList)
  | sub :: rest, pos, baseWeight, removeList =>
    match sub with
    | .pdf subWeight =>
      if subWeight.nIdsContained == 1 && subWeight.parentLhapdfId == baseWeight.lhaid then
        match subWeight.idsContained with
        | info :: _ =>
          cleanupInner rest (pos + 1)
            (baseWeight.addContainedId info.globalIndex info.id info.label 1 1)
            (removeList ++ [pos])
        | [] => cleanupInner rest (pos + 1) baseWeight removeList
      else cleanupInner rest (pos + 1) baseWeight removeList
    | _ => cleanupInner rest (pos + 1) baseWeight removeList

/-- The outer loop `for (auto it = weightGroups_.begin(); it < weightGroups_.end(); it++)`:
`done` are the groups before `it` (in their current state), the second list those from `it` on.
A group whose `weightType()` is not `kScaleWeights` is skipped.  Returns the registry after the
loop together with `removeList`. -/
def cleanupOuter : List WeightGroupInfo → List WeightGroupInfo → List Nat →
    List WeightGroupInfo × List Nat
  | done, [], removeList => (done, removeList)
  | done, g :: rest, removeList =>
    match g with
    | .scale baseWeight =>
      if baseWeight.containsCentral then
        cleanupOuter (done ++ [.scale baseWeight]) rest removeList
      else
        let r := cleanupInner done 0 baseWeight removeList
        cleanupOuter (done ++ [.scale r.1]) rest r.2
    | _ => cleanupOuter (done ++ [g]) rest removeList

/-- The removal loop `for (auto idx : removeList) weightGroups_.erase(weightGroups_.begin() + idx)`. -/
def eraseAll : List WeightGroupInfo → List Nat → List WeightGroupInfo
  | weightGroups_, [] => weightGroups_
  | weightGroups_, idx :: rest => eraseAll (weightGroups_.eraseIdx idx) rest

/-- `void WeightHelper::cleanupOrphanCentralWeight()`, as a function from the registry before to
the registry after; `std::sort(.., std::greater<int>())` is a descending sort. -/
def cleanupOrphanCentralWeight (weightGroups_ : List WeightGroupInfo) : List WeightGroupInfo :=
  let r := cleanupOuter [] weightGroups_ []
  eraseAll r.1 (r.2.insertionSort (fun a b => a ≥ b))

/-! ## Attribute lookup: `searchAttributes`, `searchAttributesByTag`, `searchAttributesByRegex` -/

/-- `struct ParsedWeight` of `WeightHelper.h`; the `unordered_map` of attributes is an association
list read by key. -/
structure ParsedWeight where
  id : String
  index : Nat
  groupname : String
  content : String
  attributes : List (String × String)
  wgtGroup_idx : Nat
  deriving DecidableEq, Repr

/-- The table `attributeNames_` of `WeightHelper.h`: "possible names for the same thing". -/
def attributeNames_ : List (String × List String) :=
  [("muf", ["muF", "MUF", "muf", "facscfact"]),
   ("mur", ["muR", "MUR", "mur", "renscfact"]),
   ("pdf", ["PDF", "PDF set", "lhapdf", "pdf", "pdf set", "pdfset"]),
   ("dyn", ["DYN_SCALE"]),
   ("dyn_name", ["dyn_scale_choice"])]

/-- Whitespace in the classic locale (`std::isspace`), which is what `\s` of `std::regex` and
`boost::algorithm::trim_copy` test for. -/
def isspace (c : Char) : Bool :=
  c == ' ' || c == '\t' || c == '\n' || c == '\x0b' || c == '\x0c' || c == '\r'

/-- Trimming `boost::algorithm::trim_copy_if(s, pred)`: the characters satisfying `pred` are
removed from both ends. -/
def trim_copy_if (s : List Char) (pred : Char → Bool) : List Char :=
  ((s.dropWhile pred).reverse.dropWhile pred).reverse

/-- Trimming `boost::algorithm::trim_copy(s)`: whitespace is removed from both ends. -/
def trim_copy (s : List Char) : List Char := trim_copy_if s isspace

/-- The loop of `searchAttributesByTag` over the aliases of a field. -/
def searchAttributesByTagLoop (attributes : List (String × String)) : List String → String
  | [] => ""
  | lab :: rest =>
    match attributes.lookup lab with
    | some value => String.mk (trim_copy_if value.toList (fun c => c == '"'))
    | none => searchAttributesByTagLoop attributes rest

/-- `std::string WeightHelper::searchAttributesByTag(label, weight)`. -/
def searchAttributesByTag (label : String) (weight : ParsedWeight) : Except HelperError String :=
  match attributeNames_.lookup label with
  | none => .error (.outOfRange label)
  | some labs => .ok (searchAttributesByTagLoop weight.attributes labs)

/-- The fragment of ECMAScript regular expressions that the two patterns of
`searchAttributesByRegex` are written in: a character class, a greedy `*` on a class,
concatenation, a greedy optional part and the capture group. -/
inductive Regex where
  | eps
  | cls (p : Char → Bool)
  | many (p : Char → Bool)
  | cat (a b : Regex)
  | opt (a : Regex)
  | group (a : Regex)

/-- Greedy `p*` with backtracking: the longest run is tried first, then shorter ones, each
followed by the continuation `k`. -/
def Regex.manyRun {β : Type} (p : Char → Bool) : List Char → (List Char → Option β) → Option β
  | [], k => k []
  | c :: t, k =>
    if p c then
      match Regex.manyRun p t k with
      | some r => some r
      | none => k (c :: t)
    else k (c :: t)

/-- Backtracking matcher in continuation-passing style: `run r s cap k` matches `r` at the start
of `s` and hands the rest of the input and the text of the capture group to `k`, trying the
alternatives in ECMAScript priority order until `k` succeeds. -/
def Regex.run {β : Type} : Regex → List Char → Option (List Char) →
    (List Char → Option (List Char) → Option β) → Option β
  | .eps, s, cap, k => k s cap
  | .cls p, s, cap, k =>
    match s with
    | c :: t => if p c then k t cap else none
    | [] => none
  | .many p, s, cap, k => Regex.manyRun p s (fun rest => k rest cap)
  | .cat a b, s, cap, k => Regex.run a s cap (fun rest cap1 => Regex.run b rest cap1 k)
  | .opt a, s, cap, k =>
    match Regex.run a s cap k with
    | some r => some r
    | none => k s cap
  | .group a, s, cap, k =>
    Regex.run a s cap (fun rest _ => k rest (some (s.take (s.length - rest.length))))

/-- The call `std::regex_search(content, match, r)` followed by `match.str(1)`: the leftmost start
position at which `r` matches wins; the result is the text of capture group 1, `none` when there
is no match anywhere. -/
def regex_search (r : Regex) : List Char → Option (List Char)
  | [] => r.run [] none (fun _ cap => some (cap.getD []))
  | c :: t =>
    match r.run (c :: t) none (fun _ cap => some (cap.getD [])) with
    | some m => some m
    | none => regex_search r t

/-- A literal piece of a pattern (the alias names contain no regex metacharacter). -/
def Regex.lit : List Char → Regex
  | [] => .eps
  | c :: t => .cat (.cls (fun x => x == c)) (Regex.lit t)

/-- Greedy `p+`. -/
def Regex.plus (p : Char → Bool) : Regex := .cat (.cls p) (.many p)

/-- Pattern `floatExpr`: `lab + "\\s*=\\s*([0-9.]+(?:[eE][+-]?[0-9]+)?)"`. -/
def floatExpr (lab : String) : Regex :=
  .cat (Regex.lit lab.toList) (.cat (.many isspace) (.cat (.cls (fun c => c == '='))
    (.cat (.many isspace)
      (.group (.cat (Regex.plus (fun c => c.isDigit || c == '.'))
        (.opt (.cat (.cls (fun c => c == 'e' || c == 'E'))
          (.cat (.opt (.cls (fun c => c == '+' || c == '-'))) (Regex.plus Char.isDigit)))))))))

/-- Pattern `strExpr`: `lab + "\\s*=\\s*([^=]+)"`. -/
def strExpr (lab : String) : Regex :=
  .cat (Regex.lit lab.toList) (.cat (.many isspace) (.cat (.cls (fun c => c == '='))
    (.cat (.many isspace) (.group (Regex.plus (fun c => c != '='))))))

/-- The loop of `searchAttributesByRegex` over the aliases of a field. -/
def searchAttributesByRegexLoop (content : String) : List String → String
  | [] => ""
  | lab :: rest =>
    match regex_search (floatExpr lab) content.toList with
    | some m => String.mk (trim_copy m)
    | none =>
      match regex_search (strExpr lab) content.toList with
      | some m => String.mk (trim_copy m)
      | none => searchAttributesByRegexLoop content rest

/-- `std::string WeightHelper::searchAttributesByRegex(label, weight)`. -/
def searchAttributesByRegex (label : String) (weight : ParsedWeight) : Except HelperError String :=
  match attributeNames_.lookup label with
  | none => .error (.outOfRange label)
  | some labs => .ok (searchAttributesByRegexLoop weight.content labs)

/-- `std::string WeightHelper::searchAttributes(label, weight)`:
`attribute.empty() ? searchAttributesByRegex(label, weight) : attribute`. -/
def searchAttributes (label : String) (weight : ParsedWeight) : Except HelperError String :=
  match searchAttributesByTag label weight with
  | .error e => .error e
  | .ok attr => if attr.isEmpty then searchAttributesByRegex label weight else .ok attr

/-! ## A single-probe reading of the resolver, and registries used as examples -/

/-- Resolution as the specification words it (section 4.4): probe the one entry at
`previousGroupIndex` (clamped to 0), accept it if its index range contains the index and its
membership predicate matches; otherwise return the first group of a full scan that contains the
weight, and signal the unmatched weight if there is none. -/
def specSingleProbeResolve (ops : WeightGroupOps G) (weightGroups_ : List G) (wgtId : String)
    (weightIndex : Int) (previousGroupIndex : Int) : Except HelperError Int :=
  let fullScan : Except HelperError Int :=
    match weightGroups_.findIdx? (fun g => ops.containsWeight g wgtId weightIndex) with
    | some n => .ok (n : Int)
    | none => .error (.rangeError wgtId weightIndex weightGroups_.length)
  let p := (max previousGroupIndex 0).toNat
  match weightGroups_[p]? with
  | some g =>
    if ops.indexInRange g weightIndex && ops.containsWeight g wgtId weightIndex then .ok (p : Int)
    else fullScan
  | none => fullScan

/-- A base part with the given name, members and index range. -/
def exampleBase (name : String) (members : List WeightRecord) (range : Option (Int × Int)) :
    WeightGroupInfoBase :=
  { name := name, description := "", isWellFormed := true, idsContained := members,
    indexRange := range }

/-- Group `A` of the resolution example: a Scale group holding the global indices 0 to 2. -/
def exampleGroupA : WeightGroupInfo :=
  .scale { exampleBase "A" [⟨0, "a0", ""⟩, ⟨1, "a1", ""⟩, ⟨2, "a2", ""⟩] (some (0, 2)) with
    containsCentral := true, lhaid := -1 }

/-- Group `B` of the resolution example: a Pdf group holding the global indices 3 to 5. -/
def exampleGroupB : WeightGroupInfo :=
  .pdf { exampleBase "B" [⟨3, "b3", ""⟩, ⟨4, "b4", ""⟩, ⟨5, "b5", ""⟩] (some (3, 5)) with
    lhaIds := [13000, 13001, 13002], parentLhapdfId := 13000, uncertaintyType := .kUnknownUnc }

/-- The registry `[A(idx 0-2), B(idx 3-5)]`. -/
def exampleRegistryAB : List WeightGroupInfo := [exampleGroupA, exampleGroupB]

/-- The registry of a sample whose weights carry no ids, as the classification leaves it: the
nominal weight (global index 0) alone in a Pdf group of the set 13000, a Pdf group holding the
indices 1 and 2, and a Scale group for the set 13000 that holds the indices 3 and 4 and lacks
its central weight. -/
def exampleRegistryUnmerged : List WeightGroupInfo :=
  [.pdf { exampleBase "central" [⟨0, "", ""⟩] (some (0, 0)) with
      lhaIds := [13000], parentLhapdfId := 13000, uncertaintyType := .kUnknownUnc },
   .pdf { exampleBase "Y" [⟨1, "", ""⟩, ⟨2, "", ""⟩] (some (1, 2)) with
      lhaIds := [13001, 13002], parentLhapdfId := 13000, uncertaintyType := .kUnknownUnc },
   .scale { exampleBase "S" [⟨3, "", ""⟩, ⟨4, "", ""⟩] (some (3, 4)) with
      containsCentral := false, lhaid := 13000 }]

/-- The registry `exampleRegistryUnmerged` after the merge pass: the Pdf group `Y` (indices 1
and 2) and the Scale group, which has absorbed the nominal weight (indices 3, 4 and 0). -/
def exampleRegistryMerged : List WeightGroupInfo :=
  [.pdf { exampleBase "Y" [⟨1, "", ""⟩, ⟨2, "", ""⟩] (some (1, 2)) with
      lhaIds := [13001, 13002], parentLhapdfId := 13000, uncertaintyType := .kUnknownUnc },
   .scale { exampleBase "S" [⟨3, "", ""⟩, ⟨4, "", ""⟩, ⟨0, "", ""⟩] (some (0, 4)) with
      containsCentral := true, lhaid := 13000 }]

/-- Two per-event weight records, both members of group `A`. -/
def exampleWeightsA : List (WeightsInfo Int) := [⟨"a0", 10⟩, ⟨"a1", 20⟩]

/-! ## Predicates and registries for the orphan merge -/

/-- The test the inner loop of the merge pass applies to an earlier group: a Pdf group with
exactly one member whose parent set id equals `lhaid`. -/
def isOrphanCentral (g : WeightGroupInfo) (lhaid : Int) : Bool :=
  match g with
  | .pdf p => p.nIdsContained == 1 && p.parentLhapdfId == lhaid
  | _ => false

/-- The test the outer loop of the merge pass applies: a Scale group without central entry. -/
def lacksCentral (g : WeightGroupInfo) : Bool :=
  match g with
  | .scale s => !s.containsCentral
  | _ => false

/-- A singleton Pdf group holding the nominal weight of the set with id 13000. -/
def exampleOrphanPdf : PdfWeightGroupInfo :=
  { exampleBase "NNPDF31_nnlo_hessian_pdfas" [⟨0, "1000", "central"⟩] (some (0, 0)) with
    lhaIds := [13000], parentLhapdfId := 13000, uncertaintyType := .kUnknownUnc }

/-- A Scale group without central entry, for the set with id 13000, holding two members. -/
def exampleScaleNoCentral (name : String) (first : Int) : ScaleWeightGroupInfo :=
  { exampleBase name [⟨first, "s1", "muR=2 muF=1"⟩, ⟨first + 1, "s2", "muR=0.5 muF=1"⟩]
      (some (first, first + 1)) with
    containsCentral := false, lhaid := 13000 }

/-- The registry of the orphan-merge example: the singleton Pdf group, an unrelated group, the
Scale group lacking its central weight, and the Pdf group `B`. -/
def exampleRegistryOrphan : List WeightGroupInfo :=
  [.pdf exampleOrphanPdf, .meParam (exampleBase "mg_reweighting" [⟨9, "r", ""⟩] (some (9, 9))),
   .scale (exampleScaleNoCentral "scale_variation" 1), exampleGroupB]

/-- A registry with two Scale groups lacking their central weight for the same set id, preceded
by the singleton Pdf group. -/
def exampleRegistryTwoScales : List WeightGroupInfo :=
  [.pdf exampleOrphanPdf, .scale (exampleScaleNoCentral "scale_variation" 1),
   .scale (exampleScaleNoCentral "scale_variation_2" 3)]

/-! ## Weights used as examples for the attribute lookup -/

/-- A weight with free text only: `content = "mur=1.0 muf=2.0"`, no tagged attribute. -/
def exampleWeightFreeText : ParsedWeight :=
  { id := "1", index := 0, groupname := "", content := "mur=1.0 muf=2.0", attributes := [],
    wgtGroup_idx := 0 }

/-- A weight whose tag `muR` carries a value: `muR="1.5"`, quotes included. -/
def exampleWeightTagged : ParsedWeight :=
  { id := "2", index := 1, groupname := "", content := "mur=1.0 muf=2.0",
    attributes := [("MUR", "7"), ("muR", "\"1.5\"")], wgtGroup_idx := 0 }

/-- A weight whose tag `muR` is present with nothing between its quotes, `muR=""`, while the
free text names a value. -/
def exampleWeightEmptyTag : ParsedWeight :=
  { id := "3", index := 2, groupname := "", content := "mur=1.0 muf=2.0",
    attributes := [("muR", "\"\"")], wgtGroup_idx := 0 }


/-- A weight with free text only, in which the scale factor is assigned with blanks around the
equals sign and an exponent, and the name of the dynamic scale is given as plain text followed
by a further assignment. -/
def exampleWeightGenericText : ParsedWeight :=
  { id := "4", index := 3, groupname := "",
    content := "mur = 1.5e-3 dyn_scale_choice = sum pt \t= 7", attributes := [],
    wgtGroup_idx := 0 }

/-! ## The two free-text patterns, read without a regular-expression engine

The specification (section 4.1) names the two patterns of the free-text search,
`alias\s*=\s*<number>` and `alias\s*=\s*<until next '='>`.  The definitions of this section
read them directly on the list of characters, independently of the matcher `Regex.run`; the
matcher is compared with them in the theorems. -/

/-- The head `alias\s*=` of both patterns at the start of `s`: the alias, any whitespace and an
equals sign; the result is what follows the equals sign. -/
def specAssignment (lab s : List Char) : Option (List Char) :=
  if lab.isPrefixOf s then
    match (s.drop lab.length).dropWhile isspace with
    | c :: rest => if c == '=' then some rest else none
    | [] => none
  else none

/-- The exponent `[eE][+-]?[0-9]+` of a number at the start of `s`: the letter, the sign if there
is one, and the digits that follow; the empty text when `s` does not start with an exponent. -/
def specExponent (s : List Char) : List Char :=
  match s with
  | e :: t =>
    if e == 'e' || e == 'E' then
      let sign : List Char :=
        match t with
        | c :: _ => if c == '+' || c == '-' then [c] else []
        | [] => []
      let digits := (t.drop sign.length).takeWhile Char.isDigit
      if digits.isEmpty then [] else e :: (sign ++ digits)
    else []
  | [] => []

/-- The `<number>` of the numeric pattern, `[0-9.]+(?:[eE][+-]?[0-9]+)?`, at the start of `s`:
the longest run of digits and dots, which must not be empty, and the exponent that follows it
if there is one. -/
def specNumber (s : List Char) : Option (List Char) :=
  let mantissa := s.takeWhile (fun c => c.isDigit || c == '.')
  if mantissa.isEmpty then none
  else some (mantissa ++ specExponent (s.dropWhile (fun c => c.isDigit || c == '.')))

/-- The numeric pattern `alias\s*=\s*<number>` at the start of `s`: the number that follows the
equals sign and any whitespace. -/
def specNumericAt (lab s : List Char) : Option (List Char) :=
  match specAssignment lab s with
  | some rest => specNumber (rest.dropWhile isspace)
  | none => none

/-- The generic pattern `alias\s*=\s*<text up to the next '='>` at the start of `s`: the text
between the equals sign and the next equals sign (or the end of the content), which must not be
empty.  The text is given with the whitespace it starts with; the trimming of the result removes
it. -/
def specGenericAt (lab s : List Char) : Option (List Char) :=
  match specAssignment lab s with
  | some rest =>
    let text := rest.takeWhile (fun c => c != '=')
    if text.isEmpty then none else some text
  | none => none

/-- A search through the content: the result of `f` at the first position, from the left, where
it gives one. -/
def specFirstMatch (f : List Char → Option (List Char)) : List Char → Option (List Char)
  | [] => f []
  | c :: t =>
    match f (c :: t) with
    | some m => some m
    | none => specFirstMatch f t

/-- The number the numeric pattern of the alias `lab` captures in `content`, if the pattern
matches anywhere. -/
def specNumericMatch (lab content : String) : Option (List Char) :=
  specFirstMatch (specNumericAt lab.toList) content.toList

/-- The text the generic pattern of the alias `lab` finds in `content`, if the pattern matches
anywhere. -/
def specGenericMatch (lab content : String) : Option (List Char) :=
  specFirstMatch (specGenericAt lab.toList) content.toList

/-- The text `result` is `text` trimmed of surrounding whitespace: `text` is `result` between two
runs of whitespace, and `result` neither starts nor ends with whitespace. -/
def IsTrimmedFrom (result text : List Char) : Prop :=
  ∃ front back : List Char, text = front ++ result ++ back ∧
    (∀ c ∈ front, isspace c = true) ∧ (∀ c ∈ back, isspace c = true) ∧
    (∀ c, result.head? = some c → isspace c = false) ∧
    (∀ c, result.getLast? = some c → isspace c = false)
/-! ## Numeric conversions and the PDF-set lookup -/

/-- The end of `std::stoi`: the digits read after the optional sign give the value;
`std::invalid_argument` when there is no digit, `std::out_of_range` when the value does not fit
an `int`. -/
def stoiValue (negative : Bool) (digits : List Char) : Except HelperError Int :=
  if digits.isEmpty then .error (.invalidArgument "stoi")
  else
    let magnitude : Int := digits.foldl (fun acc c => acc * 10 + ((c.toNat : Int) - 48)) 0
    let value := if negative then -magnitude else magnitude
    if value < -2147483648 || value > 2147483647 then .error (.outOfRange "stoi")
    else .ok value

/-- The library function `std::stoi(text)` (base 10): leading whitespace is skipped, an optional
sign and the longest run of decimal digits are read and the rest of the text is ignored;
`std::invalid_argument` when there is no digit to read, `std::out_of_range` when the value does
not fit an `int`. -/
def stoi (text : String) : Except HelperError Int :=
  let s := text.toList.dropWhile isspace
  let negative := s.head? == some '-'
  let body := if s.head? == some '-' || s.head? == some '+' then s.tail else s
  stoiValue negative (body.takeWhile Char.isDigit)

/-- The two functions of the LHAPDF library that the helper calls: `LHAPDF::lookupPDF(id)`, giving
the set name and the member offset of an id (an empty name and offset `-1` for an id it does not
know), and `LHAPDF::lookupLHAPDFID(name)`, giving the id of a set name (`-1` for a name it does
not know).  The database is outside the sources, so both are parameters. -/
structure LhapdfLookup where
  lookupPDF : Int → String × Int
  lookupLHAPDFID : String → Int

/-! ## Setters of the group classes -/

/-- Modelled from the spec: `setIsWellFormed(flag)` on a Scale group sets the well-formedness
flag (the setter is declared in `WeightGroupInfo.h`, outside the sources). -/
def ScaleWeightGroupInfo.setIsWellFormed (g : ScaleWeightGroupInfo) (flag : Bool) :
    ScaleWeightGroupInfo :=
  { g with isWellFormed := flag }

/-- Modelled from the spec: `setLhaid(id)` stores the `lhaid` of a Scale group. -/
def ScaleWeightGroupInfo.setLhaid (g : ScaleWeightGroupInfo) (lhaid : Int) :
    ScaleWeightGroupInfo :=
  { g with lhaid := lhaid }

/-- Modelled from the spec: `setMuRMuFIndex(globalIndex, id, muR, muF)` registers the tuple
`(muR, muF)` in the scale map under the member index. -/
def ScaleWeightGroupInfo.setMuRMuFIndex (g : ScaleWeightGroupInfo) (globalIndex : Nat)
    (_id : String) (muR muF : FloatValue) : ScaleWeightGroupInfo :=
  { g with
    muRMuFByIndex :=
      (globalIndex, { muR := muR, muF := muF, dynNum := none, dynLabel := none })
        :: g.muRMuFByIndex }

/-- Modelled from the spec: `setMuRMuFIndex(globalIndex, id, muR, muF, dynNum, dynName)` registers
the tuple `(muR, muF, dynNum, dynName)` in the scale map under the member index. -/
def ScaleWeightGroupInfo.setMuRMuFIndexDyn (g : ScaleWeightGroupInfo) (globalIndex : Nat)
    (_id : String) (muR muF : FloatValue) (dynNum : Int) (dynName : String) :
    ScaleWeightGroupInfo :=
  { g with
    muRMuFByIndex :=
      (globalIndex, { muR := muR, muF := muF, dynNum := some dynNum, dynLabel := some dynName })
        :: g.muRMuFByIndex }

/-- Modelled from the spec: `setIsWellFormed(flag)` on a Pdf group. -/
def PdfWeightGroupInfo.setIsWellFormed (g : PdfWeightGroupInfo) (flag : Bool) :
    PdfWeightGroupInfo :=
  { g with isWellFormed := flag }

/-- Modelled from the spec: `setParentLhapdfInfo(id)` stores the parent set id. -/
def PdfWeightGroupInfo.setParentLhapdfInfo (g : PdfWeightGroupInfo) (parentId : Int) :
    PdfWeightGroupInfo :=
  { g with parentLhapdfId := parentId }

/-- Modelled from the spec: `setUncertaintyType(type)` stores the uncertainty type. -/
def PdfWeightGroupInfo.setUncertaintyType (g : PdfWeightGroupInfo)
    (uncertaintyType : PdfUncertaintyType) : PdfWeightGroupInfo :=
  { g with uncertaintyType := uncertaintyType }

/-- Modelled from the spec: `appendDescription(text)` appends to the description. -/
def PdfWeightGroupInfo.appendDescription (g : PdfWeightGroupInfo) (text : String) :
    PdfWeightGroupInfo :=
  { g with description := g.description ++ text }

/-- Modelled from the spec: `addLhaid(id)` appends the id to the id sequence. -/
def PdfWeightGroupInfo.addLhaid (g : PdfWeightGroupInfo) (lhaid : Int) : PdfWeightGroupInfo :=
  { g with lhaIds := g.lhaIds ++ [lhaid] }

/-! ## `WeightHelper::updateScaleInfo` -/

/-- The `try` block of `updateScaleInfo`, run on the Scale group `scaleGroup`: both scale factors
are converted, then either the plain tuple or the tuple with the dynamic scale is registered.
`stof` is `std::stof`. -/
def updateScaleInfoTry (stof : String → Except HelperError FloatValue)
    (scaleGroup : ScaleWeightGroupInfo) (weight : ParsedWeight) (muRText muFText : String) :
    Except HelperError ScaleWeightGroupInfo :=
  match stof muRText with
  | .error e => .error e
  | .ok muR =>
    match stof muFText with
    | .error e => .error e
    | .ok muF =>
      match searchAttributes "dyn" weight with
      | .error e => .error e
      | .ok dynNumText =>
        if dynNumText.isEmpty then
          .ok (scaleGroup.setMuRMuFIndex weight.index weight.id muR muF)
        else
          match searchAttributes "dyn_name" weight with
          | .error e => .error e
          | .ok dynType =>
            match stoi dynNumText with
            | .error e => .error e
            | .ok dynNum =>
              .ok (scaleGroup.setMuRMuFIndexDyn weight.index weight.id muR muF dynNum dynType)

/-- The part of `updateScaleInfo` after the `try` statement: the `lhaid` of the group is resolved
from the `pdf` field if it is still `-1`; only `std::invalid_argument` is caught. -/
def updateScaleInfoLhaid (scaleGroup : ScaleWeightGroupInfo) (weight : ParsedWeight) :
    Except HelperError ScaleWeightGroupInfo :=
  if scaleGroup.lhaid == -1 then
    match searchAttributes "pdf" weight with
    | .error e => .error e
    | .ok lhaidText =>
      match stoi lhaidText with
      | .ok lhaid => .ok (scaleGroup.setLhaid lhaid)
      | .error (.invalidArgument _) => .ok (scaleGroup.setLhaid (-2))
      | .error e => .error e
  else .ok scaleGroup

/-- The body of `updateScaleInfo` on the Scale group that `weightGroups_.back()` refers to. -/
def updateScaleInfoBody (stof : String → Except HelperError FloatValue)
    (scaleGroup : ScaleWeightGroupInfo) (weight : ParsedWeight) :
    Except HelperError ScaleWeightGroupInfo :=
  match searchAttributes "mur" weight with
  | .error e => .error e
  | .ok muRText =>
    match searchAttributes "muf" weight with
    | .error e => .error e
    | .ok muFText =>
      if muRText.isEmpty || muFText.isEmpty then .ok (scaleGroup.setIsWellFormed false)
      else
        match updateScaleInfoTry stof scaleGroup weight muRText muFText with
        | .ok updated => updateScaleInfoLhaid updated weight
        | .error (.invalidArgument _) =>
          updateScaleInfoLhaid (scaleGroup.setIsWellFormed false) weight
        | .error e => .error e

/-- `void WeightHelper::updateScaleInfo(const ParsedWeight& weight)`, as a function from the
registry before to the registry after.  The group worked on is `weightGroups_.back()`; the
`dynamic_cast` to the Scale variant throws `std::bad_cast` for a group of another variant. -/
def updateScaleInfo (stof : String → Except HelperError FloatValue)
    (weightGroups_ : List WeightGroupInfo) (weight : ParsedWeight) :
    Except HelperError (List WeightGroupInfo) :=
  match weightGroups_.getLast? with
  | none => .error (.badIndex (-1))
  | some (.scale scaleGroup) =>
    match updateScaleInfoBody stof scaleGroup weight with
    | .error e => .error e
    | .ok updated => .ok (weightGroups_.dropLast ++ [.scale updated])
  | some _ => .error .badCast

/-! ## `WeightHelper::getLhapdfId` and `WeightHelper::updatePdfInfo` -/

/-- The body of `getLhapdfId` on the Pdf group that `weightGroups_.back()` refers to; the group
is returned with the id because the `catch` branch changes its well-formedness flag. -/
def getLhapdfIdBody (lhapdf : LhapdfLookup) (pdfGroup : PdfWeightGroupInfo)
    (weight : ParsedWeight) : Except HelperError (Int × PdfWeightGroupInfo) :=
  match searchAttributes "pdf" weight with
  | .error e => .error e
  | .ok lhaidText =>
    if !lhaidText.isEmpty then
      match stoi lhaidText with
      | .ok lhaid => .ok (lhaid, pdfGroup)
      | .error (.invalidArgument _) => .ok (-1, pdfGroup.setIsWellFormed false)
      | .error e => .error e
    else if pdfGroup.lhaIds.length > 0 then
      match pdfGroup.lhaIds.getLast? with
      | some last => .ok (wrapInt32 (last + 1), pdfGroup)
      | none => .error (.badIndex (-1))
    else .ok (lhapdf.lookupLHAPDFID weight.groupname, pdfGroup)

/-- `int WeightHelper::getLhapdfId(const ParsedWeight& weight)`: the id together with the registry
after the call. -/
def getLhapdfId (lhapdf : LhapdfLookup) (weightGroups_ : List WeightGroupInfo)
    (weight : ParsedWeight) : Except HelperError (Int × List WeightGroupInfo) :=
  match weightGroups_.getLast? with
  | none => .error (.badIndex (-1))
  | some (.pdf pdfGroup) =>
    match getLhapdfIdBody lhapdf pdfGroup weight with
    | .error e => .error e
    | .ok (lhaid, updated) => .ok (lhaid, weightGroups_.dropLast ++ [.pdf updated])
  | some _ => .error .badCast

/-- The text that `updatePdfInfo` appends to the description of a group with uncertainty type
`uncertaintyType` and parent set `parentId`; `std::to_string` is the decimal rendering. -/
def pdfDescription (lhapdf : LhapdfLookup) (uncertaintyType : PdfUncertaintyType)
    (parentId : Int) : String :=
  let description := ""
  let description :=
    if uncertaintyType == .kHessianUnc then description ++ "Hessian "
    else if uncertaintyType == .kMonteCarloUnc then description ++ "Monte Carlo "
    else description
  let description :=
    description ++ ("Uncertainty sets for LHAPDF set " ++ (lhapdf.lookupPDF parentId).1)
  let description := description ++ (" with LHAID = " ++ toString parentId)
  description ++ "; "

/-- The body of `updatePdfInfo` on the Pdf group that `weightGroups_.back()` refers to.  The
difference `lhaid - LHAPDF::lookupPDF(lhaid).second` is an `int`: it is reduced to 32 bits. -/
def updatePdfInfoBody (lhapdf : LhapdfLookup) (pdfGroup : PdfWeightGroupInfo)
    (weight : ParsedWeight) : Except HelperError PdfWeightGroupInfo :=
  match getLhapdfIdBody lhapdf pdfGroup weight with
  | .error e => .error e
  | .ok (lhaid, pdfGroup) =>
    if pdfGroup.parentLhapdfId < 0 then
      let parentId := wrapInt32 (lhaid - (lhapdf.lookupPDF lhaid).2)
      let pdfGroup := pdfGroup.setParentLhapdfInfo parentId
      let pdfGroup := pdfGroup.setUncertaintyType .kUnknownUnc
      let pdfGroup :=
        pdfGroup.appendDescription (pdfDescription lhapdf pdfGroup.uncertaintyType parentId)
      .ok (pdfGroup.addLhaid lhaid)
    else .ok (pdfGroup.addLhaid lhaid)

/-- `void WeightHelper::updatePdfInfo(const ParsedWeight& weight)`, as a function from the
registry before to the registry after. -/
def updatePdfInfo (lhapdf : LhapdfLookup) (weightGroups_ : List WeightGroupInfo)
    (weight : ParsedWeight) : Except HelperError (List WeightGroupInfo) :=
  match weightGroups_.getLast? with
  | none => .error (.badIndex (-1))
  | some (.pdf pdfGroup) =>
    match updatePdfInfoBody lhapdf pdfGroup weight with
    | .error e => .error e
    | .ok updated => .ok (weightGroups_.dropLast ++ [.pdf updated])
  | some _ => .error .badCast

/-! ## `WeightHelper::isOrphanPdfWeightGroup` -/

/-- `bool WeightHelper::isOrphanPdfWeightGroup(ParsedWeight& weight)`: the result together with
the weight after the call.  The call of `searchAttributes` stands before the `try`; `catch (...)`
turns every exception of the conversion into `false`. -/
def isOrphanPdfWeightGroup (lhapdf : LhapdfLookup) (weight : ParsedWeight) :
    Except HelperError (Bool × ParsedWeight) :=
  match searchAttributes "pdf" weight with
  | .error e => .error e
  | .ok lhaidText =>
    match stoi lhaidText with
    | .error _ => .ok (false, weight)
    | .ok lhaid =>
      let pairLHA := lhapdf.lookupPDF lhaid
      if pairLHA.1 != "" && pairLHA.2 == 0 then
        .ok (true, { weight with groupname := pairLHA.1 })
      else .ok (false, weight)

/-! ## `ExternalLHEProducer::findWeightGroup` and the weight loop of `produce` -/

/-- How the first loop of `ExternalLHEProducer::findWeightGroup` ends: with a `return`, by its
loop condition becoming false, or (in the embedding only) by running out of fuel. -/
inductive ProbeOutcome where
  | found (index : Int)
  | exhausted
  | outOfFuel
  deriving DecidableEq, Repr

/-- The first loop of `ExternalLHEProducer::findWeightGroup`,
`for (int index = previousGroupIndex; index < std::min(index+1, size); index++)`, started at
`index`.  The body tests `weightGroups_[previousGroupIndex]` on every pass and returns the loop
variable.  Every pass through the loop head consumes one unit of `fuel`.  The head computes
`index+1` in `int`: with `index = INT_MAX` that sum overflows and the loop ends with
`signedOverflow`. -/
def ExternalLHEProducer.probeLoop (ops : WeightGroupOps G) (weightGroups_ : List G)
    (wgtId : String) (weightIndex : Int) (previousGroupIndex : Nat) :
    Nat → Nat → Except HelperError ProbeOutcome
  | 0, _ => .ok .outOfFuel
  | fuel + 1, index =>
    if weightGroups_.length < 2147483647 ∧ 2147483647 ≤ index then .error .signedOverflow
    else if (index : Int) < min ((index : Int) + 1) (weightGroups_.length : Int) then
      match weightGroups_[previousGroupIndex]? with
      | some weightGroup =>
        if ops.indexInRange weightGroup weightIndex
            && ops.containsWeight weightGroup wgtId weightIndex then
          .ok (.found (index : Int))
        else
          ExternalLHEProducer.probeLoop ops weightGroups_ wgtId weightIndex previousGroupIndex
            fuel (index + 1)
      | none => .ok .exhausted
    else .ok .exhausted

/-- `int ExternalLHEProducer::findWeightGroup(std::string wgtId, int weightIndex,
int previousGroupIndex)`.  The first loop is given one unit of fuel more than the registry has
entries, which is enough for it to end by itself (`ExternalLHEProducer.probeLoop_terminates`);
the second loop is the same as in `WeightHelper`, and `-1` is returned instead of an exception. -/
def ExternalLHEProducer.findWeightGroup (ops : WeightGroupOps G) (weightGroups_ : List G)
    (wgtId : String) (weightIndex : Int) (previousGroupIndex : Int) : Except HelperError Int :=
  let previousGroupIndex := if previousGroupIndex ≥ 0 then previousGroupIndex else 0
  match ExternalLHEProducer.probeLoop ops weightGroups_ wgtId weightIndex
      previousGroupIndex.toNat (1 + weightGroups_.length) previousGroupIndex.toNat with
  | .error e => .error e
  | .ok (.found index) => .ok index
  | .ok _ =>
    match fallbackSearch ops wgtId weightIndex weightGroups_ 0 with
    | some counter => .ok counter
    | none => .ok (-1)

/-- The variables of the weight loop of `ExternalLHEProducer::produce`: the entries of the
`LHEWeightProduct` written so far, as a list of `(value, groupIndex, slotIndex)` triples, and the
two counters `weightGroupIndex` and `weightNum`. -/
structure ProduceState (V : Type) where
  weightProduct : List (V × Int × Int)
  weightGroupIndex : Int
  weightNum : Int
  deriving DecidableEq

/-- One pass through the body of the weight loop of `ExternalLHEProducer::produce`:
`findWeightGroup(weight.id, weightNum, weightGroupIndex)`; on an index outside the registry
`continue`; otherwise `weightVectorEntry`, `addWeight` and `weightNum++`. -/
def ExternalLHEProducer.produceStep (ops : WeightGroupOps G) (weightGroups_ : List G)
    (state : ProduceState V) (weight : WeightsInfo V) : Except HelperError (ProduceState V) :=
  match ExternalLHEProducer.findWeightGroup ops weightGroups_ weight.id state.weightNum
      state.weightGroupIndex with
  | .error e => .error e
  | .ok weightGroupIndex =>
    if weightGroupIndex < 0 || weightGroupIndex ≥ (weightGroups_.length : Int) then
      .ok { state with weightGroupIndex := weightGroupIndex }
    else
      match weightGroups_[weightGroupIndex.toNat]? with
      | none => .error (.badIndex weightGroupIndex)
      | some group =>
        let entry := ops.weightVectorEntry group weight.id state.weightNum
        .ok { weightProduct := state.weightProduct ++ [(weight.wgt, weightGroupIndex, entry)]
              weightGroupIndex := weightGroupIndex
              weightNum := state.weightNum + 1 }

/-- The weight loop of `ExternalLHEProducer::produce`,
`for (const auto& weight : partonLevel->weights())`, from the state `state` on. -/
def ExternalLHEProducer.produceLoop (ops : WeightGroupOps G) (weightGroups_ : List G) :
    List (WeightsInfo V) → ProduceState V → Except HelperError (ProduceState V)
  | [], state => .ok state
  | weight :: rest, state =>
    match ExternalLHEProducer.produceStep ops weightGroups_ state weight with
    | .error e => .error e
    | .ok next => ExternalLHEProducer.produceLoop ops weightGroups_ rest next

/-- The state in which the weight loop of `ExternalLHEProducer::produce` ends for the event
weights `weights` (`weightGroupIndex = 0`, `weightNum = 0` and an empty product at the start). -/
def ExternalLHEProducer.produceWeights (ops : WeightGroupOps G) (weightGroups_ : List G)
    (weights : List (WeightsInfo V)) : Except HelperError (ProduceState V) :=
  ExternalLHEProducer.produceLoop ops weightGroups_ weights
    { weightProduct := [], weightGroupIndex := 0, weightNum := 0 }

/-! ## Examples for the scale and Pdf updates -/

/-- An excerpt of `std::stof` for the examples: the three numerals `1.0`, `2.0` and `0.5` with
their values, `1e999` as a numeral beyond the range of `float`, and every other text taken as
having no numeric prefix (true of the other texts used in the examples, `abc` and the empty
text). -/
def exampleStof (text : String) : Except HelperError FloatValue :=
  if text == "1.0" then .ok (.finite 1 0)
  else if text == "2.0" then .ok (.finite 1 1)
  else if text == "0.5" then .ok (.finite 1 (-1))
  else if text == "1e999" then .error (.outOfRange "stof")
  else .error (.invalidArgument "stof")

/-- An excerpt of the LHAPDF database for the examples: the set `CT14nnlo` with the ids 13000
to 13056; every other id and name is unknown. -/
def exampleLhapdf : LhapdfLookup :=
  { lookupPDF := fun id =>
      if 13000 ≤ id ∧ id ≤ 13056 then ("CT14nnlo", id - 13000) else ("", -1)
    lookupLHAPDFID := fun name => if name == "CT14nnlo" then 13000 else -1 }

/-- A weight with the given tagged attributes and no free text. -/
def exampleTaggedWeight (index : Nat) (attributes : List (String × String)) : ParsedWeight :=
  { id := "w", index := index, groupname := "scale_variation", content := "",
    attributes := attributes, wgtGroup_idx := 0 }

/-- A Scale group with no member yet and `lhaid` unset. -/
def exampleScaleEmpty : ScaleWeightGroupInfo :=
  { exampleBase "scale_variation" [] none with containsCentral := false, lhaid := -1 }

/-- A Pdf group with no member yet and the parent set unset. -/
def examplePdfEmpty : PdfWeightGroupInfo :=
  { exampleBase "CT14nnlo" [] none with
    lhaIds := [], parentLhapdfId := -1, uncertaintyType := .kUnknownUnc }

/-- A registry in which the index 1 is recorded by both groups and the index 0 only by the
second one. -/
def exampleRegistryOverlap : List WeightGroupInfo :=
  [.unknown (exampleBase "first" [⟨1, "p", ""⟩] (some (1, 1))),
   .unknown (exampleBase "second" [⟨0, "q", ""⟩, ⟨1, "r", ""⟩] (some (0, 1)))]

/-- Eight event weights whose ids are not recorded by any group, so that they are matched by
position only. -/
def exampleEventWeights : List (WeightsInfo Int) :=
  [⟨"1", 10⟩, ⟨"2", 20⟩, ⟨"3", 30⟩, ⟨"4", 40⟩, ⟨"5", 50⟩, ⟨"6", 60⟩, ⟨"7", 70⟩, ⟨"8", 80⟩]

/-! ## `PdfWeightGroupInfo::copy` -/

/-- `void PdfWeightGroupInfo::copy(const PdfWeightGroupInfo& other)`, as a function from the
group copied into (`self`) and the source `other` to the group after the call.  The accessors
`uncertaintyType()`, `hasAlphasVariations()` and `alphasDownIndex()` of `other` read the data
members of those names.  `baseCopy` is `WeightGroupInfo::copy(other)` of the base class, which is
declared outside the sources and acts on the base part only; the members `lhaIds` and
`parentLhapdfId` are not assigned. -/
def PdfWeightGroupInfo.copy
    (baseCopy : WeightGroupInfoBase → WeightGroupInfoBase → WeightGroupInfoBase)
    (self other : PdfWeightGroupInfo) : PdfWeightGroupInfo :=
  let self := { self with uncertaintyType := other.uncertaintyType }
  let self := { self with hasAlphasVars := other.hasAlphasVars }
  let self := { self with alphasUpIndex := other.alphasDownIndex }
  let self := { self with alphasDownIndex := other.alphasDownIndex }
  { self with
    toWeightGroupInfoBase := baseCopy self.toWeightGroupInfoBase other.toWeightGroupInfoBase }

/-- A base-class copy for the examples: all common fields are taken from the source. -/
def exampleBaseCopy (_self other : WeightGroupInfoBase) : WeightGroupInfoBase := other

/-- A Hessian Pdf group with alpha_s variations: the upward variation is member 101, the
downward one member 102. -/
def examplePdfWithAlphas : PdfWeightGroupInfo :=
  { exampleBase "CT14nnlo" [⟨0, "2000", ""⟩] (some (0, 0)) with
    lhaIds := [13000], parentLhapdfId := 13000, uncertaintyType := .kHessianUnc,
    hasAlphasVars := true, alphasUpIndex := 101, alphasDownIndex := 102 }

/-! ## Facts about the two search loops -/

/-- The loop head reports no overflow while the index is below `INT_MAX` (or the list is longer
than a registry is taken to be). -/
theorem probeLoop_guard (gs : List G) (index : Nat)
    (hinv : index < 2147483647 ∨ 2147483647 ≤ gs.length) :
    ¬ (gs.length < 2147483647 ∧ 2147483647 ≤ index) := by
  omega

/-- Whatever the probe loop returns is a valid registry index whose group passed both tests. -/
theorem probeLoop_sound (ops : WeightGroupOps G) (gs : List G) (wgtId : String) (weightIndex : Int) :
    ∀ (fuel index : Nat) (r : Int),
      probeLoop ops gs wgtId weightIndex fuel index = .ok (some r) →
      ∃ (n : Nat) (g : G), r = (n : Int) ∧ index ≤ n ∧ gs[n]? = some g ∧
        ops.indexInRange g weightIndex = true ∧ ops.containsWeight g wgtId weightIndex = true := by
  intro fuel
  induction fuel with
  | zero => intro index r h; simp [probeLoop] at h
  | succ fuel ih =>
    intro index r h
    rw [probeLoop] at h
    split at h
    · simp at h
    · split at h
      · cases hg : gs[index]? with
        | none => simp [hg] at h
        | some g =>
          simp only [hg] at h
          split at h
          · rename_i hok
            simp only [Bool.and_eq_true] at hok
            refine ⟨index, g, ?_, le_refl _, hg, hok.1, hok.2⟩
            simp only [Except.ok.injEq, Option.some.injEq] at h
            exact h.symm
          · obtain ⟨n, g2, h1, h2, h3⟩ := ih (index + 1) r h
            exact ⟨n, g2, h1, by omega, h3⟩
      · simp at h

/-- With no group passing both tests from `index` on, the probe loop finds nothing. -/
theorem probeLoop_none (ops : WeightGroupOps G) (gs : List G) (wgtId : String) (weightIndex : Int)
    (fuel : Nat) : ∀ (index : Nat), (index < 2147483647 ∨ 2147483647 ≤ gs.length) →
      (∀ (j : Nat) (g : G), index ≤ j → gs[j]? = some g →
        (ops.indexInRange g weightIndex && ops.containsWeight g wgtId weightIndex) = false) →
      probeLoop ops gs wgtId weightIndex fuel index = .ok none := by
  induction fuel with
  | zero => intro index _ _; rfl
  | succ fuel ih =>
    intro index hinv hno
    rw [probeLoop, if_neg (probeLoop_guard gs index hinv)]
    split
    · rename_i hc
      have hlt : index < gs.length := by
        have := lt_of_lt_of_le hc (min_le_right _ _)
        omega
      cases hg : gs[index]? with
      | none => rfl
      | some g =>
        simp only [hno index g (le_refl _) hg]
        exact ih (index + 1) (by omega) (fun j g2 hj hg2 => hno j g2 (by omega) hg2)
    · rfl

/-- The probe loop ends without overflow when it is started below `INT_MAX`. -/
theorem probeLoop_ok (ops : WeightGroupOps G) (gs : List G) (wgtId : String) (weightIndex : Int)
    (fuel : Nat) : ∀ (index : Nat), (index < 2147483647 ∨ 2147483647 ≤ gs.length) →
      ∃ r, probeLoop ops gs wgtId weightIndex fuel index = .ok r := by
  induction fuel with
  | zero => intro index _; exact ⟨none, rfl⟩
  | succ fuel ih =>
    intro index hinv
    rw [probeLoop, if_neg (probeLoop_guard gs index hinv)]
    split
    · rename_i hc
      have hlt : index < gs.length := by
        have := lt_of_lt_of_le hc (min_le_right _ _)
        omega
      cases hg : gs[index]? with
      | none => exact ⟨none, rfl⟩
      | some g =>
        simp only []
        split
        · exact ⟨_, rfl⟩
        · exact ih (index + 1) (by omega)
    · exact ⟨none, rfl⟩

/-- Enough fuel: the probe loop reaches the first group from `index` on that passes both
tests. -/
theorem probeLoop_fuel (ops : WeightGroupOps G) (gs : List G) (wgtId : String) (weightIndex : Int)
    (i : Nat) (g : G) (hg : gs[i]? = some g)
    (hok : (ops.indexInRange g weightIndex && ops.containsWeight g wgtId weightIndex) = true) :
    ∀ (fuel index : Nat), index ≤ i → i - index < fuel →
      (∀ (j : Nat) (g2 : G), index ≤ j → j < i → gs[j]? = some g2 →
        (ops.indexInRange g2 weightIndex && ops.containsWeight g2 wgtId weightIndex) = false) →
      probeLoop ops gs wgtId weightIndex fuel index = .ok (some (i : Int)) := by
  have hi : i < gs.length := by
    rcases List.getElem?_eq_some_iff.mp hg with ⟨h, _⟩
    exact h
  intro fuel
  induction fuel with
  | zero => intro index _ h; omega
  | succ fuel ih =>
    intro index hle hfuel hno
    rw [probeLoop, if_neg (probeLoop_guard gs index (by omega))]
    have hc : (index : Int) < min ((index : Int) + 1) (gs.length : Int) := by
      rw [lt_min_iff]; omega
    rw [if_pos hc]
    rcases Nat.eq_or_lt_of_le hle with heq | hlt
    · subst heq
      simp only [hg, hok, if_true]
    · have hidx : index < gs.length := by omega
      have hg2 : gs[index]? = some gs[index] := List.getElem?_eq_getElem hidx
      simp only [hg2, hno index _ (le_refl _) hlt hg2]
      exact ih (index + 1) (by omega) (by omega) (fun j g3 h1 h2 h3 => hno j g3 (by omega) h2 h3)

/-- The fallback scan returns `counter` plus the position of the first group containing the
weight, and nothing exactly when no group contains it. -/
theorem fallbackSearch_spec (ops : WeightGroupOps G) (wgtId : String) (weightIndex : Int) :
    ∀ (gs : List G) (counter : Int),
      (∀ r, fallbackSearch ops wgtId weightIndex gs counter = some r →
        ∃ (n : Nat) (g : G), r = counter + (n : Int) ∧ gs[n]? = some g ∧
          ops.containsWeight g wgtId weightIndex = true ∧
          ∀ (m : Nat) (g2 : G), m < n → gs[m]? = some g2 →
            ops.containsWeight g2 wgtId weightIndex = false) ∧
      (fallbackSearch ops wgtId weightIndex gs counter = none ↔
        ∀ g ∈ gs, ops.containsWeight g wgtId weightIndex = false) := by
  intro gs
  induction gs with
  | nil => intro counter; simp [fallbackSearch]
  | cons a rest ih =>
    intro counter
    unfold fallbackSearch
    by_cases ha : ops.containsWeight a wgtId weightIndex = true
    · simp only [ha, if_true]
      refine ⟨?_, ?_⟩
      · intro r hr
        refine ⟨0, a, ?_, by simp, ha, ?_⟩
        · have := Option.some.inj hr; simp [← this]
        · intro m g2 hm; omega
      · simp [ha]
    · have ha2 : ops.containsWeight a wgtId weightIndex = false := by simpa using ha
      simp only [ha2, Bool.false_eq_true, if_false]
      obtain ⟨ih1, ih2⟩ := ih (counter + 1)
      refine ⟨?_, ?_⟩
      · intro r hr
        obtain ⟨n, g, h1, h2, h3, h4⟩ := ih1 r hr
        refine ⟨n + 1, g, by rw [h1]; push_cast; ring, by simpa using h2, h3, ?_⟩
        intro m g2 hm hg2
        cases m with
        | zero => simp at hg2; rw [← hg2]; exact ha2
        | succ m => exact h4 m g2 (by omega) (by simpa using hg2)
      · rw [ih2]; simp [ha2]

/-- The body of `findContainingWeightGroup` with the clamp written as a maximum. -/
theorem findContainingWeightGroup_eq (ops : WeightGroupOps G) (gs : List G) (wgtId : String)
    (weightIndex previousGroupIndex : Int) :
    findContainingWeightGroup ops gs wgtId weightIndex previousGroupIndex =
      match probeLoop ops gs wgtId weightIndex (1 + gs.length)
          (max previousGroupIndex 0).toNat with
      | .error e => .error e
      | .ok (some index) => .ok index
      | .ok none =>
        match fallbackSearch ops wgtId weightIndex gs 0 with
        | some counter => .ok counter
        | none => .error (.rangeError wgtId weightIndex gs.length) := by
  have hclamp : (if previousGroupIndex ≥ 0 then previousGroupIndex else 0)
      = max previousGroupIndex 0 := by
    split <;> omega
  unfold findContainingWeightGroup
  simp only [hclamp]

/-- A hint below `INT_MAX` starts the probe loop below `INT_MAX`. -/
theorem hint_bound (gs : List G) (previousGroupIndex : Int)
    (hhint : previousGroupIndex < 2147483647 ∨ 2147483647 ≤ gs.length) :
    (max previousGroupIndex 0).toNat < 2147483647 ∨ 2147483647 ≤ gs.length := by
  rcases hhint with h | h
  · left
    have h0 : (0 : Int) ≤ max previousGroupIndex 0 := le_max_right _ _
    have h1 : max previousGroupIndex 0 < 2147483647 := max_lt h (by norm_num)
    omega
  · exact Or.inr h

/-- At the hint `INT_MAX` the loop head overflows: on a registry of fewer than `INT_MAX` groups
the resolver ends with `signedOverflow`. -/
theorem findContainingWeightGroup_overflow (ops : WeightGroupOps G) (gs : List G)
    (wgtId : String) (weightIndex : Int) (hsize : gs.length < 2147483647) :
    findContainingWeightGroup ops gs wgtId weightIndex 2147483647 = .error .signedOverflow := by
  rw [findContainingWeightGroup_eq]
  have hp : (max (2147483647 : Int) 0).toNat = 2147483647 := by
    rw [max_eq_left (by norm_num)]; rfl
  rw [hp, Nat.add_comm 1, probeLoop, if_pos ⟨hsize, le_refl _⟩]
/-- A weight contained in some group is resolved, for every hint, to a valid index whose group
contains it. -/
theorem findContainingWeightGroup_ok_of_contains (ops : WeightGroupOps G) (gs : List G)
    (wgtId : String) (weightIndex previousGroupIndex : Int)
    (hhint : previousGroupIndex < 2147483647 ∨ 2147483647 ≤ gs.length)
    (hex : ∃ g ∈ gs, ops.containsWeight g wgtId weightIndex = true) :
    ∃ (n : Nat) (g : G),
      findContainingWeightGroup ops gs wgtId weightIndex previousGroupIndex = .ok (n : Int) ∧
      gs[n]? = some g ∧ ops.containsWeight g wgtId weightIndex = true := by
  obtain ⟨hsome, hnone⟩ := fallbackSearch_spec ops wgtId weightIndex gs 0
  rw [findContainingWeightGroup_eq]
  obtain ⟨res, hp⟩ := probeLoop_ok ops gs wgtId weightIndex (1 + gs.length) _
    (hint_bound gs previousGroupIndex hhint)
  rw [hp]
  cases res with
  | some r =>
    obtain ⟨n, g, hr, _, hg, _, hc⟩ := probeLoop_sound ops gs wgtId weightIndex _ _ r hp
    exact ⟨n, g, by simp [hr], hg, hc⟩
  | none =>
    cases hf : fallbackSearch ops wgtId weightIndex gs 0 with
    | some r =>
      obtain ⟨n, g, hr, hg, hc, _⟩ := hsome r hf
      exact ⟨n, g, by simp [hr], hg, hc⟩
    | none =>
      obtain ⟨g, hmem, hc⟩ := hex
      rw [hnone.mp hf g hmem] at hc
      exact absurd hc (by simp)

/-- A weight contained in no group makes the resolver raise the range error, for every hint. -/
theorem findContainingWeightGroup_error_of_not_contains (ops : WeightGroupOps G) (gs : List G)
    (wgtId : String) (weightIndex previousGroupIndex : Int)
    (hhint : previousGroupIndex < 2147483647 ∨ 2147483647 ≤ gs.length)
    (hall : ∀ g ∈ gs, ops.containsWeight g wgtId weightIndex = false) :
    findContainingWeightGroup ops gs wgtId weightIndex previousGroupIndex
      = .error (.rangeError wgtId weightIndex gs.length) := by
  obtain ⟨_, hnone⟩ := fallbackSearch_spec ops wgtId weightIndex gs 0
  rw [findContainingWeightGroup_eq]
  rw [probeLoop_none ops gs wgtId weightIndex (1 + gs.length) _
    (hint_bound gs previousGroupIndex hhint)
    (fun j g _ hg => by simp [hall g (List.getElem?_mem hg)])]
  simp only [hnone.mpr hall]

/-- An index of the registry, used as the next hint, starts the probe loop below `INT_MAX`. -/
theorem hint_of_index (gs : List G) (n : Nat) (g : G) (hg : gs[n]? = some g) :
    ((n : Int) < 2147483647 ∨ 2147483647 ≤ gs.length) := by
  have hn : n < gs.length := by
    rcases List.getElem?_eq_some_iff.mp hg with ⟨h, _⟩
    exact h
  omega

/-- The loop of the `WeightsInfo` overload, when every remaining weight is contained in some
group: it ends without error, having appended one triple per weight, each resolved with the
previous result as hint. -/
theorem weightProductInfoLoop_ok (ops : WeightGroupOps G) (gs : List G) :
    ∀ (ws : List (WeightsInfo V)) (product : GenWeightProduct V) (i0 : Nat) (g0 : Int),
      (g0 < 2147483647 ∨ 2147483647 ≤ gs.length) →
      (∀ (k : Nat) (w : WeightsInfo V), ws[k]? = some w →
        ∃ g ∈ gs, ops.containsWeight g w.id ((i0 + k : Nat) : Int) = true) →
      ∃ (result : GenWeightProduct V) (triples : List (V × Int × Int)) (idxs : List Int),
        weightProductInfoLoop ops gs ws product (i0 : Int) g0 = .ok result ∧
        result.weights = product.weights ++ triples ∧
        result.centralWeight = product.centralWeight ∧
        result.numWeightSets = product.numWeightSets ∧
        triples.length = ws.length ∧ idxs.length = ws.length ∧
        ∀ (k : Nat) (w : WeightsInfo V), ws[k]? = some w →
          ∃ (n : Nat) (g : G), idxs[k]? = some (n : Int) ∧
            findContainingWeightGroup ops gs w.id ((i0 + k : Nat) : Int)
              (if k = 0 then g0 else idxs[k - 1]?.getD 0) = .ok (n : Int) ∧
            gs[n]? = some g ∧
            triples[k]? = some (w.wgt, (n : Int),
              ops.weightVectorEntry g w.id ((i0 + k : Nat) : Int)) := by
  intro ws
  induction ws with
  | nil =>
    intro product i0 g0 _ _
    exact ⟨product, [], [], rfl, by simp, rfl, rfl, rfl, rfl, fun k w h => by simp at h⟩
  | cons w rest ih =>
    intro product i0 g0 hhint hall
    obtain ⟨n, g, hfind, hg, _⟩ := findContainingWeightGroup_ok_of_contains ops gs w.id
      (i0 : Int) g0 hhint (by simpa using hall 0 w (by simp))
    obtain ⟨result, triples, idxs, h1, h2, h3, h4, h5, h6, h7⟩ :=
      ih (product.addWeight w.wgt (n : Int) (ops.weightVectorEntry g w.id (i0 : Int)))
        (i0 + 1) (n : Int) (hint_of_index gs n g hg) (fun k w2 hk => by
          have := hall (k + 1) w2 (by simpa using hk)
          rwa [show i0 + 1 + k = i0 + (k + 1) by omega])
    refine ⟨result, (w.wgt, (n : Int), ops.weightVectorEntry g w.id (i0 : Int)) :: triples,
      (n : Int) :: idxs, ?_, ?_, ?_, ?_, by simp [h5], by simp [h6], ?_⟩
    · rw [weightProductInfoLoop]
      simp only [addWeightToProduct, hfind, Int.toNat_ofNat, hg]
      exact_mod_cast h1
    · rw [h2]; simp [GenWeightProduct.addWeight]
    · rw [h3]; rfl
    · rw [h4]; rfl
    · intro k w2 hk
      cases k with
      | zero =>
        have hw : w = w2 := by simpa using hk
        subst hw
        exact ⟨n, g, by simp, by simpa using hfind, hg, by simp⟩
      | succ k =>
        obtain ⟨m, g2, a1, a2, a3, a4⟩ := h7 k w2 (by simpa using hk)
        refine ⟨m, g2, by simpa using a1, ?_, a3, ?_⟩
        · rw [show i0 + (k + 1) = i0 + 1 + k by omega]
          cases k with
          | zero => simpa using a2
          | succ k => simpa using a2
        · rw [show i0 + (k + 1) = i0 + 1 + k by omega]
          simpa using a4

/-- The loop of the `WeightsInfo` overload raises the range error as soon as it meets a weight
contained in no group. -/
theorem weightProductInfoLoop_error (ops : WeightGroupOps G) (gs : List G) :
    ∀ (ws : List (WeightsInfo V)) (product : GenWeightProduct V) (i0 : Nat) (g0 : Int),
      (g0 < 2147483647 ∨ 2147483647 ≤ gs.length) →
      (∃ (k : Nat) (w : WeightsInfo V), ws[k]? = some w ∧
        ∀ g ∈ gs, ops.containsWeight g w.id ((i0 + k : Nat) : Int) = false) →
      ∃ (wgtId : String) (weightIndex : Int),
        weightProductInfoLoop ops gs ws product (i0 : Int) g0
          = .error (.rangeError wgtId weightIndex gs.length) := by
  intro ws
  induction ws with
  | nil => intro product i0 g0 _ ⟨k, w, hk, _⟩; simp at hk
  | cons w rest ih =>
    intro product i0 g0 hhint ⟨k, w2, hk, hno⟩
    rw [weightProductInfoLoop]
    by_cases hc : ∃ g ∈ gs, ops.containsWeight g w.id (i0 : Int) = true
    · obtain ⟨n, g, hfind, hg, _⟩ :=
        findContainingWeightGroup_ok_of_contains ops gs w.id (i0 : Int) g0 hhint hc
      simp only [addWeightToProduct, hfind, Int.toNat_ofNat, hg]
      cases k with
      | zero =>
        have hw : w = w2 := by simpa using hk
        subst hw
        obtain ⟨g1, hm, hg1⟩ := hc
        have := hno g1 hm
        simp only [Nat.add_zero] at this
        rw [this] at hg1
        exact absurd hg1 (by simp)
      | succ k =>
        have := ih (product.addWeight w.wgt (n : Int) (ops.weightVectorEntry g w.id (i0 : Int)))
          (i0 + 1) (n : Int) (hint_of_index gs n g hg) ⟨k, w2, by simpa using hk, by
            rw [show i0 + 1 + k = i0 + (k + 1) by omega]; exact hno⟩
        exact_mod_cast this
    · have hall : ∀ g ∈ gs, ops.containsWeight g w.id (i0 : Int) = false := by
        intro g hm
        by_contra h
        exact hc ⟨g, hm, by simpa using h⟩
      refine ⟨w.id, (i0 : Int), ?_⟩
      simp only [addWeightToProduct,
        findContainingWeightGroup_error_of_not_contains ops gs w.id (i0 : Int) g0 hhint hall]

/-! ## Facts about the loops of the merge pass -/

/-- One pass of the inner loop. -/
theorem cleanupInner_cons (sub : WeightGroupInfo) (rest : List WeightGroupInfo) (pos : Nat)
    (baseWeight : ScaleWeightGroupInfo) (removeList : List Nat) :
    cleanupInner (sub :: rest) pos baseWeight removeList =
      match sub with
      | .pdf subWeight =>
        if subWeight.nIdsContained == 1 && subWeight.parentLhapdfId == baseWeight.lhaid then
          match subWeight.idsContained with
          | info :: _ =>
            cleanupInner rest (pos + 1)
              (baseWeight.addContainedId info.globalIndex info.id info.label 1 1)
              (removeList ++ [pos])
          | [] => cleanupInner rest (pos + 1) baseWeight removeList
        else cleanupInner rest (pos + 1) baseWeight removeList
      | _ => cleanupInner rest (pos + 1) baseWeight removeList := by
  cases sub <;> rfl

/-- One pass of the outer loop. -/
theorem cleanupOuter_cons (done : List WeightGroupInfo) (g : WeightGroupInfo)
    (rest : List WeightGroupInfo) (removeList : List Nat) :
    cleanupOuter done (g :: rest) removeList =
      match g with
      | .scale baseWeight =>
        if baseWeight.containsCentral then
          cleanupOuter (done ++ [.scale baseWeight]) rest removeList
        else
          cleanupOuter (done ++ [.scale (cleanupInner done 0 baseWeight removeList).1]) rest
            (cleanupInner done 0 baseWeight removeList).2
      | _ => cleanupOuter (done ++ [g]) rest removeList := by
  cases g <;> rfl

/-- The inner loop does nothing on groups that fail its test. -/
theorem cleanupInner_skip : ∀ (subs : List WeightGroupInfo) (pos : Nat)
    (baseWeight : ScaleWeightGroupInfo) (removeList : List Nat),
    (∀ g ∈ subs, isOrphanCentral g baseWeight.lhaid = false) →
    cleanupInner subs pos baseWeight removeList = (baseWeight, removeList) := by
  intro subs
  induction subs with
  | nil => intro pos bw rl _; rfl
  | cons g rest ih =>
    intro pos bw rl h
    have hg := h g (List.mem_cons_self _ _)
    have hrest : ∀ g2 ∈ rest, isOrphanCentral g2 bw.lhaid = false :=
      fun g2 hm => h g2 (List.mem_cons_of_mem _ hm)
    rw [cleanupInner_cons]
    cases g with
    | pdf p =>
      simp only [isOrphanCentral] at hg
      simp only [hg, Bool.false_eq_true, if_false]
      exact ih _ _ _ hrest
    | scale s => exact ih _ _ _ hrest
    | meParam b => exact ih _ _ _ hrest
    | unknown b => exact ih _ _ _ hrest

/-- The inner loop over a concatenation runs over the first part, then over the second. -/
theorem cleanupInner_append : ∀ (xs ys : List WeightGroupInfo) (pos : Nat)
    (baseWeight : ScaleWeightGroupInfo) (removeList : List Nat),
    cleanupInner (xs ++ ys) pos baseWeight removeList =
      cleanupInner ys (pos + xs.length) (cleanupInner xs pos baseWeight removeList).1
        (cleanupInner xs pos baseWeight removeList).2 := by
  intro xs
  induction xs with
  | nil => intro ys pos bw rl; simp [cleanupInner]
  | cons g rest ih =>
    intro ys pos bw rl
    have hpos : pos + (g :: rest).length = pos + 1 + rest.length := by
      simp only [List.length_cons]; omega
    rw [hpos, List.cons_append, cleanupInner_cons, cleanupInner_cons]
    cases g with
    | pdf p =>
      simp only []
      split
      · cases hids : p.idsContained with
        | nil => exact ih _ _ _ _
        | cons info tl => exact ih _ _ _ _
      · exact ih _ _ _ _
    | scale s => exact ih _ _ _ _
    | meParam b => exact ih _ _ _ _
    | unknown b => exact ih _ _ _ _

/-- The outer loop passes over groups that are not Scale groups lacking their central weight. -/
theorem cleanupOuter_skip : ∀ (xs done rest : List WeightGroupInfo) (removeList : List Nat),
    (∀ g ∈ xs, lacksCentral g = false) →
    cleanupOuter done (xs ++ rest) removeList = cleanupOuter (done ++ xs) rest removeList := by
  intro xs
  induction xs with
  | nil => intro done rest rl _; simp
  | cons g tl ih =>
    intro done rest rl h
    have hg := h g (List.mem_cons_self _ _)
    have htl : ∀ g2 ∈ tl, lacksCentral g2 = false :=
      fun g2 hm => h g2 (List.mem_cons_of_mem _ hm)
    have hassoc : done ++ g :: tl = (done ++ [g]) ++ tl := by simp
    rw [hassoc, ← ih (done ++ [g]) rest rl htl]
    rw [List.cons_append, cleanupOuter_cons]
    cases g with
    | scale s =>
      simp only [lacksCentral, Bool.not_eq_false_eq_eq_true] at hg
      simp only [hg, if_true]
    | pdf p => rfl
    | meParam b => rfl
    | unknown b => rfl

/-! ## Facts about the two attribute loops -/

/-- The tag loop returns the trimmed value of the first alias that is a key. -/
theorem searchAttributesByTagLoop_first (attributes : List (String × String))
    (lab value : String) (back : List String) :
    ∀ (front : List String), (∀ a ∈ front, attributes.lookup a = none) →
      attributes.lookup lab = some value →
      searchAttributesByTagLoop attributes (front ++ lab :: back)
        = String.mk (trim_copy_if value.toList (fun c => c == '"')) := by
  intro front
  induction front with
  | nil => intro _ hlab; simp [searchAttributesByTagLoop, hlab]
  | cons a rest ih =>
    intro hfront hlab
    simp only [List.cons_append, searchAttributesByTagLoop,
      hfront a (List.mem_cons_self _ _)]
    exact ih (fun b hb => hfront b (List.mem_cons_of_mem _ hb)) hlab

/-- The tag loop returns the empty string when no alias is a key. -/
theorem searchAttributesByTagLoop_none (attributes : List (String × String)) :
    ∀ (labs : List String), (∀ a ∈ labs, attributes.lookup a = none) →
      searchAttributesByTagLoop attributes labs = "" := by
  intro labs
  induction labs with
  | nil => intro _; rfl
  | cons a rest ih =>
    intro h
    simp only [searchAttributesByTagLoop, h a (List.mem_cons_self _ _)]
    exact ih (fun b hb => h b (List.mem_cons_of_mem _ hb))

/-! ## The regular-expression matcher against the direct reading of the two patterns -/

/-- No whitespace character is an equals sign. -/
theorem isspace_ne_eq (c : Char) (h : isspace c = true) : (c == '=') = false := by
  cases hc : (c == '=') with
  | false => rfl
  | true =>
    have : c = '=' := by simpa using hc
    subst this
    exact absurd h (by decide)

/-- No whitespace character is a digit or a dot. -/
theorem isspace_not_mantissa (c : Char) (h : isspace c = true) :
    (c.isDigit || c == '.') = false := by
  have hc : c = ' ' ∨ c = '\t' ∨ c = '\n' ∨ c = '\x0b' ∨ c = '\x0c' ∨ c = '\r' := by
    simpa [isspace, or_assoc] using h
  rcases hc with h | h | h | h | h | h <;> subst h <;> decide

/-- A literal matches exactly when it is a prefix of the input. -/
theorem Regex.run_lit {β : Type} (l : List Char) :
    ∀ (s : List Char) (cap : Option (List Char))
      (k : List Char → Option (List Char) → Option β),
      Regex.run (Regex.lit l) s cap k
        = if l.isPrefixOf s then k (s.drop l.length) cap else none := by
  induction l with
  | nil => intro s cap k; simp [Regex.lit, Regex.run]
  | cons c t ih =>
    intro s cap k
    cases s with
    | nil => simp [Regex.lit, Regex.run, List.isPrefixOf]
    | cons x r =>
      simp only [Regex.lit, Regex.run, List.isPrefixOf, List.length_cons, List.drop_succ_cons, ih]
      by_cases hx : x = c
      · subst hx; simp
      · have h1 : (x == c) = false := by simpa using hx
        have h2 : (c == x) = false := by simpa using fun h : c = x => hx h.symm
        simp [h1, h2]

/-- A greedy run followed by a continuation that fails on every input starting inside the run:
the run is taken whole. -/
theorem Regex.manyRun_skip {β : Type} (p : Char → Bool) (k : List Char → Option β)
    (hk : ∀ c t, p c = true → k (c :: t) = none) :
    ∀ s, Regex.manyRun p s k = k (s.dropWhile p) := by
  intro s
  induction s with
  | nil => rfl
  | cons c t ih =>
    by_cases hc : p c = true
    · simp only [Regex.manyRun, hc, if_true, List.dropWhile_cons_of_pos, ih]
      cases hr : k (t.dropWhile p) with
      | some r => rfl
      | none => exact hk c t hc
    · have hc2 : p c = false := by simpa using hc
      simp [Regex.manyRun, hc2, List.dropWhile]

/-- A greedy run followed by a continuation that always succeeds: the run is taken whole. -/
theorem Regex.manyRun_total {β : Type} (p : Char → Bool) (k : List Char → Option β)
    (hk : ∀ x, (k x).isSome = true) :
    ∀ s, Regex.manyRun p s k = k (s.dropWhile p) := by
  intro s
  induction s with
  | nil => rfl
  | cons c t ih =>
    by_cases hc : p c = true
    · simp only [Regex.manyRun, hc, if_true, List.dropWhile_cons_of_pos, ih]
      cases hr : k (t.dropWhile p) with
      | some r => rfl
      | none =>
        have := hk (t.dropWhile p)
        rw [hr] at this
        exact absurd this (by simp)
    · have hc2 : p c = false := by simpa using hc
      simp [Regex.manyRun, hc2, List.dropWhile]

/-- The text matched between the start `a ++ b` and the rest `b` is `a`. -/
theorem take_length_sub (a b : List Char) :
    (a ++ b).take ((a ++ b).length - b.length) = a := by
  simp

/-- The digits `[0-9]+` of an exponent, matched at `x` inside a capture group that was opened at
the start of `pre ++ x`: the match needs a digit and takes the whole run of digits. -/
theorem Regex.run_digits (pre x : List Char) (cap : Option (List Char)) :
    Regex.run (Regex.plus Char.isDigit) x cap
        (fun rest _ => some ((pre ++ x).take ((pre ++ x).length - rest.length)))
      = if (x.takeWhile Char.isDigit).isEmpty then none
        else some (pre ++ x.takeWhile Char.isDigit) := by
  cases x with
  | nil => simp [Regex.plus, Regex.run]
  | cons d u =>
    by_cases hd : d.isDigit = true
    · simp only [Regex.plus, Regex.run, hd, if_true]
      rw [Regex.manyRun_total Char.isDigit
        (fun rest => some ((pre ++ d :: u).take ((pre ++ d :: u).length - rest.length)))
        (fun _ => rfl)]
      have hsplit : pre ++ d :: u
          = (pre ++ d :: u.takeWhile Char.isDigit) ++ u.dropWhile Char.isDigit := by
        simp [List.takeWhile_append_dropWhile]
      rw [hsplit, take_length_sub]
      simp [List.takeWhile, hd]
    · have hd2 : d.isDigit = false := by simpa using hd
      simp [Regex.plus, Regex.run, hd2, List.takeWhile]

/-- A sign character is not a digit. -/
theorem sign_not_digit (c : Char) (h : (c == '+' || c == '-') = true) : c.isDigit = false := by
  have hc : c = '+' ∨ c = '-' := by simpa using h
  rcases hc with h | h <;> subst h <;> decide

/-- The optional exponent of the numeric pattern, matched at `s` inside a capture group that was
opened at the start of `pre ++ s`: the capture ends after the exponent that `specExponent`
reads, or at `s` when there is none. -/
theorem Regex.run_exponent (pre s : List Char) (cap : Option (List Char)) :
    Regex.run
        (.opt (.cat (.cls (fun c => c == 'e' || c == 'E'))
          (.cat (.opt (.cls (fun c => c == '+' || c == '-'))) (Regex.plus Char.isDigit))))
        s cap (fun rest _ => some ((pre ++ s).take ((pre ++ s).length - rest.length)))
      = some (pre ++ specExponent s) := by
  have hnone : (pre ++ s).take ((pre ++ s).length - s.length) = pre := take_length_sub pre s
  cases s with
  | nil => simp [Regex.run, specExponent]
  | cons e t =>
    by_cases he : (e == 'e' || e == 'E') = true
    · cases t with
      | nil =>
        have r0 := Regex.run_digits (pre ++ [e]) [] cap
        simp only [List.append_nil, List.takeWhile_nil, List.isEmpty_nil, if_true] at r0
        generalize Regex.plus Char.isDigit = P at r0 ⊢
        simp only [Regex.run, he, if_true, r0, specExponent, hnone]
        simp
      | cons c u =>
        have r1 := Regex.run_digits (pre ++ [e, c]) u cap
        have r2 := Regex.run_digits (pre ++ [e]) (c :: u) cap
        have h1 : pre ++ [e, c] ++ u = pre ++ e :: c :: u := by simp
        have h2 : pre ++ [e] ++ c :: u = pre ++ e :: c :: u := by simp
        rw [h1] at r1
        rw [h2] at r2
        generalize Regex.plus Char.isDigit = P at r1 r2 ⊢
        by_cases hs : (c == '+' || c == '-') = true
        · have hnd : (c :: u).takeWhile Char.isDigit = [] := by
            simp [List.takeWhile, sign_not_digit c hs]
          simp only [hnd, List.isEmpty_nil, if_true] at r2
          by_cases hd : (u.takeWhile Char.isDigit).isEmpty = true
          · simp only [hd, if_true] at r1
            simp only [Regex.run, he, hs, if_true, r1, r2, hnone, specExponent,
              List.length_singleton, List.drop_succ_cons, List.drop_zero, hd]
            simp
          · simp only [hd, Bool.false_eq_true, if_false] at r1
            simp only [Regex.run, he, hs, if_true, r1, specExponent, List.length_singleton,
              List.drop_succ_cons, List.drop_zero, hd, Bool.false_eq_true, if_false]
            simp
        · have hs2 : (c == '+' || c == '-') = false := by simpa using hs
          by_cases hd : ((c :: u).takeWhile Char.isDigit).isEmpty = true
          · simp only [hd, if_true] at r2
            simp only [Regex.run, he, hs2, if_true, Bool.false_eq_true, if_false, r2, hnone,
              specExponent, List.length_nil, List.drop_zero, hd]
            simp
          · simp only [hd, Bool.false_eq_true, if_false] at r2
            simp only [Regex.run, he, hs2, if_true, Bool.false_eq_true, if_false, r2, specExponent,
              List.length_nil, List.drop_zero, hd]
            simp
    · have he2 : (e == 'e' || e == 'E') = false := by simpa using he
      simp only [Regex.run, he2, Bool.false_eq_true, if_false, specExponent, hnone]
      simp

/-- An optional part followed by a continuation that always succeeds always succeeds. -/
theorem Regex.run_opt_isSome {β : Type} (a : Regex) (s : List Char) (cap : Option (List Char))
    (k : List Char → Option (List Char) → Option β) (hk : (k s cap).isSome = true) :
    (Regex.run (.opt a) s cap k).isSome = true := by
  simp only [Regex.run]
  cases Regex.run a s cap k with
  | some r => rfl
  | none => exact hk

/-- The capture group of the numeric pattern, matched at `s`: the capture is the number that
`specNumber` reads. -/
theorem Regex.run_number (s : List Char) (cap : Option (List Char)) :
    Regex.run
        (.group (.cat (Regex.plus (fun c => c.isDigit || c == '.'))
          (.opt (.cat (.cls (fun c => c == 'e' || c == 'E'))
            (.cat (.opt (.cls (fun c => c == '+' || c == '-'))) (Regex.plus Char.isDigit))))))
        s cap (fun _ cap => some (cap.getD []))
      = specNumber s := by
  cases s with
  | nil => simp [Regex.run, Regex.plus, specNumber]
  | cons c t =>
    by_cases hc : (c.isDigit || c == '.') = true
    · have r := Regex.run_exponent (c :: t.takeWhile (fun c => c.isDigit || c == '.'))
        (t.dropWhile (fun c => c.isDigit || c == '.')) cap
      have hsplit : (c :: t.takeWhile (fun c => c.isDigit || c == '.'))
          ++ t.dropWhile (fun c => c.isDigit || c == '.') = c :: t := by
        simp [List.takeWhile_append_dropWhile]
      rw [hsplit] at r
      generalize hE : Regex.opt (.cat (.cls (fun c => c == 'e' || c == 'E'))
        (.cat (.opt (.cls (fun c => c == '+' || c == '-'))) (Regex.plus Char.isDigit))) = E
        at r ⊢
      have htotal : ∀ x, (Regex.run E x cap
          (fun rest _ => some ((c :: t).take ((c :: t).length - rest.length)))).isSome = true := by
        intro x
        rw [← hE]
        exact Regex.run_opt_isSome _ _ _ _ rfl
      simp only [Regex.plus, Regex.run, hc, if_true, Option.getD_some]
      rw [Regex.manyRun_total (fun c => c.isDigit || c == '.')
        (fun rest => Regex.run E rest cap
          (fun rest _ => some ((c :: t).take ((c :: t).length - rest.length)))) htotal, r]
      simp [specNumber, List.takeWhile, List.dropWhile, hc]
    · have hc2 : (c.isDigit || c == '.') = false := by simpa using hc
      simp [Regex.run, Regex.plus, specNumber, List.takeWhile, hc2]

/-- The head `alias\s*=` of both patterns, matched at `s`: the rest of the pattern goes on after
the equals sign that `specAssignment` finds. -/
theorem Regex.run_assignment {β : Type} (lab : List Char) (tail : Regex) (s : List Char)
    (cap : Option (List Char)) (k : List Char → Option (List Char) → Option β) :
    Regex.run (.cat (Regex.lit lab) (.cat (.many isspace)
        (.cat (.cls (fun c => c == '=')) tail))) s cap k
      = match specAssignment lab s with
        | some rest => Regex.run tail rest cap k
        | none => none := by
  generalize htail : tail = T
  simp only [Regex.run, Regex.run_lit, specAssignment]
  by_cases hp : lab.isPrefixOf s = true
  · simp only [hp, if_true]
    rw [Regex.manyRun_skip isspace _ (fun c t hc => by simp [isspace_ne_eq c hc])]
    cases (s.drop lab.length).dropWhile isspace with
    | nil => rfl
    | cons c rest =>
      by_cases hc : (c == '=') = true
      · simp only [hc, if_true]
      · have hc2 : (c == '=') = false := Bool.eq_false_iff.mpr hc
        simp only [hc2, Bool.false_eq_true, if_false]
  · have hp2 : lab.isPrefixOf s = false := Bool.eq_false_iff.mpr hp
    simp only [hp2, Bool.false_eq_true, if_false]

/-- The numeric pattern, matched at `s`: the capture is the number that `specNumericAt` reads. -/
theorem Regex.run_floatExpr (lab : String) (s : List Char) :
    Regex.run (floatExpr lab) s none (fun _ cap => some (cap.getD []))
      = specNumericAt lab.toList s := by
  unfold floatExpr specNumericAt
  rw [Regex.run_assignment]
  cases specAssignment lab.toList s with
  | none => rfl
  | some rest =>
    simp only []
    have hnum := Regex.run_number
    generalize Regex.group (.cat (Regex.plus (fun c => c.isDigit || c == '.'))
      (.opt (.cat (.cls (fun c => c == 'e' || c == 'E'))
        (.cat (.opt (.cls (fun c => c == '+' || c == '-'))) (Regex.plus Char.isDigit)))))
      = numberGroup at hnum ⊢
    simp only [Regex.run]
    rw [Regex.manyRun_skip isspace _ (fun c t hc => by
      rw [hnum]
      simp [specNumber, List.takeWhile, isspace_not_mantissa c hc])]
    exact hnum _ _

/-- Whitespace at the start of a text does not survive the trimming. -/
theorem trim_copy_cons_space (c : Char) (s : List Char) (hc : isspace c = true) :
    trim_copy (c :: s) = trim_copy s := by
  simp [trim_copy, trim_copy_if, List.dropWhile, hc]

/-- The capture group `([^=]+)` of the generic pattern, matched at `x`: the capture is the text
up to the next equals sign, which must not be empty. -/
theorem Regex.run_text (x : List Char) (cap : Option (List Char)) :
    Regex.run (.group (Regex.plus (fun c => c != '='))) x cap (fun _ cap => some (cap.getD []))
      = if (x.takeWhile (fun c => c != '=')).isEmpty then none
        else some (x.takeWhile (fun c => c != '=')) := by
  cases x with
  | nil => simp [Regex.run, Regex.plus]
  | cons c t =>
    by_cases hc : (c != '=') = true
    · simp only [Regex.plus, Regex.run, hc, if_true, Option.getD_some]
      rw [Regex.manyRun_total (fun c => c != '=')
        (fun rest => some ((c :: t).take ((c :: t).length - rest.length))) (fun _ => rfl)]
      have hsplit : c :: t = (c :: t.takeWhile (fun c => c != '='))
          ++ t.dropWhile (fun c => c != '=') := by
        simp [List.takeWhile_append_dropWhile]
      have htake : (c :: t).take ((c :: t).length - (t.dropWhile (fun c => c != '=')).length)
          = c :: t.takeWhile (fun c => c != '=') := by
        conv_lhs => rw [hsplit]
        exact take_length_sub _ _
      rw [htake]
      simp [List.takeWhile, hc]
    · have hc2 : (c != '=') = false := Bool.eq_false_iff.mpr hc
      simp [Regex.run, Regex.plus, List.takeWhile, hc2]

/-- The whitespace `\s*` before the capture group of the generic pattern gives back what the
group needs; after trimming, the capture is the trimmed text between the equals sign and the
next one. -/
theorem Regex.manyRun_text (k : List Char → Option (List Char))
    (hk : ∀ x, k x = if (x.takeWhile (fun c => c != '=')).isEmpty then none
      else some (x.takeWhile (fun c => c != '='))) :
    ∀ s, (Regex.manyRun isspace s k).map trim_copy = (k s).map trim_copy := by
  intro s
  induction s with
  | nil => rfl
  | cons c t ih =>
    by_cases hc : isspace c = true
    · have hne : (c != '=') = true := by
        have := isspace_ne_eq c hc
        simp only [bne, this, Bool.not_false]
      simp only [Regex.manyRun, hc, if_true]
      rw [hk t] at ih
      rw [hk (c :: t)]
      cases hr : Regex.manyRun isspace t k with
      | some r =>
        rw [hr] at ih
        by_cases ht : (t.takeWhile (fun c => c != '=')).isEmpty = true
        · simp [ht] at ih
        · simp only [ht, Bool.false_eq_true, if_false, Option.map_some', Option.some.injEq] at ih
          simp only [List.takeWhile, hne, List.isEmpty_cons, Bool.false_eq_true, if_false,
            Option.map_some', Option.some.injEq]
          rw [trim_copy_cons_space c _ hc]
          exact ih
      | none => rfl
    · have hc2 : isspace c = false := Bool.eq_false_iff.mpr hc
      simp only [Regex.manyRun, hc2, Bool.false_eq_true, if_false]

/-- The generic pattern, matched at `s`: the pattern matches exactly when `specGenericAt` finds a
text, and after trimming the capture is that text, trimmed. -/
theorem Regex.run_strExpr (lab : String) (s : List Char) :
    (Regex.run (strExpr lab) s none (fun _ cap => some (cap.getD []))).map trim_copy
      = (specGenericAt lab.toList s).map trim_copy := by
  unfold strExpr specGenericAt
  rw [Regex.run_assignment]
  cases specAssignment lab.toList s with
  | none => rfl
  | some rest =>
    simp only []
    have htext := Regex.run_text
    generalize Regex.group (Regex.plus (fun c => c != '=')) = textGroup at htext ⊢
    simp only [Regex.run]
    rw [Regex.manyRun_text _ (fun x => htext x none)]
    rw [htext]

/-- The search of the matcher through the content is the search `specFirstMatch`, when the
matcher agrees at every position with the reading `f`. -/
theorem regex_search_eq (r : Regex) (f : List Char → Option (List Char))
    (h : ∀ s, Regex.run r s none (fun _ cap => some (cap.getD [])) = f s) :
    ∀ s, regex_search r s = specFirstMatch f s := by
  intro s
  induction s with
  | nil => simp only [regex_search, specFirstMatch, h]
  | cons c t ih => simp only [regex_search, specFirstMatch, h, ih]

/-- The same when the matcher agrees with the reading `f` up to trimming. -/
theorem regex_search_trim (r : Regex) (f : List Char → Option (List Char))
    (h : ∀ s, (Regex.run r s none (fun _ cap => some (cap.getD []))).map trim_copy
      = (f s).map trim_copy) :
    ∀ s, (regex_search r s).map trim_copy = (specFirstMatch f s).map trim_copy := by
  intro s
  induction s with
  | nil => simp only [regex_search, specFirstMatch, h]
  | cons c t ih =>
    simp only [regex_search, specFirstMatch]
    have hc := h (c :: t)
    cases hr : Regex.run r (c :: t) none (fun _ cap => some (cap.getD [])) with
    | some m =>
      rw [hr] at hc
      cases hf : f (c :: t) with
      | some m2 => rw [hf] at hc; exact hc
      | none => rw [hf] at hc; simp at hc
    | none =>
      rw [hr] at hc
      cases hf : f (c :: t) with
      | some m2 => rw [hf] at hc; simp at hc
      | none => exact ih

/-- The text `trim_copy` returns is the text it was given, trimmed of surrounding whitespace. -/
theorem trim_copy_isTrimmedFrom (text : List Char) : IsTrimmedFrom (trim_copy text) text := by
  have hsplit : text = text.takeWhile isspace ++ text.dropWhile isspace :=
    (List.takeWhile_append_dropWhile isspace text).symm
  have hrev : text.dropWhile isspace
      = trim_copy text ++ ((text.dropWhile isspace).reverse.takeWhile isspace).reverse := by
    have h := List.takeWhile_append_dropWhile isspace (text.dropWhile isspace).reverse
    have h2 := congrArg List.reverse h
    simp only [List.reverse_append, List.reverse_reverse] at h2
    exact h2.symm
  refine ⟨text.takeWhile isspace,
    ((text.dropWhile isspace).reverse.takeWhile isspace).reverse, ?_, ?_, ?_, ?_, ?_⟩
  · rw [List.append_assoc, ← hrev]
    exact hsplit
  · intro c hc
    exact (List.mem_takeWhile_imp hc)
  · intro c hc
    exact (List.mem_takeWhile_imp (List.mem_reverse.mp hc))
  · intro c hc
    have hne : trim_copy text ≠ [] := fun h => by rw [h] at hc; simp at hc
    have hd : (text.dropWhile isspace).head? = some c := by
      rw [hrev, List.head?_append_of_ne_nil _ hne]
      exact hc
    have := List.head?_dropWhile_not isspace text
    rw [hd] at this
    simpa using this
  · intro c hc
    have hl : ((text.dropWhile isspace).reverse.dropWhile isspace).head? = some c := by
      have : trim_copy text = ((text.dropWhile isspace).reverse.dropWhile isspace).reverse := rfl
      rw [this, List.getLast?_reverse] at hc
      exact hc
    have := List.head?_dropWhile_not isspace (text.dropWhile isspace).reverse
    rw [hl] at this
    simpa using this

/-- The free-text loop, alias by alias, in terms of the two patterns read directly: the first
alias one of whose patterns matches decides; the result is the number of the numeric pattern if
that one matches, else the text of the generic pattern, trimmed; the empty text when no alias
matches. -/
theorem searchAttributesByRegexLoop_spec (content : String) :
    ∀ (labs : List String), ∃ result : List Char,
      searchAttributesByRegexLoop content labs = String.mk result ∧
      match labs.find? (fun lab => (specNumericMatch lab content).isSome
          || (specGenericMatch lab content).isSome) with
      | none => result = []
      | some lab =>
        match specNumericMatch lab content with
        | some number => IsTrimmedFrom result number
        | none => ∃ text, specGenericMatch lab content = some text ∧ IsTrimmedFrom result text := by
  intro labs
  induction labs with
  | nil => exact ⟨[], rfl, rfl⟩
  | cons lab rest ih =>
    have hf : regex_search (floatExpr lab) content.toList = specNumericMatch lab content :=
      regex_search_eq _ _ (Regex.run_floatExpr lab) _
    have hs : (regex_search (strExpr lab) content.toList).map trim_copy
        = (specGenericMatch lab content).map trim_copy :=
      regex_search_trim _ _ (Regex.run_strExpr lab) _
    rw [searchAttributesByRegexLoop, List.find?_cons, hf]
    cases hnum : specNumericMatch lab content with
    | some number =>
      simp only [hnum, Option.isSome_some, Bool.true_or]
      exact ⟨trim_copy number, rfl, trim_copy_isTrimmedFrom number⟩
    | none =>
      cases hgen : specGenericMatch lab content with
      | some text =>
        rw [hgen] at hs
        cases hre : regex_search (strExpr lab) content.toList with
        | none => rw [hre] at hs; simp at hs
        | some m =>
          rw [hre] at hs
          simp only [Option.map_some', Option.some.injEq] at hs
          simp only [hnum, hgen, Option.isSome_none, Option.isSome_some, Bool.false_or]
          exact ⟨trim_copy m, rfl, text, rfl, by rw [hs]; exact trim_copy_isTrimmedFrom text⟩
      | none =>
        rw [hgen] at hs
        cases hre : regex_search (strExpr lab) content.toList with
        | some m => rw [hre] at hs; simp at hs
        | none =>
          simp only [hnum, hgen, Option.isSome_none, Bool.or_false]
          exact ih

/-- A run of characters satisfying `p`, followed by a text that does not start with one, is
dropped whole. -/
theorem dropWhile_append_run (p : Char → Bool) (m : List Char)
    (hm : ∀ c, m.head? = some c → p c = false) :
    ∀ l : List Char, (∀ c ∈ l, p c = true) → (l ++ m).dropWhile p = m := by
  intro l
  induction l with
  | nil =>
    intro _
    cases m with
    | nil => rfl
    | cons c t => simp [List.dropWhile, hm c rfl]
  | cons a rest ih =>
    intro hl
    have ha : p a = true := hl a (List.mem_cons_self _ _)
    simp only [List.cons_append, List.dropWhile, ha]
    exact ih (fun c hc => hl c (List.mem_cons_of_mem _ hc))

/-- The trimmed text is determined by the text: whatever is `text` trimmed of surrounding
whitespace is what `trim_copy` returns. -/
theorem IsTrimmedFrom_unique (result text : List Char) (h : IsTrimmedFrom result text) :
    result = trim_copy text := by
  obtain ⟨front, back, htext, hfront, hback, hhead, hlast⟩ := h
  subst htext
  have h1 : (front ++ result ++ back).dropWhile isspace
      = if result = [] then [] else result ++ back := by
    by_cases hr : result = []
    · subst hr
      simp only [List.append_nil, if_true]
      have := dropWhile_append_run isspace [] (fun c hc => by simp at hc) (front ++ back)
        (fun c hc => by
          rcases List.mem_append.mp hc with h | h
          · exact hfront c h
          · exact hback c h)
      simpa using this
    · simp only [hr, if_false]
      rw [List.append_assoc]
      refine dropWhile_append_run isspace (result ++ back) (fun c hc => ?_) front hfront
      rw [List.head?_append_of_ne_nil _ hr] at hc
      exact hhead c hc
  unfold trim_copy trim_copy_if
  rw [h1]
  by_cases hr : result = []
  · subst hr; rfl
  · simp only [hr, if_false, List.reverse_append]
    rw [dropWhile_append_run isspace result.reverse (fun c hc => by
      rw [List.head?_reverse] at hc
      exact hlast c hc) back.reverse (fun c hc => hback c (List.mem_reverse.mp hc))]
    exact (List.reverse_reverse result).symm
/-! ## Facts about the conversions, the attribute lookup and the access to the last group -/

/-- The reduction to 32 bits leaves a value in the range of an `int` as it is. -/
theorem wrapInt32_of_range (x : Int) (hlo : -2147483648 ≤ x) (hhi : x ≤ 2147483647) :
    wrapInt32 x = x := by
  unfold wrapInt32
  omega

/-- The three ways `stoi` can end. -/
theorem stoi_cases (text : String) :
    (∃ value, stoi text = .ok value) ∨ stoi text = .error (.invalidArgument "stoi") ∨
      stoi text = .error (.outOfRange "stoi") := by
  unfold stoi
  simp only []
  generalize ((List.dropWhile isspace text.toList).head? == some '-') = negative
  generalize List.takeWhile Char.isDigit _ = digits
  unfold stoiValue
  by_cases h1 : digits.isEmpty = true
  · exact Or.inr (Or.inl (by rw [if_pos h1]))
  · rw [if_neg h1]
    simp only []
    generalize List.foldl (fun acc c => acc * 10 + (((Char.toNat c : Nat) : Int) - 48)) 0 digits
      = magnitude
    generalize (if negative = true then -magnitude else magnitude) = value
    split
    · exact Or.inr (Or.inr rfl)
    · exact Or.inl ⟨_, rfl⟩

/-- For a field of the alias table, `searchAttributes` returns a text: the `at` of the table
does not throw. -/
theorem searchAttributes_known (label : String) (labs : List String) (weight : ParsedWeight)
    (hfield : attributeNames_.lookup label = some labs) :
    ∃ text, searchAttributes label weight = .ok text := by
  unfold searchAttributes searchAttributesByTag searchAttributesByRegex
  simp only [hfield]
  split
  · exact ⟨_, rfl⟩
  · exact ⟨_, rfl⟩

/-- The field `pdf` always resolves to a text. -/
theorem searchAttributes_pdf (weight : ParsedWeight) :
    ∃ text, searchAttributes "pdf" weight = .ok text :=
  searchAttributes_known "pdf" ["PDF", "PDF set", "lhapdf", "pdf", "pdf set", "pdfset"] weight
    (by decide)

/-- The last group of a registry that ends with `g`. -/
theorem getLast?_concat_group (front : List WeightGroupInfo) (g : WeightGroupInfo) :
    (front ++ [g]).getLast? = some g := by
  simp

/-- The registry that ends with `g`, without its last group. -/
theorem dropLast_concat_group (front : List WeightGroupInfo) (g : WeightGroupInfo) :
    (front ++ [g]).dropLast = front := by
  simp

/-- On a registry ending with a Scale group, `updateScaleInfo` runs its body on that group. -/
theorem updateScaleInfo_concat (stof : String → Except HelperError FloatValue)
    (front : List WeightGroupInfo) (g : ScaleWeightGroupInfo) (weight : ParsedWeight) :
    updateScaleInfo stof (front ++ [.scale g]) weight =
      match updateScaleInfoBody stof g weight with
      | .error e => .error e
      | .ok updated => .ok (front ++ [.scale updated]) := by
  unfold updateScaleInfo
  rw [getLast?_concat_group, dropLast_concat_group]

/-- On a registry ending with a Pdf group, `getLhapdfId` runs its body on that group. -/
theorem getLhapdfId_concat (lhapdf : LhapdfLookup) (front : List WeightGroupInfo)
    (g : PdfWeightGroupInfo) (weight : ParsedWeight) :
    getLhapdfId lhapdf (front ++ [.pdf g]) weight =
      match getLhapdfIdBody lhapdf g weight with
      | .error e => .error e
      | .ok (lhaid, updated) => .ok (lhaid, front ++ [.pdf updated]) := by
  unfold getLhapdfId
  rw [getLast?_concat_group, dropLast_concat_group]

/-- On a registry ending with a Pdf group, `updatePdfInfo` runs its body on that group. -/
theorem updatePdfInfo_concat (lhapdf : LhapdfLookup) (front : List WeightGroupInfo)
    (g : PdfWeightGroupInfo) (weight : ParsedWeight) :
    updatePdfInfo lhapdf (front ++ [.pdf g]) weight =
      match updatePdfInfoBody lhapdf g weight with
      | .error e => .error e
      | .ok updated => .ok (front ++ [.pdf updated]) := by
  unfold updatePdfInfo
  rw [getLast?_concat_group, dropLast_concat_group]

/-- The `lhaid` step of `updateScaleInfo` when the conversion of the `pdf` text does not overflow:
it ends without error, changes at most `lhaid`, and leaves `lhaid` alone unless it was `-1`. -/
theorem updateScaleInfoLhaid_ok (g : ScaleWeightGroupInfo) (weight : ParsedWeight)
    (hpdf : g.lhaid ≠ -1 ∨ ∀ text, searchAttributes "pdf" weight = .ok text →
      stoi text ≠ .error (.outOfRange "stoi")) :
    ∃ lhaid, updateScaleInfoLhaid g weight = .ok (g.setLhaid lhaid) ∧
      (g.lhaid ≠ -1 → lhaid = g.lhaid) := by
  unfold updateScaleInfoLhaid
  by_cases h : g.lhaid = -1
  · have hno : ∀ text, searchAttributes "pdf" weight = .ok text →
        stoi text ≠ .error (.outOfRange "stoi") := by
      rcases hpdf with h1 | h1
      · exact absurd h h1
      · exact h1
    obtain ⟨text, htext⟩ := searchAttributes_pdf weight
    have hb : (g.lhaid == -1) = true := by simpa using h
    simp only [hb, if_true, htext]
    rcases stoi_cases text with ⟨v, hv⟩ | hv | hv
    · exact ⟨v, by simp only [hv], fun hne => absurd h hne⟩
    · exact ⟨-2, by simp only [hv], fun hne => absurd h hne⟩
    · exact absurd hv (hno text htext)
  · refine ⟨g.lhaid, ?_, fun _ => rfl⟩
    have hb : (g.lhaid == -1) = false := by simpa using h
    simp only [hb, Bool.false_eq_true, if_false]
    rfl

/-! ## Facts about the body of `updateScaleInfo` -/

/-- A text that is not the empty text is not `empty()`. -/
theorem isEmpty_eq_false_of_ne (text : String) (h : text ≠ "") : text.isEmpty = false := by
  cases hb : text.isEmpty with
  | false => rfl
  | true => exact absurd ((String.isEmpty_iff _).mp hb) h

/-- The `try` block when both scale factors convert and the `dyn` field is empty. -/
theorem updateScaleInfoTry_plain (stof : String → Except HelperError FloatValue)
    (g : ScaleWeightGroupInfo) (weight : ParsedWeight) (muRText muFText : String)
    (muR muF : FloatValue) (hR : stof muRText = .ok muR) (hF : stof muFText = .ok muF)
    (hdyn : searchAttributes "dyn" weight = .ok "") :
    updateScaleInfoTry stof g weight muRText muFText
      = .ok (g.setMuRMuFIndex weight.index weight.id muR muF) := by
  unfold updateScaleInfoTry
  simp only [hR, hF, hdyn]
  rfl

/-- The `try` block when both scale factors convert and the `dyn` field is not empty: the
outcome follows the conversion of the `dyn` text. -/
theorem updateScaleInfoTry_dyn (stof : String → Except HelperError FloatValue)
    (g : ScaleWeightGroupInfo) (weight : ParsedWeight) (muRText muFText dynText dynType : String)
    (muR muF : FloatValue) (hR : stof muRText = .ok muR) (hF : stof muFText = .ok muF)
    (hdyn : searchAttributes "dyn" weight = .ok dynText) (hne : dynText ≠ "")
    (hname : searchAttributes "dyn_name" weight = .ok dynType) :
    updateScaleInfoTry stof g weight muRText muFText =
      match stoi dynText with
      | .error e => .error e
      | .ok dynNum =>
        .ok (g.setMuRMuFIndexDyn weight.index weight.id muR muF dynNum dynType) := by
  unfold updateScaleInfoTry
  simp only [hR, hF, hdyn, hname, isEmpty_eq_false_of_ne dynText hne, Bool.false_eq_true,
    if_false]

/-- The body of `updateScaleInfo` when both scale-factor texts are present. -/
theorem updateScaleInfoBody_nonempty (stof : String → Except HelperError FloatValue)
    (g : ScaleWeightGroupInfo) (weight : ParsedWeight) (muRText muFText : String)
    (hmur : searchAttributes "mur" weight = .ok muRText)
    (hmuf : searchAttributes "muf" weight = .ok muFText)
    (hRne : muRText ≠ "") (hFne : muFText ≠ "") :
    updateScaleInfoBody stof g weight =
      match updateScaleInfoTry stof g weight muRText muFText with
      | .ok updated => updateScaleInfoLhaid updated weight
      | .error (.invalidArgument _) => updateScaleInfoLhaid (g.setIsWellFormed false) weight
      | .error e => .error e := by
  unfold updateScaleInfoBody
  simp only [hmur, hmuf, isEmpty_eq_false_of_ne muRText hRne, isEmpty_eq_false_of_ne muFText hFne,
    Bool.or_self, Bool.false_eq_true, if_false]

/-! ## Facts about the body of `getLhapdfId` -/

/-- The preference order of `getLhapdfId`, case by case on the `pdf` text. -/
theorem getLhapdfIdBody_preference (lhapdf : LhapdfLookup) (g : PdfWeightGroupInfo)
    (weight : ParsedWeight) (text : String) (htext : searchAttributes "pdf" weight = .ok text) :
    (text ≠ "" → ∀ n, stoi text = .ok n → getLhapdfIdBody lhapdf g weight = .ok (n, g)) ∧
    (text ≠ "" → stoi text = .error (.invalidArgument "stoi") →
      getLhapdfIdBody lhapdf g weight = .ok (-1, g.setIsWellFormed false)) ∧
    (text ≠ "" → stoi text = .error (.outOfRange "stoi") →
      getLhapdfIdBody lhapdf g weight = .error (.outOfRange "stoi")) ∧
    (text = "" → ∀ last, g.lhaIds.getLast? = some last →
      getLhapdfIdBody lhapdf g weight = .ok (wrapInt32 (last + 1), g)) ∧
    (text = "" → g.lhaIds = [] →
      getLhapdfIdBody lhapdf g weight = .ok (lhapdf.lookupLHAPDFID weight.groupname, g)) := by
  unfold getLhapdfIdBody
  simp only [htext]
  refine ⟨fun hne n hn => ?_, fun hne hn => ?_, fun hne hn => ?_, fun he last hl => ?_,
    fun he hl => ?_⟩
  · simp only [isEmpty_eq_false_of_ne text hne, Bool.not_false, if_true, hn]
  · simp only [isEmpty_eq_false_of_ne text hne, Bool.not_false, if_true, hn]
  · simp only [isEmpty_eq_false_of_ne text hne, Bool.not_false, if_true, hn]
  · subst he
    have hne : g.lhaIds ≠ [] := fun h => by rw [h] at hl; simp at hl
    have hlen : g.lhaIds.length > 0 := List.length_pos.mpr hne
    have hemp : ("" : String).isEmpty = true := by decide
    simp only [hemp, Bool.not_true, Bool.false_eq_true, if_false, hlen, if_true, hl]
  · subst he
    have hemp : ("" : String).isEmpty = true := by decide
    simp only [hemp, Bool.not_true, Bool.false_eq_true, if_false, hl, List.length_nil,
      gt_iff_lt, Nat.lt_irrefl]

/-- Whatever id `getLhapdfId` returns, the group it leaves is the group it found, possibly with
the well-formedness flag set to false. -/
theorem getLhapdfIdBody_group (lhapdf : LhapdfLookup) (g g1 : PdfWeightGroupInfo)
    (weight : ParsedWeight) (L : Int) (h : getLhapdfIdBody lhapdf g weight = .ok (L, g1)) :
    g1 = g ∨ g1 = g.setIsWellFormed false := by
  obtain ⟨text, htext⟩ := searchAttributes_pdf weight
  obtain ⟨h1, h2, h3, h4, h5⟩ := getLhapdfIdBody_preference lhapdf g weight text htext
  by_cases he : text = ""
  · cases hl : g.lhaIds.getLast? with
    | none =>
      rw [h5 he (List.getLast?_eq_none_iff.mp hl)] at h
      simp only [Except.ok.injEq, Prod.mk.injEq] at h
      exact Or.inl h.2.symm
    | some last =>
      rw [h4 he last hl] at h
      simp only [Except.ok.injEq, Prod.mk.injEq] at h
      exact Or.inl h.2.symm
  · rcases stoi_cases text with ⟨v, hv⟩ | hv | hv
    · rw [h1 he v hv] at h
      simp only [Except.ok.injEq, Prod.mk.injEq] at h
      exact Or.inl h.2.symm
    · rw [h2 he hv] at h
      simp only [Except.ok.injEq, Prod.mk.injEq] at h
      exact Or.inr h.2.symm
    · rw [h3 he hv] at h
      simp at h

/-! ## Facts about `ExternalLHEProducer::findWeightGroup` and the weight loop of `produce` -/

/-- The first loop ends by itself: started below `INT_MAX`, with one unit of fuel per remaining
registry entry and one to spare, it neither overflows nor runs out of fuel. -/
theorem ExternalLHEProducer.probeLoop_terminates (ops : WeightGroupOps G) (gs : List G)
    (wgtId : String) (weightIndex : Int) (p : Nat) :
    ∀ (fuel index : Nat), gs.length ≤ fuel + index →
      (index < 2147483647 ∨ 2147483647 ≤ gs.length) →
      ∃ outcome, ExternalLHEProducer.probeLoop ops gs wgtId weightIndex p (fuel + 1) index
        = .ok outcome ∧ outcome ≠ .outOfFuel := by
  intro fuel
  induction fuel with
  | zero =>
    intro index h hinv
    rw [ExternalLHEProducer.probeLoop, if_neg (probeLoop_guard gs index hinv)]
    have hc : ¬ ((index : Int) < min ((index : Int) + 1) (gs.length : Int)) := by
      intro hlt
      have := lt_of_lt_of_le hlt (min_le_right _ _)
      omega
    rw [if_neg hc]
    exact ⟨_, rfl, by simp⟩
  | succ fuel ih =>
    intro index h hinv
    rw [ExternalLHEProducer.probeLoop, if_neg (probeLoop_guard gs index hinv)]
    split
    · rename_i hc
      have hlt : index < gs.length := by
        have := lt_of_lt_of_le hc (min_le_right _ _)
        omega
      cases hg : gs[p]? with
      | none => exact ⟨_, rfl, by simp⟩
      | some g =>
        simp only []
        split
        · exact ⟨_, rfl, by simp⟩
        · exact ih (index + 1) (by omega) (by omega)
    · exact ⟨_, rfl, by simp⟩

/-- When the probed entry does not pass both tests (or does not exist), the first loop returns
nothing, from whatever index and with whatever fuel. -/
theorem ExternalLHEProducer.probeLoop_not_found (ops : WeightGroupOps G) (gs : List G)
    (wgtId : String) (weightIndex : Int) (p : Nat)
    (hno : ∀ g, gs[p]? = some g →
      (ops.indexInRange g weightIndex && ops.containsWeight g wgtId weightIndex) = false) :
    ∀ (fuel index : Nat) (r : Int),
      ExternalLHEProducer.probeLoop ops gs wgtId weightIndex p fuel index ≠ .ok (.found r) := by
  intro fuel
  induction fuel with
  | zero => intro index r; rw [ExternalLHEProducer.probeLoop]; simp
  | succ fuel ih =>
    intro index r
    rw [ExternalLHEProducer.probeLoop]
    split
    · simp
    · split
      · cases hg : gs[p]? with
        | none => simp
        | some g =>
          simp only [hno g hg, Bool.false_eq_true, if_false]
          exact ih (index + 1) r
      · simp

/-- When the probed entry passes both tests, the first loop returns its index on the first
pass. -/
theorem ExternalLHEProducer.probeLoop_found (ops : WeightGroupOps G) (gs : List G)
    (wgtId : String) (weightIndex : Int) (p : Nat) (g : G)
    (hg : gs[p]? = some g)
    (hok : (ops.indexInRange g weightIndex && ops.containsWeight g wgtId weightIndex) = true)
    (fuel : Nat) :
    ExternalLHEProducer.probeLoop ops gs wgtId weightIndex p (fuel + 1) p
      = .ok (.found (p : Int)) := by
  have hp : p < gs.length := by
    rcases List.getElem?_eq_some_iff.mp hg with ⟨h, _⟩
    exact h
  rw [ExternalLHEProducer.probeLoop, if_neg (probeLoop_guard gs p (by omega))]
  have hc : (p : Int) < min ((p : Int) + 1) (gs.length : Int) := by
    rw [lt_min_iff]; omega
  rw [if_pos hc]
  simp only [hg, hok, if_true]

/-- The body of `ExternalLHEProducer::findWeightGroup` with the clamp written as a maximum. -/
theorem ExternalLHEProducer.findWeightGroup_eq (ops : WeightGroupOps G) (gs : List G)
    (wgtId : String) (weightIndex previousGroupIndex : Int) :
    ExternalLHEProducer.findWeightGroup ops gs wgtId weightIndex previousGroupIndex =
      match ExternalLHEProducer.probeLoop ops gs wgtId weightIndex
          (max previousGroupIndex 0).toNat (gs.length + 1) (max previousGroupIndex 0).toNat with
      | .error e => .error e
      | .ok (.found index) => .ok index
      | .ok _ =>
        match fallbackSearch ops wgtId weightIndex gs 0 with
        | some counter => .ok counter
        | none => .ok (-1) := by
  have hclamp : (if previousGroupIndex ≥ 0 then previousGroupIndex else 0)
      = max previousGroupIndex 0 := by
    split <;> omega
  unfold ExternalLHEProducer.findWeightGroup
  simp only [hclamp, Nat.add_comm 1 gs.length]

/-- The result of `ExternalLHEProducer::findWeightGroup` when the probed entry passes both
tests: the clamped hint. -/
theorem ExternalLHEProducer.findWeightGroup_probe (ops : WeightGroupOps G) (gs : List G)
    (wgtId : String) (weightIndex previousGroupIndex : Int) (g : G)
    (hg : gs[(max previousGroupIndex 0).toNat]? = some g)
    (hok : (ops.indexInRange g weightIndex && ops.containsWeight g wgtId weightIndex) = true) :
    ExternalLHEProducer.findWeightGroup ops gs wgtId weightIndex previousGroupIndex
      = .ok (max previousGroupIndex 0) := by
  rw [ExternalLHEProducer.findWeightGroup_eq,
    ExternalLHEProducer.probeLoop_found ops gs wgtId weightIndex _ g hg hok]
  simp only [Except.ok.injEq]
  exact Int.toNat_of_nonneg (le_max_right _ _)

/-- The result of `ExternalLHEProducer::findWeightGroup` when the probed entry does not pass
both tests and the loop is started below `INT_MAX`: the first group of the full scan that
contains the weight, `-1` when there is none. -/
theorem ExternalLHEProducer.findWeightGroup_fallback (ops : WeightGroupOps G) (gs : List G)
    (wgtId : String) (weightIndex previousGroupIndex : Int)
    (hhint : previousGroupIndex < 2147483647 ∨ 2147483647 ≤ gs.length)
    (hno : ∀ g, gs[(max previousGroupIndex 0).toNat]? = some g →
      (ops.indexInRange g weightIndex && ops.containsWeight g wgtId weightIndex) = false) :
    ExternalLHEProducer.findWeightGroup ops gs wgtId weightIndex previousGroupIndex =
      match fallbackSearch ops wgtId weightIndex gs 0 with
      | some counter => .ok counter
      | none => .ok (-1) := by
  rw [ExternalLHEProducer.findWeightGroup_eq]
  obtain ⟨outcome, hp, _⟩ := ExternalLHEProducer.probeLoop_terminates ops gs wgtId weightIndex
    (max previousGroupIndex 0).toNat gs.length (max previousGroupIndex 0).toNat (by omega)
    (hint_bound gs previousGroupIndex hhint)
  rw [hp]
  cases outcome with
  | found r =>
    exact absurd hp (ExternalLHEProducer.probeLoop_not_found ops gs wgtId weightIndex _ hno _ _ r)
  | exhausted => rfl
  | outOfFuel => rfl

/-- At the hint `INT_MAX` the loop head overflows: on a registry of fewer than `INT_MAX` groups
`ExternalLHEProducer::findWeightGroup` ends with `signedOverflow`. -/
theorem ExternalLHEProducer.findWeightGroup_overflow (ops : WeightGroupOps G) (gs : List G)
    (wgtId : String) (weightIndex : Int) (hsize : gs.length < 2147483647) :
    ExternalLHEProducer.findWeightGroup ops gs wgtId weightIndex 2147483647
      = .error .signedOverflow := by
  rw [ExternalLHEProducer.findWeightGroup_eq]
  have hp : (max (2147483647 : Int) 0).toNat = 2147483647 := by
    rw [max_eq_left (by norm_num)]; rfl
  rw [hp, ExternalLHEProducer.probeLoop, if_pos ⟨hsize, le_refl _⟩]

/-- Started below `INT_MAX`, `ExternalLHEProducer::findWeightGroup` returns the index of a group
that contains the weight when there is one, and `-1` when there is none. -/
theorem ExternalLHEProducer.findWeightGroup_cases (ops : WeightGroupOps G) (gs : List G)
    (wgtId : String) (weightIndex previousGroupIndex : Int)
    (hhint : previousGroupIndex < 2147483647 ∨ 2147483647 ≤ gs.length) :
    ((∃ g ∈ gs, ops.containsWeight g wgtId weightIndex = true) →
      ∃ (n : Nat) (g : G),
        ExternalLHEProducer.findWeightGroup ops gs wgtId weightIndex previousGroupIndex
          = .ok (n : Int) ∧
        gs[n]? = some g ∧ ops.containsWeight g wgtId weightIndex = true) ∧
    ((∀ g ∈ gs, ops.containsWeight g wgtId weightIndex = false) →
      ExternalLHEProducer.findWeightGroup ops gs wgtId weightIndex previousGroupIndex
        = .ok (-1)) := by
  obtain ⟨hsome, hnone⟩ := fallbackSearch_spec ops wgtId weightIndex gs 0
  by_cases hprobe : ∃ g, gs[(max previousGroupIndex 0).toNat]? = some g ∧
      (ops.indexInRange g weightIndex && ops.containsWeight g wgtId weightIndex) = true
  · obtain ⟨g, hg, hok⟩ := hprobe
    have hcont : ops.containsWeight g wgtId weightIndex = true := by
      simp only [Bool.and_eq_true] at hok
      exact hok.2
    have hres := ExternalLHEProducer.findWeightGroup_probe ops gs wgtId weightIndex
      previousGroupIndex g hg hok
    refine ⟨fun _ => ⟨(max previousGroupIndex 0).toNat, g, ?_, hg, hcont⟩, fun hall => ?_⟩
    · rw [hres, Int.toNat_of_nonneg (le_max_right _ _)]
    · rw [hall g (List.getElem?_mem hg)] at hcont
      exact absurd hcont (by simp)
  · have hno : ∀ g, gs[(max previousGroupIndex 0).toNat]? = some g →
        (ops.indexInRange g weightIndex && ops.containsWeight g wgtId weightIndex) = false := by
      intro g hg
      by_contra h
      exact hprobe ⟨g, hg, by simpa using h⟩
    rw [ExternalLHEProducer.findWeightGroup_fallback ops gs wgtId weightIndex previousGroupIndex
      hhint hno]
    refine ⟨fun hex => ?_, fun hall => ?_⟩
    · cases hf : fallbackSearch ops wgtId weightIndex gs 0 with
      | none =>
        obtain ⟨g, hm, hc⟩ := hex
        rw [hnone.mp hf g hm] at hc
        exact absurd hc (by simp)
      | some r =>
        obtain ⟨n, g, hr, hg, hc, _⟩ := hsome r hf
        exact ⟨n, g, by simp [hr], hg, hc⟩
    · rw [hnone.mpr hall]

/-- One pass of the weight loop, started with a hint below `INT_MAX`: a weight that some group
contains under the index `weightNum` is stored, with the index of such a group and the slot that
group gives it, and `weightNum` advances; a weight that no group contains under that index is
skipped, and `weightNum` stays as it was. -/
theorem ExternalLHEProducer.produceStep_cases (ops : WeightGroupOps G) (gs : List G)
    (state : ProduceState V) (weight : WeightsInfo V)
    (hhint : state.weightGroupIndex < 2147483647 ∨ 2147483647 ≤ gs.length) :
    ((∃ g ∈ gs, ops.containsWeight g weight.id state.weightNum = true) →
      ∃ (n : Nat) (group : G),
        ExternalLHEProducer.findWeightGroup ops gs weight.id state.weightNum
          state.weightGroupIndex = .ok (n : Int) ∧
        gs[n]? = some group ∧ ops.containsWeight group weight.id state.weightNum = true ∧
        ExternalLHEProducer.produceStep ops gs state weight = .ok
          { weightProduct := state.weightProduct ++
              [(weight.wgt, (n : Int), ops.weightVectorEntry group weight.id state.weightNum)]
            weightGroupIndex := (n : Int)
            weightNum := state.weightNum + 1 }) ∧
    ((∀ g ∈ gs, ops.containsWeight g weight.id state.weightNum = false) →
      ExternalLHEProducer.produceStep ops gs state weight = .ok
        { weightProduct := state.weightProduct
          weightGroupIndex := -1
          weightNum := state.weightNum }) := by
  obtain ⟨h1, h2⟩ := ExternalLHEProducer.findWeightGroup_cases ops gs weight.id state.weightNum
    state.weightGroupIndex hhint
  refine ⟨fun hex => ?_, fun hall => ?_⟩
  · obtain ⟨n, group, hfind, hg, hc⟩ := h1 hex
    refine ⟨n, group, hfind, hg, hc, ?_⟩
    have hn : n < gs.length := by
      rcases List.getElem?_eq_some_iff.mp hg with ⟨h, _⟩
      exact h
    have hcond : ((n : Int) < 0 || (n : Int) ≥ (gs.length : Int)) = false := by
      simp only [Bool.or_eq_false_iff, decide_eq_false_iff_not]
      omega
    unfold ExternalLHEProducer.produceStep
    simp only [hfind, hcond, Bool.false_eq_true, if_false, Int.toNat_ofNat, hg]
  · unfold ExternalLHEProducer.produceStep
    simp only [h2 hall]
    rfl

/-- The weight loop over a list followed by one more weight is the loop over the list followed
by one pass of the body. -/
theorem ExternalLHEProducer.produceLoop_append (ops : WeightGroupOps G) (gs : List G)
    (weight : WeightsInfo V) :
    ∀ (ws : List (WeightsInfo V)) (state : ProduceState V),
      ExternalLHEProducer.produceLoop ops gs (ws ++ [weight]) state =
        match ExternalLHEProducer.produceLoop ops gs ws state with
        | .error e => .error e
        | .ok next => ExternalLHEProducer.produceStep ops gs next weight := by
  intro ws
  induction ws with
  | nil =>
    intro state
    simp only [List.nil_append, ExternalLHEProducer.produceLoop]
    cases ExternalLHEProducer.produceStep ops gs state weight <;> rfl
  | cons w rest ih =>
    intro state
    simp only [List.cons_append, ExternalLHEProducer.produceLoop]
    cases ExternalLHEProducer.produceStep ops gs state w with
    | error e => rfl
    | ok next => exact ih next

/-- The weight loop, from a state whose hint is below `INT_MAX` and whose `weightNum` is the
number of entries of the product: it ends without error in a state of the same kind; the entries
it has added carry values of the weights it has gone through, in their order, and the entry at
place `j` of the product has been resolved with the index `j`. -/
theorem ExternalLHEProducer.produceLoop_invariant (ops : WeightGroupOps G) (gs : List G) :
    ∀ (ws : List (WeightsInfo V)) (state : ProduceState V),
      (state.weightGroupIndex < 2147483647 ∨ 2147483647 ≤ gs.length) →
      state.weightNum = (state.weightProduct.length : Int) →
      ∃ (final : ProduceState V) (added : List (V × Int × Int)),
        ExternalLHEProducer.produceLoop ops gs ws state = .ok final ∧
        (final.weightGroupIndex < 2147483647 ∨ 2147483647 ≤ gs.length) ∧
        final.weightNum = (final.weightProduct.length : Int) ∧
        final.weightProduct = state.weightProduct ++ added ∧
        List.Sublist (added.map (fun t => t.1)) (ws.map (fun w => w.wgt)) ∧
        ∀ (j : Nat) (t : V × Int × Int), added[j]? = some t →
          ∃ (n : Nat) (group : G) (w : WeightsInfo V), w ∈ ws ∧ gs[n]? = some group ∧
            ops.containsWeight group w.id ((state.weightProduct.length + j : Nat) : Int) = true ∧
            t = (w.wgt, (n : Int),
              ops.weightVectorEntry group w.id ((state.weightProduct.length + j : Nat) : Int)) := by
  intro ws
  induction ws with
  | nil =>
    intro state hhint hnum
    exact ⟨state, [], rfl, hhint, hnum, by simp, by simp, fun j t h => by simp at h⟩
  | cons w rest ih =>
    intro state hhint hnum
    obtain ⟨hstore, hskip⟩ := ExternalLHEProducer.produceStep_cases ops gs state w hhint
    by_cases hex : ∃ g ∈ gs, ops.containsWeight g w.id state.weightNum = true
    · obtain ⟨n, group, _, hg, hc, hstep⟩ := hstore hex
      obtain ⟨final, added, h1, h2, h3, h4, h5, h6⟩ := ih
        { weightProduct := state.weightProduct ++
            [(w.wgt, (n : Int), ops.weightVectorEntry group w.id state.weightNum)]
          weightGroupIndex := (n : Int)
          weightNum := state.weightNum + 1 }
        (hint_of_index gs n group hg)
        (by rw [hnum]; simp)
      refine ⟨final, (w.wgt, (n : Int), ops.weightVectorEntry group w.id state.weightNum) :: added,
        ?_, h2, h3, ?_, ?_, ?_⟩
      · rw [ExternalLHEProducer.produceLoop, hstep]
        exact h1
      · rw [h4]; simp
      · simp only [List.map_cons]
        exact List.Sublist.cons₂ _ h5
      · intro j t hj
        cases j with
        | zero =>
          simp only [List.getElem?_cons_zero, Option.some.injEq] at hj
          refine ⟨n, group, w, List.mem_cons_self _ _, hg, ?_, ?_⟩
          · simpa [← hnum] using hc
          · rw [← hj]; simp [← hnum]
        | succ j =>
          simp only [List.getElem?_cons_succ] at hj
          obtain ⟨m, group2, w2, hw2, hg2, hc2, ht⟩ := h6 j t hj
          have hlen : (state.weightProduct ++
              [(w.wgt, (n : Int), ops.weightVectorEntry group w.id state.weightNum)]).length + j
              = state.weightProduct.length + (j + 1) := by
            simp; omega
          rw [hlen] at hc2 ht
          exact ⟨m, group2, w2, List.mem_cons_of_mem _ hw2, hg2, hc2, ht⟩
    · have hall : ∀ g ∈ gs, ops.containsWeight g w.id state.weightNum = false := by
        intro g hm
        by_contra h
        exact hex ⟨g, hm, by simpa using h⟩
      have hstep := hskip hall
      obtain ⟨final, added, h1, h2, h3, h4, h5, h6⟩ := ih
        { weightProduct := state.weightProduct, weightGroupIndex := -1,
          weightNum := state.weightNum }
        (Or.inl (by norm_num)) hnum
      refine ⟨final, added, ?_, h2, h3, h4, ?_, ?_⟩
      · rw [ExternalLHEProducer.produceLoop, hstep]
        exact h1
      · simp only [List.map_cons]
        exact List.Sublist.cons _ h5
      · intro j t hj
        obtain ⟨m, group2, w2, hw2, hg2, hc2, ht⟩ := h6 j t hj
        exact ⟨m, group2, w2, List.mem_cons_of_mem _ hw2, hg2, hc2, ht⟩

/-- The weight loop when no weight is skipped: if each weight is contained in some group under
the index it meets, the loop adds one entry per weight, carrying the value of that weight. -/
theorem ExternalLHEProducer.produceLoop_no_skip (ops : WeightGroupOps G) (gs : List G) :
    ∀ (ws : List (WeightsInfo V)) (state final : ProduceState V) (n0 : Nat),
      (state.weightGroupIndex < 2147483647 ∨ 2147483647 ≤ gs.length) →
      state.weightNum = (n0 : Int) →
      (∀ (k : Nat) (w : WeightsInfo V), ws[k]? = some w →
        ∃ g ∈ gs, ops.containsWeight g w.id ((n0 + k : Nat) : Int) = true) →
      ExternalLHEProducer.produceLoop ops gs ws state = .ok final →
      final.weightNum = ((n0 + ws.length : Nat) : Int) ∧
      ∃ added : List (V × Int × Int),
        final.weightProduct = state.weightProduct ++ added ∧ added.length = ws.length ∧
        ∀ (k : Nat) (w : WeightsInfo V), ws[k]? = some w →
          ∃ (groupIndex entry : Int), added[k]? = some (w.wgt, groupIndex, entry) := by
  intro ws
  induction ws with
  | nil =>
    intro state final n0 _ hnum _ hloop
    simp only [ExternalLHEProducer.produceLoop, Except.ok.injEq] at hloop
    subst hloop
    exact ⟨by simpa using hnum, [], by simp, rfl, fun k w h => by simp at h⟩
  | cons w rest ih =>
    intro state final n0 hhint hnum hall hloop
    obtain ⟨hstore, _⟩ := ExternalLHEProducer.produceStep_cases ops gs state w hhint
    have hex : ∃ g ∈ gs, ops.containsWeight g w.id state.weightNum = true := by
      rw [hnum]
      simpa using hall 0 w (by simp)
    obtain ⟨n, group, _, hg, _, hstep⟩ := hstore hex
    rw [ExternalLHEProducer.produceLoop, hstep] at hloop
    obtain ⟨h1, added, h2, h3, h4⟩ := ih
      { weightProduct := state.weightProduct ++
          [(w.wgt, (n : Int), ops.weightVectorEntry group w.id state.weightNum)]
        weightGroupIndex := (n : Int)
        weightNum := state.weightNum + 1 }
      final (n0 + 1) (hint_of_index gs n group hg)
      (by rw [hnum]; simp)
      (fun k w2 hk => by
        have := hall (k + 1) w2 (by simpa using hk)
        rwa [show n0 + 1 + k = n0 + (k + 1) by omega])
      hloop
    refine ⟨?_, (w.wgt, (n : Int), ops.weightVectorEntry group w.id state.weightNum) :: added,
      ?_, by simp [h3], ?_⟩
    · rw [h1]; simp; omega
    · rw [h2]; simp
    · intro k w2 hk
      cases k with
      | zero =>
        have hw : w = w2 := by simpa using hk
        subst hw
        exact ⟨(n : Int), ops.weightVectorEntry group w.id state.weightNum, by simp⟩
      | succ k =>
        obtain ⟨gi, entry, h⟩ := h4 k w2 (by simpa using hk)
        exact ⟨gi, entry, by simpa using h⟩
/-! ## Facts about `PdfWeightGroupInfo::copy` -/

/-- What `copy` leaves in the Pdf-specific members, for every pair of groups and every base
copy: the uncertainty type, the alpha_s flag and the downward index of the source, the downward
index of the source also as upward index, and the own id sequence and parent id. -/
theorem PdfWeightGroupInfo.copy_fields
    (baseCopy : WeightGroupInfoBase → WeightGroupInfoBase → WeightGroupInfoBase)
    (self other : PdfWeightGroupInfo) :
    (PdfWeightGroupInfo.copy baseCopy self other).uncertaintyType = other.uncertaintyType ∧
    (PdfWeightGroupInfo.copy baseCopy self other).hasAlphasVars = other.hasAlphasVars ∧
    (PdfWeightGroupInfo.copy baseCopy self other).alphasDownIndex = other.alphasDownIndex ∧
    (PdfWeightGroupInfo.copy baseCopy self other).alphasUpIndex = other.alphasDownIndex ∧
    (PdfWeightGroupInfo.copy baseCopy self other).lhaIds = self.lhaIds ∧
    (PdfWeightGroupInfo.copy baseCopy self other).parentLhapdfId = self.parentLhapdfId ∧
    (PdfWeightGroupInfo.copy baseCopy self other).toWeightGroupInfoBase
      = baseCopy self.toWeightGroupInfoBase other.toWeightGroupInfoBase :=
  ⟨rfl, rfl, rfl, rfl, rfl, rfl, rfl⟩

/-! ## Resolution: error signal, fallback correctness, shape of the search -/

/-- C1, as stated, fails at the hint `INT_MAX`: the loop head evaluates `index + 1` on
`INT_MAX`, a signed overflow, so the resolver does not end with the "Unmatched Generator weight"
error for a weight that no group contains (here on the empty registry and on
`[A(idx 0-2), B(idx 3-5)]`), and it does not end with a result for a weight that group `B`
contains. -/
theorem findContainingWeightGroup_overflow_at_int_max :
    findContainingWeightGroup specOps ([] : List WeightGroupInfo) "w" 0 2147483647
      = .error .signedOverflow ∧
    (∀ g ∈ exampleRegistryAB, specOps.containsWeight g "zz" 9 = false) ∧
    findContainingWeightGroup specOps exampleRegistryAB "zz" 9 2147483647
      = .error .signedOverflow ∧
    findContainingWeightGroup specOps exampleRegistryAB "zz" 9 2147483647
      ≠ .error (.rangeError "zz" 9 exampleRegistryAB.length) ∧
    (∃ g ∈ exampleRegistryAB, specOps.containsWeight g "" 4 = true) ∧
    findContainingWeightGroup specOps exampleRegistryAB "" 4 2147483647
      = .error .signedOverflow := by
  decide

/-- C1 (amended): for every registry of fewer than `INT_MAX` groups and every hint below
`INT_MAX` (negative, in range, or beyond the registry size), `findContainingWeightGroup` raises
the "Unmatched Generator weight" range error exactly when no group of the registry contains the
weight; it raises no other error. -/
theorem findContainingWeightGroup_error_iff (ops : WeightGroupOps G) (weightGroups_ : List G)
    (wgtId : String) (weightIndex previousGroupIndex : Int)
    (_hsize : weightGroups_.length < 2147483647) (hhint : previousGroupIndex < 2147483647) :
    ((∃ e, findContainingWeightGroup ops weightGroups_ wgtId weightIndex previousGroupIndex
        = .error e) ↔
      ∀ g ∈ weightGroups_, ops.containsWeight g wgtId weightIndex = false) ∧
    (∀ e, findContainingWeightGroup ops weightGroups_ wgtId weightIndex previousGroupIndex
        = .error e → e = .rangeError wgtId weightIndex weightGroups_.length) := by
  by_cases hall : ∀ g ∈ weightGroups_, ops.containsWeight g wgtId weightIndex = false
  · have herr := findContainingWeightGroup_error_of_not_contains ops weightGroups_ wgtId
      weightIndex previousGroupIndex (Or.inl hhint) hall
    rw [herr]
    refine ⟨⟨fun _ => hall, fun _ => ⟨_, rfl⟩⟩, fun e he => ?_⟩
    simp only [Except.error.injEq] at he
    exact he.symm
  · have hex : ∃ g ∈ weightGroups_, ops.containsWeight g wgtId weightIndex = true := by
      by_contra hno
      refine hall (fun g hm => ?_)
      by_contra hc
      exact hno ⟨g, hm, by simpa using hc⟩
    obtain ⟨n, g, hfind, _, _⟩ := findContainingWeightGroup_ok_of_contains ops weightGroups_
      wgtId weightIndex previousGroupIndex (Or.inl hhint) hex
    rw [hfind]
    exact ⟨⟨fun ⟨e, he⟩ => by simp at he, fun h => absurd h hall⟩, fun e he => by simp at he⟩

/-- Witness for C1 (amended) on the registry `[A(idx 0-2), B(idx 3-5)]`: the weight `(zz, 9)`
is contained in no group and the hint 5 lies beyond the registry; the range error is raised. -/
theorem findContainingWeightGroup_error_iff_witness :
    exampleRegistryAB.length < 2147483647 ∧ (5 : Int) < 2147483647 ∧
    findContainingWeightGroup specOps exampleRegistryAB "zz" 9 5
      = .error (.rangeError "zz" 9 2) ∧
    ((∃ e, findContainingWeightGroup specOps exampleRegistryAB "zz" 9 5 = .error e) ↔
      ∀ g ∈ exampleRegistryAB, specOps.containsWeight g "zz" 9 = false) ∧
    (∀ e, findContainingWeightGroup specOps exampleRegistryAB "zz" 9 5 = .error e →
      e = .rangeError "zz" 9 exampleRegistryAB.length) :=
  ⟨by decide, by decide, by decide,
    findContainingWeightGroup_error_iff specOps exampleRegistryAB "zz" 9 5 (by decide)
      (by decide)⟩

/-- C2, as stated, fails at the hint `INT_MAX`: group `B` of `[A(idx 0-2), B(idx 3-5)]`
contains the weight with index 4, but the loop head overflows on `index + 1` and the resolver
does not end with an index. -/
theorem findContainingWeightGroup_no_result_at_int_max :
    (∃ g ∈ exampleRegistryAB, specOps.containsWeight g "b4" 4 = true) ∧
    findContainingWeightGroup specOps exampleRegistryAB "b4" 4 2147483647
      = .error .signedOverflow ∧
    ¬ ∃ n : Nat, findContainingWeightGroup specOps exampleRegistryAB "b4" 4 2147483647
      = .ok (n : Int) := by
  refine ⟨by decide, by decide, ?_⟩
  have h : findContainingWeightGroup specOps exampleRegistryAB "b4" 4 2147483647
      = .error .signedOverflow := by decide
  rw [h]
  exact fun ⟨n, hn⟩ => by simp at hn

/-- C2 (amended): on a registry of fewer than `INT_MAX` groups and for a hint below `INT_MAX`, if
some group contains the weight, `findContainingWeightGroup` returns, without error, a valid
registry index whose group contains the weight; when only one index holds a containing group,
that index is the result. -/
theorem findContainingWeightGroup_finds (ops : WeightGroupOps G) (weightGroups_ : List G)
    (wgtId : String) (weightIndex previousGroupIndex : Int)
    (_hsize : weightGroups_.length < 2147483647) (hhint : previousGroupIndex < 2147483647)
    (hex : ∃ g ∈ weightGroups_, ops.containsWeight g wgtId weightIndex = true) :
    ∃ (n : Nat) (g : G),
      findContainingWeightGroup ops weightGroups_ wgtId weightIndex previousGroupIndex
        = .ok (n : Int) ∧
      n < weightGroups_.length ∧ weightGroups_[n]? = some g ∧
      ops.containsWeight g wgtId weightIndex = true ∧
      ∀ (j : Nat), (∀ (i : Nat) (g2 : G), weightGroups_[i]? = some g2 →
        ops.containsWeight g2 wgtId weightIndex = true → i = j) → n = j := by
  obtain ⟨n, g, h1, h2, h3⟩ := findContainingWeightGroup_ok_of_contains ops weightGroups_
    wgtId weightIndex previousGroupIndex (Or.inl hhint) hex
  refine ⟨n, g, h1, ?_, h2, h3, fun j hj => hj n g h2 h3⟩
  rcases List.getElem?_eq_some_iff.mp h2 with ⟨h, _⟩
  exact h

/-- Witness for C2 (amended) on the registry `[A(idx 0-2), B(idx 3-5)]`: index 4 with hint 0
resolves to `B`, registry index 1. -/
theorem findContainingWeightGroup_finds_witness :
    exampleRegistryAB.length < 2147483647 ∧ (0 : Int) < 2147483647 ∧
    (∃ g ∈ exampleRegistryAB, specOps.containsWeight g "" 4 = true) ∧
    findContainingWeightGroup specOps exampleRegistryAB "" 4 0 = .ok 1 ∧
    ∃ (n : Nat) (g : WeightGroupInfo),
      findContainingWeightGroup specOps exampleRegistryAB "" 4 0 = .ok (n : Int) ∧
      n < exampleRegistryAB.length ∧ exampleRegistryAB[n]? = some g ∧
      specOps.containsWeight g "" 4 = true ∧
      ∀ (j : Nat), (∀ (i : Nat) (g2 : WeightGroupInfo), exampleRegistryAB[i]? = some g2 →
        specOps.containsWeight g2 "" 4 = true → i = j) → n = j :=
  ⟨by decide, by decide, ⟨exampleGroupB, by decide, by decide⟩, by decide,
    findContainingWeightGroup_finds specOps exampleRegistryAB "" 4 0 (by decide) (by decide)
      ⟨exampleGroupB, by decide, by decide⟩⟩

/-- C3, as stated, fails.  The registry `[Y(idx 1, 2), S(idx 3, 4, 0)]` is what the merge pass
makes of the classified registry of a sample without weight ids.  Resolving the weight with
index 3 and hint 0 gives index 1: entry 0 does not have the index in range, and the first loop
goes on to entry 1, which passes both tests.  A single probe followed by a full scan from index
0 gives index 0, the first group that contains the weight (by its empty id).  At the hint
`INT_MAX` the loop head overflows and there is no result at all. -/
theorem findContainingWeightGroup_not_single_probe :
    cleanupOrphanCentralWeight exampleRegistryUnmerged = exampleRegistryMerged ∧
    findContainingWeightGroup specOps exampleRegistryMerged "" 3 0 = .ok 1 ∧
    specSingleProbeResolve specOps exampleRegistryMerged "" 3 0 = .ok 0 ∧
    findContainingWeightGroup specOps exampleRegistryMerged "" 3 0
      ≠ specSingleProbeResolve specOps exampleRegistryMerged "" 3 0 ∧
    specSingleProbeResolve specOps exampleRegistryMerged "" 3 2147483647 = .ok 0 ∧
    findContainingWeightGroup specOps exampleRegistryMerged "" 3 2147483647
      = .error .signedOverflow := by
  decide

/-- C3 (amended): on a registry of fewer than `INT_MAX` groups and for a hint below `INT_MAX`,
with `p = max(previousGroupIndex, 0)`, the result is the lowest registry index `i ≥ p` whose
group has the index in range and contains the weight, when there is one (the probe loop walks
forward from `p` to the end of the registry); otherwise it is the lowest registry index whose
group contains the weight. -/
theorem findContainingWeightGroup_forward_probe (ops : WeightGroupOps G) (weightGroups_ : List G)
    (wgtId : String) (weightIndex previousGroupIndex : Int)
    (_hsize : weightGroups_.length < 2147483647) (hhint : previousGroupIndex < 2147483647) :
    (∀ (i : Nat) (g : G), max previousGroupIndex 0 ≤ (i : Int) → weightGroups_[i]? = some g →
      (ops.indexInRange g weightIndex && ops.containsWeight g wgtId weightIndex) = true →
      (∀ (j : Nat) (g2 : G), max previousGroupIndex 0 ≤ (j : Int) → j < i →
        weightGroups_[j]? = some g2 →
        (ops.indexInRange g2 weightIndex && ops.containsWeight g2 wgtId weightIndex) = false) →
      findContainingWeightGroup ops weightGroups_ wgtId weightIndex previousGroupIndex
        = .ok (i : Int)) ∧
    ((∀ (j : Nat) (g2 : G), max previousGroupIndex 0 ≤ (j : Int) → weightGroups_[j]? = some g2 →
        (ops.indexInRange g2 weightIndex && ops.containsWeight g2 wgtId weightIndex) = false) →
      ∀ (i : Nat) (g : G), weightGroups_[i]? = some g →
        ops.containsWeight g wgtId weightIndex = true →
        (∀ (m : Nat) (g2 : G), m < i → weightGroups_[m]? = some g2 →
          ops.containsWeight g2 wgtId weightIndex = false) →
        findContainingWeightGroup ops weightGroups_ wgtId weightIndex previousGroupIndex
          = .ok (i : Int)) := by
  refine ⟨?_, ?_⟩
  · intro i g hpi hg hok hno
    have hi : i < weightGroups_.length := by
      rcases List.getElem?_eq_some_iff.mp hg with ⟨h, _⟩
      exact h
    rw [findContainingWeightGroup_eq]
    rw [probeLoop_fuel ops weightGroups_ wgtId weightIndex i g hg hok
      (1 + weightGroups_.length) (max previousGroupIndex 0).toNat (by omega) (by omega)
      (fun j g2 h1 h2 h3 => hno j g2 (by omega) h2 h3)]
  · intro hno i g hg hc hmin
    obtain ⟨hsome, hnone⟩ := fallbackSearch_spec ops wgtId weightIndex weightGroups_ 0
    rw [findContainingWeightGroup_eq]
    rw [probeLoop_none ops weightGroups_ wgtId weightIndex _ _
      (hint_bound weightGroups_ previousGroupIndex (Or.inl hhint))
      (fun j g2 h1 h2 => hno j g2 (by omega) h2)]
    cases hf : fallbackSearch ops wgtId weightIndex weightGroups_ 0 with
    | none =>
      have := hnone.mp hf g (List.getElem?_mem hg)
      rw [this] at hc
      exact absurd hc (by simp)
    | some r =>
      obtain ⟨n, g3, hr, hg3, hc3, hmin3⟩ := hsome r hf
      have h1 : ¬ n < i := fun h => by
        have := hmin n g3 h hg3
        rw [this] at hc3
        exact absurd hc3 (by simp)
      have h2 : ¬ i < n := fun h => by
        have := hmin3 i g h hg
        rw [this] at hc
        exact absurd hc (by simp)
      have : n = i := by omega
      subst this
      simp [hr]

/-- Witness for C3 (amended) on the merged registry `[Y(idx 1, 2), S(idx 3, 4, 0)]`: with hint 0
the forward probe passes entry 0 and reaches index 1 for the weight with index 3. -/
theorem findContainingWeightGroup_forward_probe_witness :
    exampleRegistryMerged.length < 2147483647 ∧ (0 : Int) < 2147483647 ∧
    findContainingWeightGroup specOps exampleRegistryMerged "" 3 0 = .ok ((1 : Nat) : Int) :=
  ⟨by decide, by decide,
    (findContainingWeightGroup_forward_probe specOps exampleRegistryMerged "" 3 0 (by decide)
      (by decide)).1
      1 (exampleRegistryMerged.get ⟨1, by decide⟩) (by decide) (by decide) (by decide)
      (fun j g2 h1 h2 h3 => by
        have hj : j = 0 := by omega
        subst hj
        have hg : g2 = exampleRegistryMerged.get ⟨0, by decide⟩ := by
          have h0 : exampleRegistryMerged[0]? = some (exampleRegistryMerged.get ⟨0, by decide⟩) := by
            decide
          rw [h0] at h3
          exact (Option.some.inj h3).symm
        subst hg
        decide)⟩

/-! ## The weight product -/

/-- C4: for a registry with at least two groups and a list of weight records each contained in
some group, `weightProduct(vector<WeightsInfo>)` returns without error a product with exactly one
triple per weight, in input order; the `i`-th triple is `(value_i, g_i, s_i)` with
`g_i = findContainingWeightGroup(id_i, i, g_(i-1))`, `g_(-1) = 0`, and
`s_i = weightVectorEntry(id_i, i)` of group `g_i`. -/
theorem weightProductInfo_triples (ops : WeightGroupOps G) (weightGroups_ : List G)
    (weights : List (WeightsInfo V)) (w0 : V) (_hsize : 2 ≤ weightGroups_.length)
    (hall : ∀ (i : Nat) (w : WeightsInfo V), weights[i]? = some w →
      ∃ g ∈ weightGroups_, ops.containsWeight g w.id (i : Int) = true) :
    ∃ (product : GenWeightProduct V) (idxs : List Int),
      weightProductInfo ops weightGroups_ weights w0 = .ok product ∧
      product.weights.length = weights.length ∧ idxs.length = weights.length ∧
      ∀ (i : Nat) (w : WeightsInfo V), weights[i]? = some w →
        ∃ (n : Nat) (g : G), idxs[i]? = some (n : Int) ∧
          findContainingWeightGroup ops weightGroups_ w.id (i : Int)
            (if i = 0 then 0 else idxs[i - 1]?.getD 0) = .ok (n : Int) ∧
          weightGroups_[n]? = some g ∧
          product.weights[i]? = some (w.wgt, (n : Int), ops.weightVectorEntry g w.id (i : Int)) := by
  obtain ⟨result, triples, idxs, h1, h2, _, _, h5, h6, h7⟩ :=
    weightProductInfoLoop_ok ops weightGroups_ weights
      ((GenWeightProduct.new w0).setNumWeightSets weightGroups_.length) 0 0
      (Or.inl (by norm_num)) (fun k w hk => by simpa using hall k w hk)
  have hw : result.weights = triples := by
    rw [h2]; simp [GenWeightProduct.new, GenWeightProduct.setNumWeightSets]
  refine ⟨result, idxs, ?_, by rw [hw, h5], h6, ?_⟩
  · unfold weightProductInfo
    exact_mod_cast h1
  · intro i w hi
    obtain ⟨n, g, a1, a2, a3, a4⟩ := h7 i w hi
    refine ⟨n, g, a1, ?_, a3, ?_⟩
    · simpa using a2
    · rw [hw]; simpa using a4

/-- Witness for C4 on the registry `[A(idx 0-2), B(idx 3-5)]` with the two weights `a0`, `a1`. -/
theorem weightProductInfo_triples_witness :
    (weightProductInfo specOps exampleRegistryAB exampleWeightsA (1 : Int)).map
      (fun p => p.weights) = .ok [(10, 0, 0), (20, 0, 1)] ∧
    ∃ (product : GenWeightProduct Int) (idxs : List Int),
      weightProductInfo specOps exampleRegistryAB exampleWeightsA 1 = .ok product ∧
      product.weights.length = exampleWeightsA.length ∧ idxs.length = exampleWeightsA.length ∧
      ∀ (i : Nat) (w : WeightsInfo Int), exampleWeightsA[i]? = some w →
        ∃ (n : Nat) (g : WeightGroupInfo), idxs[i]? = some (n : Int) ∧
          findContainingWeightGroup specOps exampleRegistryAB w.id (i : Int)
            (if i = 0 then 0 else idxs[i - 1]?.getD 0) = .ok (n : Int) ∧
          exampleRegistryAB[n]? = some g ∧
          product.weights[i]? = some (w.wgt, (n : Int), specOps.weightVectorEntry g w.id (i : Int)) :=
  ⟨by decide,
    weightProductInfo_triples specOps exampleRegistryAB exampleWeightsA 1 (by decide)
      (fun i w hi => by
        refine ⟨exampleGroupA, by decide, ?_⟩
        match i, hi with
        | 0, hi =>
          have hw : w = ⟨"a0", 10⟩ := by simpa [exampleWeightsA] using hi.symm
          subst hw; decide
        | 1, hi =>
          have hw : w = ⟨"a1", 20⟩ := by simpa [exampleWeightsA] using hi.symm
          subst hw; decide
        | k + 2, hi => simp [exampleWeightsA] at hi)⟩

/-- C5: with fewer than two groups in the registry, `weightProduct(vector<double>, w0)` returns,
without error, a product with no weight entries, whatever the weight values and whether or not
any group would contain them. -/
theorem weightProductDouble_empty (ops : WeightGroupOps G) (weightGroups_ : List G)
    (weights : List V) (w0 : V) (hsize : weightGroups_.length < 2) :
    ∃ product : GenWeightProduct V,
      weightProductDouble ops weightGroups_ weights w0 = .ok product ∧ product.weights = [] ∧
      product.numWeightSets = weightGroups_.length ∧ product.centralWeight = w0 := by
  refine ⟨(GenWeightProduct.new w0).setNumWeightSets weightGroups_.length, ?_, rfl, rfl, rfl⟩
  unfold weightProductDouble
  have h : ¬ weightGroups_.length > 1 := by omega
  simp only [h, if_false]

/-- Witness for C5: an empty registry and one weight that no group can contain. -/
theorem weightProductDouble_empty_witness :
    ([] : List WeightGroupInfo).length < 2 ∧
    ∃ product : GenWeightProduct Int,
      weightProductDouble specOps [] [7] 1 = .ok product ∧ product.weights = [] ∧
      product.numWeightSets = ([] : List WeightGroupInfo).length ∧ product.centralWeight = 1 :=
  ⟨by decide, weightProductDouble_empty specOps [] [7] 1 (by decide)⟩

/-- C6, as stated, fails: with the single group `B` in the registry, the `WeightsInfo` overload
resolves the weight `b3` and returns a product with one entry. -/
theorem weightProductInfo_single_group_not_empty :
    [exampleGroupB].length < 2 ∧
    (weightProductInfo specOps [exampleGroupB] [⟨"b3", (7 : Int)⟩] 1).map
      (fun p => p.weights) = .ok [(7, 0, 0)] := by
  decide

/-- C6 (amended): the `WeightsInfo` overload has no guard on the registry size.  With fewer than
two groups it still resolves every weight: when each weight is contained in a group the product
has one entry per weight (so it is empty only for an empty list), and when some weight is
contained in no group the "Unmatched Generator weight" error is raised. -/
theorem weightProductInfo_small_registry (ops : WeightGroupOps G) (weightGroups_ : List G)
    (weights : List (WeightsInfo V)) (w0 : V) (_hsize : weightGroups_.length < 2) :
    ((∀ (i : Nat) (w : WeightsInfo V), weights[i]? = some w →
        ∃ g ∈ weightGroups_, ops.containsWeight g w.id (i : Int) = true) →
      ∃ product : GenWeightProduct V,
        weightProductInfo ops weightGroups_ weights w0 = .ok product ∧
        product.weights.length = weights.length) ∧
    ((∃ (i : Nat) (w : WeightsInfo V), weights[i]? = some w ∧
        ∀ g ∈ weightGroups_, ops.containsWeight g w.id (i : Int) = false) →
      ∃ (wgtId : String) (weightIndex : Int),
        weightProductInfo ops weightGroups_ weights w0
          = .error (.rangeError wgtId weightIndex weightGroups_.length)) := by
  refine ⟨fun hall => ?_, fun hex => ?_⟩
  · obtain ⟨result, triples, _, h1, h2, _, _, h5, _, _⟩ :=
      weightProductInfoLoop_ok ops weightGroups_ weights
        ((GenWeightProduct.new w0).setNumWeightSets weightGroups_.length) 0 0
        (Or.inl (by norm_num)) (fun k w hk => by simpa using hall k w hk)
    refine ⟨result, ?_, ?_⟩
    · unfold weightProductInfo
      exact_mod_cast h1
    · rw [h2]; simp [GenWeightProduct.new, GenWeightProduct.setNumWeightSets, h5]
  · obtain ⟨k, w, hk, hno⟩ := hex
    obtain ⟨wgtId, weightIndex, h⟩ :=
      weightProductInfoLoop_error ops weightGroups_ weights
        ((GenWeightProduct.new w0).setNumWeightSets weightGroups_.length) 0 0
        (Or.inl (by norm_num)) ⟨k, w, hk, by simpa using hno⟩
    refine ⟨wgtId, weightIndex, ?_⟩
    unfold weightProductInfo
    exact_mod_cast h

/-- Witness for C6 (amended): an empty registry and a single weight, which is unmatched. -/
theorem weightProductInfo_small_registry_witness :
    ([] : List WeightGroupInfo).length < 2 ∧
    ∃ (wgtId : String) (weightIndex : Int),
      weightProductInfo specOps [] [⟨"b3", (7 : Int)⟩] 1
        = .error (.rangeError wgtId weightIndex ([] : List WeightGroupInfo).length) :=
  ⟨by decide,
    (weightProductInfo_small_registry specOps [] [⟨"b3", (7 : Int)⟩] 1 (by decide)).2
      ⟨0, ⟨"b3", 7⟩, by decide, by simp⟩⟩

/-! ## The orphan merge -/

/-- C7: in a registry where `S` is the only Scale group lacking its central weight and `P` is the
only Pdf group before `S` with exactly one member and `parentLhapdfId` equal to the `lhaid` of
`S`, the merge pass removes `P` (the size drops by exactly one), gives `S` the member of `P` as
one more member with `containsCentral = true`, and leaves all other groups as they were and in
the same order. -/
theorem cleanupOrphanCentralWeight_merge (pre mid post : List WeightGroupInfo)
    (P : PdfWeightGroupInfo) (S : ScaleWeightGroupInfo) (m : WeightRecord)
    (hS : S.containsCentral = false)
    (hP1 : P.idsContained = [m]) (hP2 : P.parentLhapdfId = S.lhaid)
    (honlyS : ∀ g ∈ pre ++ mid ++ post, lacksCentral g = false)
    (honlyP : ∀ g ∈ pre ++ mid, isOrphanCentral g S.lhaid = false) :
    cleanupOrphanCentralWeight (pre ++ [WeightGroupInfo.pdf P] ++ mid ++ [WeightGroupInfo.scale S] ++ post)
      = pre ++ mid ++ [WeightGroupInfo.scale (S.addContainedId m.globalIndex m.id m.label 1 1)] ++ post ∧
    (cleanupOrphanCentralWeight (pre ++ [WeightGroupInfo.pdf P] ++ mid ++ [WeightGroupInfo.scale S] ++ post)).length + 1
      = (pre ++ [WeightGroupInfo.pdf P] ++ mid ++ [WeightGroupInfo.scale S] ++ post).length ∧
    (S.addContainedId m.globalIndex m.id m.label 1 1).containsCentral = true ∧
    (S.addContainedId m.globalIndex m.id m.label 1 1).idsContained = S.idsContained ++ [m] ∧
    (S.addContainedId m.globalIndex m.id m.label 1 1).lhaid = S.lhaid ∧
    (S.addContainedId m.globalIndex m.id m.label 1 1).name = S.name := by
  have hpre : ∀ g ∈ pre, isOrphanCentral g S.lhaid = false :=
    fun g hg => honlyP g (List.mem_append_left _ hg)
  have hmid : ∀ g ∈ mid, isOrphanCentral g S.lhaid = false :=
    fun g hg => honlyP g (List.mem_append_right _ hg)
  have hbefore : ∀ g ∈ pre ++ [WeightGroupInfo.pdf P] ++ mid, lacksCentral g = false := by
    intro g hg
    simp only [List.mem_append, List.mem_singleton] at hg
    rcases hg with (hg | hg) | hg
    · exact honlyS g (by simp [hg])
    · subst hg; rfl
    · exact honlyS g (by simp [hg])
  have hpost : ∀ g ∈ post, lacksCentral g = false :=
    fun g hg => honlyS g (List.mem_append_right _ hg)
  -- the inner loop, run for `S` over the groups before it
  have hinner : cleanupInner (pre ++ [WeightGroupInfo.pdf P] ++ mid) 0 S []
      = (S.addContainedId m.globalIndex m.id m.label 1 1, [pre.length]) := by
    rw [List.append_assoc, cleanupInner_append, cleanupInner_skip pre 0 S [] hpre]
    simp only [List.singleton_append, Nat.zero_add]
    rw [cleanupInner_cons]
    simp only [WeightGroupInfoBase.nIdsContained, hP1, hP2, List.length_singleton, beq_self_eq_true,
      Bool.and_self, if_true, List.nil_append]
    exact cleanupInner_skip mid _ _ _ hmid
  -- the two loops together
  have houter : cleanupOuter [] (pre ++ [WeightGroupInfo.pdf P] ++ mid ++ [WeightGroupInfo.scale S] ++ post) []
      = (pre ++ [WeightGroupInfo.pdf P] ++ mid ++ [WeightGroupInfo.scale (S.addContainedId m.globalIndex m.id m.label 1 1)]
          ++ post, [pre.length]) := by
    rw [List.append_assoc (pre ++ [WeightGroupInfo.pdf P] ++ mid) [WeightGroupInfo.scale S] post,
      cleanupOuter_skip _ [] _ [] hbefore]
    simp only [List.nil_append, List.singleton_append]
    rw [cleanupOuter_cons]
    simp only [hS, Bool.false_eq_true, if_false, hinner]
    have := cleanupOuter_skip post
      (pre ++ [WeightGroupInfo.pdf P] ++ mid ++ [WeightGroupInfo.scale (S.addContainedId m.globalIndex m.id m.label 1 1)])
      [] [pre.length] hpost
    rw [List.append_nil] at this
    rw [this]
    rfl
  have hmain : cleanupOrphanCentralWeight (pre ++ [WeightGroupInfo.pdf P] ++ mid ++ [WeightGroupInfo.scale S] ++ post)
      = pre ++ mid ++ [WeightGroupInfo.scale (S.addContainedId m.globalIndex m.id m.label 1 1)] ++ post := by
    unfold cleanupOrphanCentralWeight
    simp only [houter, List.insertionSort, List.orderedInsert, eraseAll]
    simp only [List.append_assoc, List.singleton_append]
    rw [List.eraseIdx_append_of_length_le (le_refl _)]
    simp
  refine ⟨hmain, ?_, rfl, ?_, rfl, rfl⟩
  · rw [hmain]; simp only [List.length_append, List.length_singleton]; omega
  · simp [ScaleWeightGroupInfo.addContainedId]

/-- Witness for C7: a Scale group with `lhaid = 13000` and no central weight, preceded by a
singleton Pdf group with `parentLhapdfId = 13000`. -/
theorem cleanupOrphanCentralWeight_merge_witness :
    (cleanupOrphanCentralWeight exampleRegistryOrphan).length + 1 = exampleRegistryOrphan.length ∧
    cleanupOrphanCentralWeight
        ([] ++ [.pdf exampleOrphanPdf]
          ++ [.meParam (exampleBase "mg_reweighting" [⟨9, "r", ""⟩] (some (9, 9)))]
          ++ [.scale (exampleScaleNoCentral "scale_variation" 1)] ++ [exampleGroupB])
      = [] ++ [.meParam (exampleBase "mg_reweighting" [⟨9, "r", ""⟩] (some (9, 9)))]
          ++ [.scale ((exampleScaleNoCentral "scale_variation" 1).addContainedId
              0 "1000" "central" 1 1)]
          ++ [exampleGroupB] :=
  ⟨by decide,
    (cleanupOrphanCentralWeight_merge []
      [.meParam (exampleBase "mg_reweighting" [⟨9, "r", ""⟩] (some (9, 9)))] [exampleGroupB]
      exampleOrphanPdf (exampleScaleNoCentral "scale_variation" 1) ⟨0, "1000", "central"⟩
      (by decide) (by decide) (by decide) (by decide) (by decide)).1⟩

/-- C8 fails on the code: with two Scale groups lacking their central weight for the same
`lhaid`, the index of the singleton Pdf group is entered in `removeList` twice, and the second
erase removes the first Scale group; only the second Scale group is left. -/
theorem cleanupOrphanCentralWeight_removes_scale_group :
    (cleanupOuter [] exampleRegistryTwoScales []).2 = [0, 0] ∧
    cleanupOrphanCentralWeight exampleRegistryTwoScales
      = [.scale ((exampleScaleNoCentral "scale_variation_2" 3).addContainedId
          0 "1000" "central" 1 1)] ∧
    (cleanupOrphanCentralWeight exampleRegistryTwoScales).length + 2
      = exampleRegistryTwoScales.length := by
  decide

/-! ## Attribute lookup -/

/-- C9, as stated, fails: the tag `muR` is a key of the attributes, its value `""` (two quote
characters) trims to the empty string, and `searchAttributes` then answers from the free text:
`1.0` for the content `mur=1.0 muf=2.0`. -/
theorem searchAttributes_empty_tag_uses_content :
    exampleWeightEmptyTag.attributes.lookup "muR" = some "\"\"" ∧
    searchAttributesByTag "mur" exampleWeightEmptyTag = .ok "" ∧
    searchAttributes "mur" exampleWeightEmptyTag = .ok "1.0" ∧
    searchAttributes "mur" { exampleWeightEmptyTag with content := "mur=3.0" } = .ok "3.0" := by
  decide

/-- C9 (amended): for a known field, when some alias of the field is a key of the attributes,
let `v` be the value under the first such alias in declared order, with the double-quote
characters removed from both ends.  If `v` is not empty, `searchAttributes` returns `v`,
whatever the content; if `v` is empty, it returns the result of the free-text search. -/
theorem searchAttributes_tag (label : String) (labs front back : List String)
    (lab value : String) (weight : ParsedWeight)
    (hfield : attributeNames_.lookup label = some labs)
    (hsplit : labs = front ++ lab :: back)
    (hfront : ∀ a ∈ front, weight.attributes.lookup a = none)
    (hlab : weight.attributes.lookup lab = some value) :
    (String.mk (trim_copy_if value.toList (fun c => c == '"')) ≠ "" →
      searchAttributes label weight
        = .ok (String.mk (trim_copy_if value.toList (fun c => c == '"')))) ∧
    (String.mk (trim_copy_if value.toList (fun c => c == '"')) = "" →
      searchAttributes label weight = searchAttributesByRegex label weight) := by
  have htag : searchAttributesByTag label weight
      = .ok (String.mk (trim_copy_if value.toList (fun c => c == '"'))) := by
    unfold searchAttributesByTag
    simp only [hfield, hsplit]
    rw [searchAttributesByTagLoop_first weight.attributes lab value back front hfront hlab]
  unfold searchAttributes
  rw [htag]
  refine ⟨fun hne => ?_, fun he => ?_⟩
  · have : (String.mk (trim_copy_if value.toList (fun c => c == '"'))).isEmpty = false := by
      cases h : (String.mk (trim_copy_if value.toList (fun c => c == '"'))).isEmpty with
      | false => rfl
      | true => exact absurd ((String.isEmpty_iff _).mp h) hne
    simp only [this, Bool.false_eq_true, if_false]
  · have : (String.mk (trim_copy_if value.toList (fun c => c == '"'))).isEmpty = true :=
      (String.isEmpty_iff _).mpr he
    simp only [this, if_true]

/-- Witness for C9 (amended): the field `mur` of a weight tagged `MUR` and `muR`; `muR` comes
first in the alias order and its value `"1.5"` is returned without the quotes. -/
theorem searchAttributes_tag_witness :
    searchAttributes "mur" exampleWeightTagged = .ok "1.5" ∧
    ((String.mk (trim_copy_if "\"1.5\"".toList (fun c => c == '"')) ≠ "" →
      searchAttributes "mur" exampleWeightTagged
        = .ok (String.mk (trim_copy_if "\"1.5\"".toList (fun c => c == '"')))) ∧
    (String.mk (trim_copy_if "\"1.5\"".toList (fun c => c == '"')) = "" →
      searchAttributes "mur" exampleWeightTagged
        = searchAttributesByRegex "mur" exampleWeightTagged)) :=
  ⟨by decide,
    searchAttributes_tag "mur" ["muR", "MUR", "mur", "renscfact"] [] ["MUR", "mur", "renscfact"]
      "muR" "\"1.5\"" exampleWeightTagged (by decide) (by decide) (by decide) (by decide)⟩

/-- C10: for a known field none of whose aliases is a key of the attributes, `searchAttributes`
returns the free-text result.  The first alias, in declared order, for which the numeric pattern
`alias\s*=\s*<number>` or the generic pattern `alias\s*=\s*<text up to the next '='>` matches
the content decides: the result is the number the numeric pattern captures if that one matches,
and else the text of the generic pattern, trimmed of surrounding whitespace; it is the empty
string when no alias matches.  The patterns are read directly on the content
(`specNumericMatch`, `specGenericMatch`), not through the matcher. -/
theorem searchAttributes_free_text (label : String) (labs : List String) (weight : ParsedWeight)
    (hfield : attributeNames_.lookup label = some labs)
    (hnone : ∀ a ∈ labs, weight.attributes.lookup a = none) :
    ∃ result : List Char,
      searchAttributes label weight = .ok (String.mk result) ∧
      match labs.find? (fun lab => (specNumericMatch lab weight.content).isSome
          || (specGenericMatch lab weight.content).isSome) with
      | none => result = []
      | some lab =>
        match specNumericMatch lab weight.content with
        | some number => IsTrimmedFrom result number
        | none =>
          ∃ text, specGenericMatch lab weight.content = some text ∧ IsTrimmedFrom result text := by
  obtain ⟨result, hloop, hspec⟩ := searchAttributesByRegexLoop_spec weight.content labs
  refine ⟨result, ?_, hspec⟩
  unfold searchAttributes searchAttributesByTag searchAttributesByRegex
  simp only [hfield, searchAttributesByTagLoop_none weight.attributes labs hnone, hloop]
  rfl

/-- Witness for C10: the content `mur=1.0 muf=2.0` without tagged attributes gives `1.0` for
`mur` and `2.0` for `muf`; in the content `mur = 1.5e-3 dyn_scale_choice = sum pt \t= 7` the
numeric pattern gives `1.5e-3` for `mur`, and for `dyn_name` the numeric pattern does not match,
the generic pattern finds the text between the two equals signs, and the result is that text
without the whitespace around it, `sum pt`. -/
theorem searchAttributes_free_text_witness :
    searchAttributes "mur" exampleWeightFreeText = .ok "1.0" ∧
    searchAttributes "muf" exampleWeightFreeText = .ok "2.0" ∧
    searchAttributes "mur" exampleWeightGenericText = .ok "1.5e-3" ∧
    searchAttributes "dyn_name" exampleWeightGenericText = .ok "sum pt" ∧
    specNumericMatch "dyn_scale_choice" exampleWeightGenericText.content = none ∧
    specGenericMatch "dyn_scale_choice" exampleWeightGenericText.content
      = some " sum pt \t".toList ∧
    IsTrimmedFrom "sum pt".toList " sum pt \t".toList := by
  have hvalue : searchAttributes "dyn_name" exampleWeightGenericText = .ok "sum pt" := by decide
  have hnum : specNumericMatch "dyn_scale_choice" exampleWeightGenericText.content = none := by
    decide
  have hgen : specGenericMatch "dyn_scale_choice" exampleWeightGenericText.content
      = some " sum pt \t".toList := by decide
  refine ⟨by decide, by decide, by decide, hvalue, hnum, hgen, ?_⟩
  obtain ⟨result, hres, hspec⟩ := searchAttributes_free_text "dyn_name" ["dyn_scale_choice"]
    exampleWeightGenericText (by decide) (by decide)
  have hfind : ["dyn_scale_choice"].find?
      (fun lab => (specNumericMatch lab exampleWeightGenericText.content).isSome
        || (specGenericMatch lab exampleWeightGenericText.content).isSome)
      = some "dyn_scale_choice" := by decide
  rw [hfind] at hspec
  simp only [hnum] at hspec
  obtain ⟨text, htext, htrim⟩ := hspec
  rw [hgen] at htext
  have ht : text = " sum pt \t".toList := (Option.some.inj htext).symm
  rw [hvalue] at hres
  have hr : result = "sum pt".toList := by
    have h := Except.ok.inj hres
    have h2 := congrArg String.toList h
    exact h2.symm
  rw [ht, hr] at htrim
  exact htrim
/-! ## Scale groups: `updateScaleInfo` -/

/-- C11 fails on the code: the `mur` text `abc` has no numeric parse, the group is flagged and no
tuple is registered, but the `lhaid` step that follows converts the `pdf` text `99999999999`,
and the `std::out_of_range` of `std::stoi` is not caught: `updateScaleInfo` raises. -/
theorem updateScaleInfo_malformed_raises :
    searchAttributes "mur"
        (exampleTaggedWeight 3 [("muR", "abc"), ("muF", "2.0"), ("pdf", "99999999999")])
      = .ok "abc" ∧
    exampleStof "abc" = .error (.invalidArgument "stof") ∧
    stoi "99999999999" = .error (.outOfRange "stoi") ∧
    updateScaleInfo exampleStof [.scale exampleScaleEmpty]
        (exampleTaggedWeight 3 [("muR", "abc"), ("muF", "2.0"), ("pdf", "99999999999")])
      = .error (.outOfRange "stoi") := by
  decide

/-- C12, as stated, fails: both scale factors parse, the `dyn` field holds the text `abc`, and
`updateScaleInfo` registers no tuple and sets the well-formedness flag of the group to false. -/
theorem updateScaleInfo_bad_dyn_flags_group :
    exampleStof "1.0" = .ok (.finite 1 0) ∧ exampleStof "2.0" = .ok (.finite 1 1) ∧
    exampleScaleEmpty.isWellFormed = true ∧
    updateScaleInfo exampleStof [.scale exampleScaleEmpty]
        (exampleTaggedWeight 3 [("muR", "1.0"), ("muF", "2.0"), ("DYN_SCALE", "abc")])
      = .ok [.scale ((exampleScaleEmpty.setIsWellFormed false).setLhaid (-2))] ∧
    ((exampleScaleEmpty.setIsWellFormed false).setLhaid (-2)).muRMuFByIndex = [] ∧
    ((exampleScaleEmpty.setIsWellFormed false).setLhaid (-2)).isWellFormed = false := by
  decide

/-- C12 (amended): for a weight whose `mur` and `muf` texts are present and convert to numbers,
`updateScaleInfo` registers the tuple `(muR, muF)` under the index of the weight and leaves the
well-formedness flag as it was when the `dyn` field is empty, and does the same with the tuple
`(muR, muF, dynNum, dynName)` when the `dyn` text converts to an integer; when the `dyn` text is
present without an integer parse, no tuple is registered and the flag is set to false.
(Conversions that overflow an `int` are left aside.) -/
theorem updateScaleInfo_registers (stof : String → Except HelperError FloatValue)
    (front : List WeightGroupInfo) (g : ScaleWeightGroupInfo) (weight : ParsedWeight)
    (muRText muFText dynText : String) (muR muF : FloatValue)
    (hmur : searchAttributes "mur" weight = .ok muRText)
    (hmuf : searchAttributes "muf" weight = .ok muFText)
    (hRne : muRText ≠ "") (hFne : muFText ≠ "")
    (hR : stof muRText = .ok muR) (hF : stof muFText = .ok muF)
    (hdyn : searchAttributes "dyn" weight = .ok dynText)
    (hdynRange : stoi dynText ≠ .error (.outOfRange "stoi"))
    (hpdf : g.lhaid ≠ -1 ∨ ∀ text, searchAttributes "pdf" weight = .ok text →
      stoi text ≠ .error (.outOfRange "stoi")) :
    ∃ updated : ScaleWeightGroupInfo,
      updateScaleInfo stof (front ++ [.scale g]) weight = .ok (front ++ [.scale updated]) ∧
      (dynText = "" →
        updated.muRMuFByIndex
            = (weight.index, { muR := muR, muF := muF, dynNum := none, dynLabel := none })
              :: g.muRMuFByIndex ∧
          updated.isWellFormed = g.isWellFormed) ∧
      (∀ dynNum, dynText ≠ "" → stoi dynText = .ok dynNum →
        ∃ dynType, searchAttributes "dyn_name" weight = .ok dynType ∧
          updated.muRMuFByIndex
            = (weight.index,
                { muR := muR, muF := muF, dynNum := some dynNum, dynLabel := some dynType })
              :: g.muRMuFByIndex ∧
          updated.isWellFormed = g.isWellFormed) ∧
      (dynText ≠ "" → stoi dynText = .error (.invalidArgument "stoi") →
        updated.muRMuFByIndex = g.muRMuFByIndex ∧ updated.isWellFormed = false) := by
  obtain ⟨dynType, hname⟩ :=
    searchAttributes_known "dyn_name" ["dyn_scale_choice"] weight (by decide)
  rw [updateScaleInfo_concat, updateScaleInfoBody_nonempty stof g weight muRText muFText hmur hmuf
    hRne hFne]
  by_cases hd : dynText = ""
  · subst hd
    rw [updateScaleInfoTry_plain stof g weight muRText muFText muR muF hR hF hdyn]
    obtain ⟨lhaid, hl, _⟩ :=
      updateScaleInfoLhaid_ok (g.setMuRMuFIndex weight.index weight.id muR muF) weight hpdf
    refine ⟨(g.setMuRMuFIndex weight.index weight.id muR muF).setLhaid lhaid,
      by simp only [hl], fun _ => ⟨rfl, rfl⟩, fun n h => absurd rfl h, fun h => absurd rfl h⟩
  · rw [updateScaleInfoTry_dyn stof g weight muRText muFText dynText dynType muR muF hR hF hdyn
      hd hname]
    rcases stoi_cases dynText with ⟨v, hv⟩ | hv | hv
    · obtain ⟨lhaid, hl, _⟩ :=
        updateScaleInfoLhaid_ok
          (g.setMuRMuFIndexDyn weight.index weight.id muR muF v dynType) weight hpdf
      refine ⟨(g.setMuRMuFIndexDyn weight.index weight.id muR muF v dynType).setLhaid lhaid,
        by simp only [hv, hl], fun h => absurd h hd, fun n _ hn => ?_, fun _ h => ?_⟩
      · rw [hv] at hn
        have hn2 : v = n := by simpa using hn
        subst hn2
        exact ⟨dynType, hname, rfl, rfl⟩
      · rw [hv] at h
        simp at h
    · obtain ⟨lhaid, hl, _⟩ := updateScaleInfoLhaid_ok (g.setIsWellFormed false) weight hpdf
      refine ⟨(g.setIsWellFormed false).setLhaid lhaid, by simp only [hv, hl],
        fun h => absurd h hd, fun n _ hn => ?_, fun _ _ => ⟨rfl, rfl⟩⟩
      rw [hv] at hn
      simp at hn
    · exact absurd hv hdynRange

/-- Witness for C12 (amended): the weight with index 3 tagged `muR="1.0"`, `muF="2.0"`,
`DYN_SCALE="3"` and `dyn_scale_choice="sum pt"`, on a registry ending with an empty Scale
group. -/
theorem updateScaleInfo_registers_witness :
    updateScaleInfo exampleStof [exampleGroupB, .scale exampleScaleEmpty]
        (exampleTaggedWeight 3
          [("muR", "1.0"), ("muF", "2.0"), ("DYN_SCALE", "3"), ("dyn_scale_choice", "sum pt")])
      = .ok [exampleGroupB,
          .scale ((exampleScaleEmpty.setMuRMuFIndexDyn 3 "w" (.finite 1 0) (.finite 1 1) 3
            "sum pt").setLhaid (-2))] ∧
    ∃ updated : ScaleWeightGroupInfo,
      updateScaleInfo exampleStof ([exampleGroupB] ++ [.scale exampleScaleEmpty])
          (exampleTaggedWeight 3
            [("muR", "1.0"), ("muF", "2.0"), ("DYN_SCALE", "3"), ("dyn_scale_choice", "sum pt")])
        = .ok ([exampleGroupB] ++ [.scale updated]) :=
  ⟨by decide,
    (updateScaleInfo_registers exampleStof [exampleGroupB] exampleScaleEmpty
      (exampleTaggedWeight 3
        [("muR", "1.0"), ("muF", "2.0"), ("DYN_SCALE", "3"), ("dyn_scale_choice", "sum pt")])
      "1.0" "2.0" "3" (.finite 1 0) (.finite 1 1) (by decide) (by decide) (by decide) (by decide)
      (by decide) (by decide) (by decide) (by decide)
      (Or.inr (fun text h => by
        have ht : text = "" := by
          have h2 : searchAttributes "pdf" (exampleTaggedWeight 3
              [("muR", "1.0"), ("muF", "2.0"), ("DYN_SCALE", "3"),
                ("dyn_scale_choice", "sum pt")]) = .ok "" := by decide
          rw [h2] at h
          exact (Except.ok.inj h).symm
        subst ht
        decide))).imp (fun _ h => h.1)⟩

/-- C13 fails on the code: both scale factors parse and the group has `lhaid = -1`, but for the
`pdf` text `99999999999`, a digit string too large for an `int`, `updateScaleInfo` does not store
`-2`: the `std::out_of_range` of `std::stoi` is not caught and the call raises. -/
theorem updateScaleInfo_lhaid_overflow_raises :
    exampleStof "1.0" = .ok (.finite 1 0) ∧ exampleStof "2.0" = .ok (.finite 1 1) ∧
    exampleScaleEmpty.lhaid = -1 ∧
    stoi "99999999999" = .error (.outOfRange "stoi") ∧
    updateScaleInfo exampleStof [.scale exampleScaleEmpty]
        (exampleTaggedWeight 3 [("muR", "1.0"), ("muF", "2.0"), ("pdf", "99999999999")])
      = .error (.outOfRange "stoi") := by
  decide

/-! ## Pdf groups: `getLhapdfId`, `updatePdfInfo`, `isOrphanPdfWeightGroup` -/

/-- C14 fails on the code: for the non-empty `pdf` text `99999999999` `getLhapdfId` returns
neither an integer nor `-1` with the group flagged: the `std::out_of_range` of `std::stoi` is not
caught and the call raises. -/
theorem getLhapdfId_overflow_raises :
    searchAttributes "pdf" (exampleTaggedWeight 3 [("pdf", "99999999999")])
      = .ok "99999999999" ∧
    stoi "99999999999" = .error (.outOfRange "stoi") ∧
    getLhapdfId exampleLhapdf [.pdf examplePdfEmpty]
        (exampleTaggedWeight 3 [("pdf", "99999999999")])
      = .error (.outOfRange "stoi") := by
  decide

/-- C15, as stated, fails: for the first member of a Pdf group tagged `pdf="2147483647"`, an id
the lookup does not know (member offset `-1`), `L - memberOffset(L)` is `2147483648`, which is
no `int`; the parent id that `updatePdfInfo` stores is `-2147483648`, and the description names
that number. -/
theorem updatePdfInfo_parent_id_overflow :
    examplePdfEmpty.parentLhapdfId = -1 ∧
    getLhapdfId exampleLhapdf [.pdf examplePdfEmpty]
        (exampleTaggedWeight 3 [("pdf", "2147483647")])
      = .ok (2147483647, [.pdf examplePdfEmpty]) ∧
    (2147483647 : Int) - (exampleLhapdf.lookupPDF 2147483647).2 = 2147483648 ∧
    ∃ updated : PdfWeightGroupInfo,
      updatePdfInfo exampleLhapdf [.pdf examplePdfEmpty]
          (exampleTaggedWeight 3 [("pdf", "2147483647")])
        = .ok [.pdf updated] ∧
      updated.parentLhapdfId = -2147483648 ∧
      updated.parentLhapdfId ≠ 2147483647 - (exampleLhapdf.lookupPDF 2147483647).2 ∧
      updated.description = "Uncertainty sets for LHAPDF set  with LHAID = -2147483648; " :=
  ⟨by decide, by decide, by decide,
    { examplePdfEmpty with
      description := "Uncertainty sets for LHAPDF set  with LHAID = -2147483648; ",
      lhaIds := [2147483647], parentLhapdfId := -2147483648 },
    by decide⟩

/-- C15 (amended): for a Pdf group with `parentLhapdfId = -1` and a weight whose member id
resolves to `L`, with `L - memberOffset(L)` in the range of an `int`, after `updatePdfInfo` the
parent id is `L - memberOffset(L)`, the uncertainty type is Unknown, the description has grown by
a text that starts with "Uncertainty sets for LHAPDF set " followed by the name of the parent
set, and `L` is the last element of `lhaIds`. -/
theorem updatePdfInfo_first_member (lhapdf : LhapdfLookup) (front : List WeightGroupInfo)
    (g g1 : PdfWeightGroupInfo) (weight : ParsedWeight) (L : Int)
    (hparent : g.parentLhapdfId = -1)
    (hid : getLhapdfId lhapdf (front ++ [.pdf g]) weight = .ok (L, front ++ [.pdf g1]))
    (hrange : -2147483648 ≤ L - (lhapdf.lookupPDF L).2 ∧
      L - (lhapdf.lookupPDF L).2 ≤ 2147483647) :
    ∃ updated : PdfWeightGroupInfo,
      updatePdfInfo lhapdf (front ++ [.pdf g]) weight = .ok (front ++ [.pdf updated]) ∧
      updated.parentLhapdfId = L - (lhapdf.lookupPDF L).2 ∧
      updated.uncertaintyType = .kUnknownUnc ∧
      updated.description = g.description ++
        (("Uncertainty sets for LHAPDF set " ++ (lhapdf.lookupPDF (L - (lhapdf.lookupPDF L).2)).1)
          ++ (" with LHAID = " ++ toString (L - (lhapdf.lookupPDF L).2) ++ "; ")) ∧
      updated.lhaIds = g.lhaIds ++ [L] := by
  rw [getLhapdfId_concat] at hid
  cases hbody : getLhapdfIdBody lhapdf g weight with
  | error e => rw [hbody] at hid; simp at hid
  | ok r =>
    obtain ⟨L2, g2⟩ := r
    rw [hbody] at hid
    simp only [Except.ok.injEq, Prod.mk.injEq] at hid
    obtain ⟨hL, _⟩ := hid
    subst hL
    have hwrap : wrapInt32 (L2 - (lhapdf.lookupPDF L2).2) = L2 - (lhapdf.lookupPDF L2).2 :=
      wrapInt32_of_range _ hrange.1 hrange.2
    have hg2 := getLhapdfIdBody_group lhapdf g g2 weight L2 hbody
    have hp2 : g2.parentLhapdfId < 0 := by
      rcases hg2 with h | h <;> subst h
      · omega
      · show g.parentLhapdfId < 0
        omega
    have hd2 : g2.description = g.description := by
      rcases hg2 with h | h <;> subst h <;> rfl
    have hl2 : g2.lhaIds = g.lhaIds := by
      rcases hg2 with h | h <;> subst h <;> rfl
    rw [updatePdfInfo_concat]
    unfold updatePdfInfoBody
    simp only [hbody, hp2, if_true, hwrap]
    refine ⟨_, rfl, rfl, rfl, ?_, ?_⟩
    · simp only [PdfWeightGroupInfo.addLhaid, PdfWeightGroupInfo.appendDescription,
        PdfWeightGroupInfo.setUncertaintyType, PdfWeightGroupInfo.setParentLhapdfInfo,
        pdfDescription, hd2]
      simp [String.append_assoc]
    · simp only [PdfWeightGroupInfo.addLhaid, PdfWeightGroupInfo.appendDescription,
        PdfWeightGroupInfo.setUncertaintyType, PdfWeightGroupInfo.setParentLhapdfInfo, hl2]

/-- Witness for C15 (amended): the first member, tagged `pdf="13001"`, of an empty Pdf group; the
parent set is 13000, `CT14nnlo`. -/
theorem updatePdfInfo_first_member_witness :
    ((exampleLhapdf.lookupPDF 13001).2 = 1 ∧ (exampleLhapdf.lookupPDF 13000).1 = "CT14nnlo") ∧
    ∃ updated : PdfWeightGroupInfo,
      updatePdfInfo exampleLhapdf ([exampleGroupA] ++ [.pdf examplePdfEmpty])
          (exampleTaggedWeight 3 [("pdf", "13001")])
        = .ok ([exampleGroupA] ++ [.pdf updated]) ∧
      updated.parentLhapdfId = 13001 - (exampleLhapdf.lookupPDF 13001).2 ∧
      updated.uncertaintyType = .kUnknownUnc ∧
      updated.description = examplePdfEmpty.description ++
        (("Uncertainty sets for LHAPDF set "
            ++ (exampleLhapdf.lookupPDF (13001 - (exampleLhapdf.lookupPDF 13001).2)).1)
          ++ (" with LHAID = " ++ toString (13001 - (exampleLhapdf.lookupPDF 13001).2) ++ "; ")) ∧
      updated.lhaIds = examplePdfEmpty.lhaIds ++ [13001] :=
  ⟨by decide,
    updatePdfInfo_first_member exampleLhapdf [exampleGroupA] examplePdfEmpty examplePdfEmpty
      (exampleTaggedWeight 3 [("pdf", "13001")]) 13001 (by decide) (by decide) (by decide)⟩

/-- C16: `isOrphanPdfWeightGroup` never raises; it returns true exactly when the `pdf` text of
the weight converts to an integer id for which the lookup gives a non-empty set name and member
offset 0; then the group name of the weight has become that set name, and when it returns false
the weight is as it was. -/
theorem isOrphanPdfWeightGroup_iff (lhapdf : LhapdfLookup) (weight : ParsedWeight) :
    ∃ (text : String) (result : Bool) (after : ParsedWeight),
      searchAttributes "pdf" weight = .ok text ∧
      isOrphanPdfWeightGroup lhapdf weight = .ok (result, after) ∧
      (result = true ↔ ∃ id, stoi text = .ok id ∧ (lhapdf.lookupPDF id).1 ≠ "" ∧
        (lhapdf.lookupPDF id).2 = 0) ∧
      (result = true → ∃ id, stoi text = .ok id ∧
        after = { weight with groupname := (lhapdf.lookupPDF id).1 }) ∧
      (result = false → after = weight) := by
  obtain ⟨text, htext⟩ := searchAttributes_pdf weight
  unfold isOrphanPdfWeightGroup
  simp only [htext]
  rcases stoi_cases text with ⟨v, hv⟩ | hv | hv
  · simp only [hv]
    by_cases hc : ((lhapdf.lookupPDF v).1 != "" && (lhapdf.lookupPDF v).2 == 0) = true
    · simp only [hc, if_true]
      have hc2 : (lhapdf.lookupPDF v).1 ≠ "" ∧ (lhapdf.lookupPDF v).2 = 0 := by
        simpa using hc
      exact ⟨text, true, _, rfl, rfl, ⟨fun _ => ⟨v, hv, hc2.1, hc2.2⟩, fun _ => rfl⟩,
        fun _ => ⟨v, hv, rfl⟩, fun h => by simp at h⟩
    · simp only [hc, if_false]
      refine ⟨text, false, _, rfl, rfl, ⟨fun h => by simp at h, fun ⟨id, hid, h1, h2⟩ => ?_⟩,
        fun h => by simp at h, fun _ => rfl⟩
      rw [hv] at hid
      have hid2 : v = id := Except.ok.inj hid
      subst hid2
      exact absurd (by simp [h1, h2]) hc
  · simp only [hv]
    exact ⟨text, false, _, rfl, rfl,
      ⟨fun h => by simp at h, fun ⟨id, hid, _⟩ => by rw [hv] at hid; simp at hid⟩,
      fun h => by simp at h, fun _ => rfl⟩
  · simp only [hv]
    exact ⟨text, false, _, rfl, rfl,
      ⟨fun h => by simp at h, fun ⟨id, hid, _⟩ => by rw [hv] at hid; simp at hid⟩,
      fun h => by simp at h, fun _ => rfl⟩

/-- C18, as stated, fails at the hint `INT_MAX`: the head of the first loop evaluates `index+1`
on `INT_MAX`, a signed overflow, so the loop does not end by its condition and
`findWeightGroup` returns neither the index of group `B`, which contains the weight with index
4, nor `-1` for a weight that no group contains. -/
theorem findWeightGroup_overflow_at_int_max :
    ExternalLHEProducer.probeLoop specOps exampleRegistryAB "b4" 4 2147483647
        (1 + exampleRegistryAB.length) 2147483647 = .error .signedOverflow ∧
    (∃ g ∈ exampleRegistryAB, specOps.containsWeight g "b4" 4 = true) ∧
    ExternalLHEProducer.findWeightGroup specOps exampleRegistryAB "b4" 4 2147483647
      = .error .signedOverflow ∧
    (∀ g ∈ exampleRegistryAB, specOps.containsWeight g "zz" 9 = false) ∧
    ExternalLHEProducer.findWeightGroup specOps exampleRegistryAB "zz" 9 2147483647
      = .error .signedOverflow ∧
    ExternalLHEProducer.findWeightGroup specOps exampleRegistryAB "zz" 9 2147483647
      ≠ .ok (-1) := by
  decide

/-- C18 (amended): on a registry of fewer than `INT_MAX` groups and for a hint below `INT_MAX`,
`ExternalLHEProducer::findWeightGroup` probes the single entry `p = max(previousGroupIndex, 0)`
and then scans the whole registry: its first loop ends by itself; the function returns a value
and raises nothing; the result is `p` when group `p` exists, has the index in range and contains
the weight; otherwise it is the lowest index of a group containing the weight; and it is `-1`
exactly when no group contains the weight. -/
theorem findWeightGroup_single_probe (ops : WeightGroupOps G) (weightGroups_ : List G)
    (wgtId : String) (weightIndex previousGroupIndex : Int)
    (_hsize : weightGroups_.length < 2147483647) (hhint : previousGroupIndex < 2147483647) :
    (∃ outcome, ExternalLHEProducer.probeLoop ops weightGroups_ wgtId weightIndex
        (max previousGroupIndex 0).toNat (1 + weightGroups_.length)
        (max previousGroupIndex 0).toNat = .ok outcome ∧ outcome ≠ .outOfFuel) ∧
    (∃ result, ExternalLHEProducer.findWeightGroup ops weightGroups_ wgtId weightIndex
        previousGroupIndex = .ok result) ∧
    (∀ g, weightGroups_[(max previousGroupIndex 0).toNat]? = some g →
      (ops.indexInRange g weightIndex && ops.containsWeight g wgtId weightIndex) = true →
      ExternalLHEProducer.findWeightGroup ops weightGroups_ wgtId weightIndex previousGroupIndex
        = .ok (max previousGroupIndex 0)) ∧
    ((∀ g, weightGroups_[(max previousGroupIndex 0).toNat]? = some g →
        (ops.indexInRange g weightIndex && ops.containsWeight g wgtId weightIndex) = false) →
      ∀ (i : Nat) (g : G), weightGroups_[i]? = some g →
        ops.containsWeight g wgtId weightIndex = true →
        (∀ (m : Nat) (g2 : G), m < i → weightGroups_[m]? = some g2 →
          ops.containsWeight g2 wgtId weightIndex = false) →
        ExternalLHEProducer.findWeightGroup ops weightGroups_ wgtId weightIndex
          previousGroupIndex = .ok (i : Int)) ∧
    (ExternalLHEProducer.findWeightGroup ops weightGroups_ wgtId weightIndex previousGroupIndex
        = .ok (-1) ↔
      ∀ g ∈ weightGroups_, ops.containsWeight g wgtId weightIndex = false) := by
  obtain ⟨hsome, hnone⟩ := fallbackSearch_spec ops wgtId weightIndex weightGroups_ 0
  obtain ⟨hcont, hmiss⟩ := ExternalLHEProducer.findWeightGroup_cases ops weightGroups_ wgtId
    weightIndex previousGroupIndex (Or.inl hhint)
  have hdich : (∃ g ∈ weightGroups_, ops.containsWeight g wgtId weightIndex = true) ∨
      ∀ g ∈ weightGroups_, ops.containsWeight g wgtId weightIndex = false := by
    by_cases hex : ∃ g ∈ weightGroups_, ops.containsWeight g wgtId weightIndex = true
    · exact Or.inl hex
    · refine Or.inr (fun g hm => ?_)
      by_contra h
      exact hex ⟨g, hm, by simpa using h⟩
  refine ⟨?_, ?_, ?_, ?_, ?_⟩
  · rw [Nat.add_comm 1]
    exact ExternalLHEProducer.probeLoop_terminates ops weightGroups_ wgtId weightIndex _ _ _
      (by omega) (hint_bound weightGroups_ previousGroupIndex (Or.inl hhint))
  · rcases hdich with hex | hall
    · obtain ⟨n, g, h, _⟩ := hcont hex
      exact ⟨_, h⟩
    · exact ⟨_, hmiss hall⟩
  · exact fun g hg hok => ExternalLHEProducer.findWeightGroup_probe ops weightGroups_ wgtId
      weightIndex previousGroupIndex g hg hok
  · intro hno i g hg hc hmin
    rw [ExternalLHEProducer.findWeightGroup_fallback ops weightGroups_ wgtId weightIndex
      previousGroupIndex (Or.inl hhint) hno]
    cases hf : fallbackSearch ops wgtId weightIndex weightGroups_ 0 with
    | none =>
      have := hnone.mp hf g (List.getElem?_mem hg)
      rw [this] at hc
      exact absurd hc (by simp)
    | some r =>
      obtain ⟨n, g3, hr, hg3, hc3, hmin3⟩ := hsome r hf
      have h1 : ¬ n < i := fun h => by
        have := hmin n g3 h hg3
        rw [this] at hc3
        exact absurd hc3 (by simp)
      have h2 : ¬ i < n := fun h => by
        have := hmin3 i g h hg
        rw [this] at hc
        exact absurd hc (by simp)
      have : n = i := by omega
      subst this
      simp [hr]
  · rcases hdich with hex | hall
    · obtain ⟨n, g, h, hg, hc⟩ := hcont hex
      rw [h]
      constructor
      · intro heq
        simp only [Except.ok.injEq] at heq
        omega
      · intro hall
        rw [hall g (List.getElem?_mem hg)] at hc
        exact absurd hc (by simp)
    · exact ⟨fun _ => hall, fun _ => hmiss hall⟩

/-- Witness for C18 (amended) on the merged registry `[Y(idx 1, 2), S(idx 3, 4, 0)]`: for the
weight with index 3 and hint 0 the single probe of entry 0 fails, and the full scan gives index
0, the first group that contains the weight (by its empty id). -/
theorem findWeightGroup_single_probe_witness :
    exampleRegistryMerged.length < 2147483647 ∧ (0 : Int) < 2147483647 ∧
    ExternalLHEProducer.findWeightGroup specOps exampleRegistryMerged "" 3 0
      = .ok ((0 : Nat) : Int) :=
  ⟨by decide, by decide,
    (findWeightGroup_single_probe specOps exampleRegistryMerged "" 3 0 (by decide)
      (by decide)).2.2.2.1
      (fun g hg => by
        have h0 : exampleRegistryMerged[(max (0 : Int) 0).toNat]?
            = some (exampleRegistryMerged.get ⟨0, by decide⟩) := by decide
        rw [h0] at hg
        have hg2 : g = exampleRegistryMerged.get ⟨0, by decide⟩ := (Option.some.inj hg).symm
        subst hg2
        decide)
      0 (exampleRegistryMerged.get ⟨0, by decide⟩) (by decide) (by decide)
      (fun m g2 hm _ => absurd hm (Nat.not_lt_zero m))⟩

/-- C19 fails on the code: in a registry where the index 1 is recorded by both groups and the
index 0 only by the second, the `double` overload resolves the second weight with hint 0 (the
index returned for the first weight is discarded) and gives group 0, where the `WeightsInfo`
overload resolves it with hint 1 and gives group 1. -/
theorem weightProductDouble_discards_hint :
    2 ≤ exampleRegistryOverlap.length ∧
    (weightProductDouble specOps exampleRegistryOverlap [(10 : Int), 20] 1).map
      (fun p => p.weights) = .ok [(10, 1, 0), (20, 0, 0)] ∧
    (weightProductInfo specOps exampleRegistryOverlap [⟨"", (10 : Int)⟩, ⟨"", 20⟩] 1).map
      (fun p => p.weights) = .ok [(10, 1, 0), (20, 1, 1)] := by
  decide

/-- C20, as stated, fails: `weightNum` is advanced only when a weight is stored.  On the registry
`[A(idx 0-2), B(idx 3-5)]` and an event with eight weights, the weights at the positions 0 to 5
are stored; the weight at position 6 is unmatched and skipped, and the loop goes on with
`weightNum = 6`: the weight at position 7 is resolved with the index 6, not 7. -/
theorem produce_weightNum_lags_after_skip :
    ExternalLHEProducer.produceWeights specOps exampleRegistryAB (exampleEventWeights.take 6)
      = .ok { weightProduct :=
                [(10, 0, 0), (20, 0, 1), (30, 0, 2), (40, 1, 0), (50, 1, 1), (60, 1, 2)]
              weightGroupIndex := 1
              weightNum := 6 } ∧
    ExternalLHEProducer.findWeightGroup specOps exampleRegistryAB "7" 6 1 = .ok (-1) ∧
    ExternalLHEProducer.produceWeights specOps exampleRegistryAB (exampleEventWeights.take 7)
      = .ok { weightProduct :=
                [(10, 0, 0), (20, 0, 1), (30, 0, 2), (40, 1, 0), (50, 1, 1), (60, 1, 2)]
              weightGroupIndex := -1
              weightNum := 6 } ∧
    ExternalLHEProducer.produceWeights specOps exampleRegistryAB exampleEventWeights
      = .ok { weightProduct :=
                [(10, 0, 0), (20, 0, 1), (30, 0, 2), (40, 1, 0), (50, 1, 1), (60, 1, 2)]
              weightGroupIndex := -1
              weightNum := 6 } := by
  decide

/-- C20 (amended): the weight loop of `ExternalLHEProducer::produce` ends without error for
every registry and every event weight list, and it resolves each weight with the number of
weights stored before it: `weightNum` equals the length of the product, so a weight that follows
the list `weights` is resolved with that number; it is stored, with the index of a group that
contains it under that index and the slot `weightVectorEntry` gives it there, and `weightNum`
advances when some group contains it under that index; it is skipped, and `weightNum` stays,
when none does.  The product holds values of the event weights in input order, the entry at
place `j` resolved with the index `j`.  When no weight is skipped (each weight at position `k`
is contained in a group under the index `k`), the product has one entry per weight and the
weight at position `k` is resolved with the index `k`. -/
theorem produce_resolves_with_stored_count (ops : WeightGroupOps G) (weightGroups_ : List G)
    (weights : List (WeightsInfo V)) :
    ∃ state : ProduceState V,
      ExternalLHEProducer.produceWeights ops weightGroups_ weights = .ok state ∧
      state.weightNum = (state.weightProduct.length : Int) ∧
      List.Sublist (state.weightProduct.map (fun t => t.1)) (weights.map (fun w => w.wgt)) ∧
      (∀ (j : Nat) (t : V × Int × Int), state.weightProduct[j]? = some t →
        ∃ (n : Nat) (group : G) (w : WeightsInfo V), w ∈ weights ∧
          weightGroups_[n]? = some group ∧ ops.containsWeight group w.id (j : Int) = true ∧
          t = (w.wgt, (n : Int), ops.weightVectorEntry group w.id (j : Int))) ∧
      (∀ weight : WeightsInfo V,
        ((∃ g ∈ weightGroups_, ops.containsWeight g weight.id state.weightNum = true) →
          ∃ (n : Nat) (group : G),
            ExternalLHEProducer.findWeightGroup ops weightGroups_ weight.id state.weightNum
              state.weightGroupIndex = .ok (n : Int) ∧
            weightGroups_[n]? = some group ∧
            ops.containsWeight group weight.id state.weightNum = true ∧
            ExternalLHEProducer.produceWeights ops weightGroups_ (weights ++ [weight]) = .ok
              { weightProduct := state.weightProduct ++
                  [(weight.wgt, (n : Int),
                    ops.weightVectorEntry group weight.id state.weightNum)]
                weightGroupIndex := (n : Int)
                weightNum := state.weightNum + 1 }) ∧
        ((∀ g ∈ weightGroups_, ops.containsWeight g weight.id state.weightNum = false) →
          ExternalLHEProducer.produceWeights ops weightGroups_ (weights ++ [weight]) = .ok
            { weightProduct := state.weightProduct
              weightGroupIndex := -1
              weightNum := state.weightNum })) ∧
      ((∀ (k : Nat) (w : WeightsInfo V), weights[k]? = some w →
          ∃ g ∈ weightGroups_, ops.containsWeight g w.id (k : Int) = true) →
        state.weightProduct.length = weights.length ∧
        ∀ (k : Nat) (w : WeightsInfo V), weights[k]? = some w →
          ∃ (groupIndex entry : Int),
            state.weightProduct[k]? = some (w.wgt, groupIndex, entry)) := by
  obtain ⟨state, added, hrun, hhint, hnum, hprod, hsub, hentries⟩ :=
    ExternalLHEProducer.produceLoop_invariant ops weightGroups_ weights
      { weightProduct := [], weightGroupIndex := 0, weightNum := 0 }
      (Or.inl (by norm_num)) rfl
  have hadded : state.weightProduct = added := by
    rw [hprod]; rfl
  refine ⟨state, hrun, hnum, by rw [hadded]; exact hsub, ?_, ?_, ?_⟩
  · intro j t hj
    rw [hadded] at hj
    obtain ⟨n, group, w, hw, hg, hc, ht⟩ := hentries j t hj
    refine ⟨n, group, w, hw, hg, ?_, ?_⟩
    · simpa using hc
    · simpa using ht
  · intro weight
    obtain ⟨hstore, hskip⟩ :=
      ExternalLHEProducer.produceStep_cases ops weightGroups_ state weight hhint
    have happ : ExternalLHEProducer.produceWeights ops weightGroups_ (weights ++ [weight])
        = ExternalLHEProducer.produceStep ops weightGroups_ state weight := by
      unfold ExternalLHEProducer.produceWeights
      rw [ExternalLHEProducer.produceLoop_append, hrun]
    refine ⟨fun hex => ?_, fun hall => ?_⟩
    · obtain ⟨n, group, h1, h2, h3, h4⟩ := hstore hex
      exact ⟨n, group, h1, h2, h3, by rw [happ, h4]⟩
    · rw [happ, hskip hall]
  · intro hall
    obtain ⟨_, added2, h2, h3, h4⟩ :=
      ExternalLHEProducer.produceLoop_no_skip ops weightGroups_ weights
        { weightProduct := [], weightGroupIndex := 0, weightNum := 0 } state 0
        (Or.inl (by norm_num)) rfl (fun k w hk => by simpa using hall k w hk) hrun
    have hadded2 : state.weightProduct = added2 := by
      rw [h2]; rfl
    rw [hadded2]
    exact ⟨h3, h4⟩

/-- Witness for C20 (amended) on the registry `[A(idx 0-2), B(idx 3-5)]`: after the first six
event weights `weightNum` is 6, the length of the product; the seventh weight is contained in no
group under the index 6, so it is skipped and `weightNum` stays 6. -/
theorem produce_resolves_with_stored_count_witness :
    ExternalLHEProducer.produceWeights specOps exampleRegistryAB
        (exampleEventWeights.take 6 ++ [({ id := "7", wgt := 70 } : WeightsInfo Int)])
      = .ok { weightProduct :=
                [(10, 0, 0), (20, 0, 1), (30, 0, 2), (40, 1, 0), (50, 1, 1), (60, 1, 2)]
              weightGroupIndex := -1
              weightNum := 6 } := by
  obtain ⟨state, hrun, _, _, _, hstep, _⟩ :=
    produce_resolves_with_stored_count specOps exampleRegistryAB (exampleEventWeights.take 6)
  have hconcrete : ExternalLHEProducer.produceWeights specOps exampleRegistryAB
      (exampleEventWeights.take 6)
      = .ok { weightProduct :=
                [(10, 0, 0), (20, 0, 1), (30, 0, 2), (40, 1, 0), (50, 1, 1), (60, 1, 2)]
              weightGroupIndex := 1
              weightNum := 6 } := by decide
  rw [hconcrete] at hrun
  have hstate := (Except.ok.inj hrun).symm
  subst hstate
  exact (hstep { id := "7", wgt := 70 }).2 (by decide)
/-! ## Copying a Pdf group -/

/-- C21 fails on the code: copying a group whose upward alpha_s index is 101 and whose downward
one is 102 into an empty group gives the uncertainty type, the alpha_s flag and the downward
index of the source, but the upward index 102: `copy` assigns `other.alphasDownIndex()` to
`alphasUpIndex_`. -/
theorem PdfWeightGroupInfo_copy_alphasUpIndex :
    examplePdfWithAlphas.alphasUpIndex = 101 ∧ examplePdfWithAlphas.alphasDownIndex = 102 ∧
    (PdfWeightGroupInfo.copy exampleBaseCopy examplePdfEmpty examplePdfWithAlphas).uncertaintyType
      = examplePdfWithAlphas.uncertaintyType ∧
    (PdfWeightGroupInfo.copy exampleBaseCopy examplePdfEmpty examplePdfWithAlphas).hasAlphasVars
      = examplePdfWithAlphas.hasAlphasVars ∧
    (PdfWeightGroupInfo.copy exampleBaseCopy examplePdfEmpty examplePdfWithAlphas).alphasDownIndex
      = examplePdfWithAlphas.alphasDownIndex ∧
    (PdfWeightGroupInfo.copy exampleBaseCopy examplePdfEmpty examplePdfWithAlphas).alphasUpIndex
      = 102 ∧
    (PdfWeightGroupInfo.copy exampleBaseCopy examplePdfEmpty examplePdfWithAlphas).alphasUpIndex
      ≠ examplePdfWithAlphas.alphasUpIndex := by
  decide

end gen
